import Mathlib

/-!
# Sprite fragments of the Vulkan renderer (`rv_sprites.cpp`)

A shallow embedding of the sprite splitting and depth ordering code of
`src/game/Doom/RendererVk/rv_sprites.cpp`, and theorems about it.

Conventions of the embedding.

* `float` values are rationals: arithmetic is exact, the literals `0.99f`, `1.01f`
  and `0.5f` are `99/100`, `101/100` and `1/2`.
* `int32_t` and `fixed_t` values are integers; where the source applies a bit
  operation to a node index the index is first read as a 32 bit unsigned value.
* The global vectors are lists, and an access outside a vector (or a failed
  `ASSERT`) makes the function return `none`. The size of a vector is a natural
  number; the store of a frame is taken to hold fewer than `2^31` fragments, so that
  `(int32_t) gRvSpriteFrags.size()` is that number.
* The two recursive walks over the BSP tree take a fuel argument that bounds the
  recursion depth; they return `none` when it runs out.
* Constants and helpers that are declared in headers outside this file
  (`NF_SUBSECTOR`, `RV_FixedToFloat`, `RV_LinesIntersect`, ...) are fields of `Env`.
-/

namespace RvSprites

/-! ## Data model -/

/-- The draw pipelines a sprite fragment can select (`VPipelineType`, sprite subset). -/
inductive VPipelineType
  | World_SpriteMasked
  | World_SpriteAdditive
  | World_SpriteSubtractive
  | World_SpriteAlpha
  deriving DecidableEq

/-- A piece of a sprite (`struct SpriteFrag`). -/
structure SpriteFrag where
  nextSubsecFragIdx : Int
  depth : ℚ
  x1 : ℚ
  z1 : ℚ
  x2 : ℚ
  z2 : ℚ
  yt : ℚ
  yb : ℚ
  ul : ℚ
  ur : ℚ
  vt : ℚ
  vb : ℚ
  drawPipeline : VPipelineType
  colR : Nat
  colG : Nat
  colB : Nat
  stMulR : Nat
  stMulG : Nat
  stMulB : Nat
  stMulA : Nat
  texWinX : Nat
  texWinY : Nat
  texWinW : Nat
  texWinH : Nat
  deriving DecidableEq

/-- A short 2D line crossing a candidate split (`struct SplitTestLine`). -/
structure SplitTestLine where
  x1 : ℚ
  z1 : ℚ
  x2 : ℚ
  z2 : ℚ
  y : ℚ
  deriving DecidableEq

/-- A map vertex (`vertex_t`), fixed point coordinates. -/
structure vertex_t where
  x : Int
  y : Int
  deriving DecidableEq

/-- A map line (`line_t`): the fields read by the split test. -/
structure line_t where
  vertex1 : vertex_t
  vertex2 : vertex_t
  flags : Nat
  deriving DecidableEq

/-- A sector (`sector_t`): the fields read by the split test. -/
structure sector_t where
  floorDrawH : Int
  ceilingDrawH : Int
  deriving DecidableEq

/-- A renderer seg (`rvseg_t`); `backsector` is `none` for a null pointer. -/
structure rvseg_t where
  linedef : line_t
  frontsector : sector_t
  backsector : Option sector_t
  flags : Nat
  deriving DecidableEq

/-- A BSP leaf (`subsector_t`): the fields read by this file. -/
structure subsector_t where
  numsegs : Int
  firstseg : Int
  vkDrawSubsecIdx : Int
  deriving DecidableEq

/-- The partition line of a BSP node (`divline_t`), fixed point. -/
structure divline_t where
  x : Int
  y : Int
  dx : Int
  dy : Int
  deriving DecidableEq

/-- A BSP node (`node_t`); `children0` and `children1` are `children[0]` and `children[1]`. -/
structure node_t where
  line : divline_t
  children0 : Int
  children1 : Int
  deriving DecidableEq

/-- The element `children[side]` of a node, for `side` 0 or 1. -/
def node_t.children (node : node_t) (side : Nat) : Int :=
  if side = 0 then node.children0 else node.children1

/-- Everything the code reads but does not own: constants and helpers declared in
headers outside this file, and the level data. -/
structure Env where
  NF_SUBSECTOR : Nat
  ML_MIDMASKED : Nat
  ML_MIDTRANSLUCENT : Nat
  SGF_VISIBLE_COLS : Nat
  RV_FixedToFloat : Int → ℚ
  RV_LinesIntersect : ℚ → ℚ → ℚ → ℚ → ℚ → ℚ → ℚ → ℚ → Bool
  gpBspNodes : List node_t
  gpSubsectors : List subsector_t
  gpRvSegs : List rvseg_t
  gRvDrawSubsecs : List subsector_t

/-- The mutable globals of the file: the fragment store `gRvSpriteFrags`, the list
heads `gRvDrawSubsecSprFrags`, the scratch list `gRvSortedFrags` and the anchor
`gSpriteFragThingPos` (x, y, z). An element of the scratch list is a pointer into
the store: the index it points at, together with the fragment read through it. -/
structure RvState where
  gRvSpriteFrags : List SpriteFrag
  gRvDrawSubsecSprFrags : List Int
  gRvSortedFrags : List (Nat × SpriteFrag)
  gSpriteFragThingPos : ℚ × ℚ × ℚ
  deriving DecidableEq

/-! ## Machine level helpers -/

/-- An `int32_t` read as `uint32_t` (two's complement). -/
def toU32 (i : Int) : Nat := (i % 4294967296).toNat

/-- The test `nodeIdx & NF_SUBSECTOR`. -/
def isSubsector (e : Env) (nodeIdx : Int) : Bool :=
  decide (toU32 nodeIdx &&& e.NF_SUBSECTOR ≠ 0)

/-- The index `nodeIdx & (~NF_SUBSECTOR)`, on 32 bits. -/
def subsecIdx (e : Env) (nodeIdx : Int) : Nat :=
  toU32 nodeIdx &&& (4294967295 ^^^ (e.NF_SUBSECTOR % 4294967296))

/-- The element `v[i]` of a vector for a signed index, `none` outside the vector. -/
def getAt {α : Type} (v : List α) (i : Int) : Option α :=
  if i < 0 then none else v[i.toNat]?

/-- The function `std::clamp(v, lo, hi)`. -/
def clamp (v lo hi : ℚ) : ℚ :=
  if v < lo then lo else if hi < v then hi else v

/-! ## The split test (lines 311 to 415) -/

/-- Whether a split is allowed after testing the line against one seg
(`RV_SpriteSplitTest_VisitSeg`). -/
def RV_SpriteSplitTest_VisitSeg (e : Env) (seg : rvseg_t) (splitLine : SplitTestLine) : Bool :=
  let line := seg.linedef
  let lineV1x := e.RV_FixedToFloat line.vertex1.x
  let lineV1y := e.RV_FixedToFloat line.vertex1.y
  let lineV2x := e.RV_FixedToFloat line.vertex2.x
  let lineV2y := e.RV_FixedToFloat line.vertex2.y
  if !e.RV_LinesIntersect lineV1x lineV1y lineV2x lineV2y
      splitLine.x1 splitLine.z1 splitLine.x2 splitLine.z2 then
    true
  else
    match seg.backsector with
    | none => false
    | some pBackSector =>
      if line.flags &&& (e.ML_MIDMASKED ||| e.ML_MIDTRANSLUCENT) ≠ 0 then
        false
      else if seg.flags &&& e.SGF_VISIBLE_COLS = 0 then
        true
      else
        let frontSector := seg.frontsector
        let midBy := e.RV_FixedToFloat (max frontSector.floorDrawH pBackSector.floorDrawH)
        let midTy := e.RV_FixedToFloat (min frontSector.ceilingDrawH pBackSector.ceilingDrawH)
        decide (splitLine.y ≥ midBy) && decide (splitLine.y ≤ midTy)

/-- The loop of `RV_SpriteSplitTest_VisitSubsector` from iteration `i` on, with
`n` iterations left: `pSegs[i]` is `gpRvSegs[firstseg + i]`. -/
def RV_SpriteSplitTest_segLoop (e : Env) (firstseg : Int) (splitLine : SplitTestLine) :
    Nat → Int → Option Bool
  | 0, _ => some true
  | n + 1, i =>
    match getAt e.gpRvSegs (firstseg + i) with
    | none => none
    | some seg =>
      if !RV_SpriteSplitTest_VisitSeg e seg splitLine then some false
      else RV_SpriteSplitTest_segLoop e firstseg splitLine n (i + 1)

/-- Whether a split is allowed after testing the line against a leaf
(`RV_SpriteSplitTest_VisitSubsector`). -/
def RV_SpriteSplitTest_VisitSubsector (e : Env) (subsec : subsector_t)
    (splitLine : SplitTestLine) : Option Bool :=
  RV_SpriteSplitTest_segLoop e subsec.firstseg splitLine subsec.numsegs.toNat 0

/-- The leaf record a subsector node index refers to: `gpSubsectors[0]` for `-1`,
`gpSubsectors[nodeIdx & (~NF_SUBSECTOR)]` otherwise. -/
def subsectorOf (e : Env) (nodeIdx : Int) : Option subsector_t :=
  if nodeIdx = -1 then e.gpSubsectors[0]? else e.gpSubsectors[subsecIdx e nodeIdx]?

/-- The side of a node's partition line a point is on, as the `bool` the source
computes: `nodeDx * (z - nodePy) < nodeDy * (x - nodePx)`. -/
def bSideOf (e : Env) (node : node_t) (x z : ℚ) : Bool :=
  let nodePx := e.RV_FixedToFloat node.line.x
  let nodePy := e.RV_FixedToFloat node.line.y
  let nodeDx := e.RV_FixedToFloat node.line.dx
  let nodeDy := e.RV_FixedToFloat node.line.dy
  let relX := x - nodePx
  let relZ := z - nodePy
  let lprod := nodeDx * relZ
  let rprod := nodeDy * relX
  decide (lprod < rprod)

/-- The side as the child number of the split test: `(lprod < rprod) ? 0 : 1`. -/
def sideOf (e : Env) (node : node_t) (x z : ℚ) : Nat :=
  if bSideOf e node x z then 0 else 1

/-- Whether a split is allowed after testing the line against a BSP node and its
children (`RV_SpriteSplitTest_VisitBspNode`). The first argument is the fuel. -/
def RV_SpriteSplitTest_VisitBspNode (e : Env) :
    Nat → Int → SplitTestLine → Option Bool
  | 0, _, _ => none
  | fuel + 1, nodeIdx, splitLine =>
    if isSubsector e nodeIdx then
      match subsectorOf e nodeIdx with
      | none => none
      | some subsec => RV_SpriteSplitTest_VisitSubsector e subsec splitLine
    else
      match getAt e.gpBspNodes nodeIdx with
      | none => none
      | some node =>
        let side1 := sideOf e node splitLine.x1 splitLine.z1
        let side2 := sideOf e node splitLine.x2 splitLine.z2
        match RV_SpriteSplitTest_VisitBspNode e fuel (node.children side1) splitLine with
        | none => none
        | some false => some false
        | some true =>
          if side1 ≠ side2 then
            match RV_SpriteSplitTest_VisitBspNode e fuel (node.children side2) splitLine with
            | none => none
            | some false => some false
            | some true => some true
          else
            some true

/-- Whether the seg's linedef intersects the test line: the call of
`RV_LinesIntersect` at line 319. -/
def segIntersects (e : Env) (seg : rvseg_t) (splitLine : SplitTestLine) : Bool :=
  e.RV_LinesIntersect
    (e.RV_FixedToFloat seg.linedef.vertex1.x) (e.RV_FixedToFloat seg.linedef.vertex1.y)
    (e.RV_FixedToFloat seg.linedef.vertex2.x) (e.RV_FixedToFloat seg.linedef.vertex2.y)
    splitLine.x1 splitLine.z1 splitLine.x2 splitLine.z2

/-- The leaves on which the split test calls `RV_SpriteSplitTest_VisitSubsector`, in
the order of the calls: the recursion of `RV_SpriteSplitTest_VisitBspNode`, which
enters the second child only when the first did not veto and the sides differ. -/
def RV_SpriteSplitTest_visited (e : Env) :
    Nat → Int → SplitTestLine → List subsector_t
  | 0, _, _ => []
  | fuel + 1, nodeIdx, splitLine =>
    if isSubsector e nodeIdx then
      match subsectorOf e nodeIdx with
      | none => []
      | some subsec => [subsec]
    else
      match getAt e.gpBspNodes nodeIdx with
      | none => []
      | some node =>
        let side1 := sideOf e node splitLine.x1 splitLine.z1
        let side2 := sideOf e node splitLine.x2 splitLine.z2
        RV_SpriteSplitTest_visited e fuel (node.children side1) splitLine ++
          (if RV_SpriteSplitTest_VisitBspNode e fuel (node.children side1) splitLine = some true
              ∧ side1 ≠ side2 then
            RV_SpriteSplitTest_visited e fuel (node.children side2) splitLine
          else [])

/-- The seg `pSegs[i]` of a leaf, for `0 ≤ i < numsegs`. -/
def segOf (e : Env) (subsec : subsector_t) (i : Int) : Option rvseg_t :=
  if 0 ≤ i ∧ i < subsec.numsegs then getAt e.gpRvSegs (subsec.firstseg + i) else none

/-! ## Well formed BSP trees -/

/-- The segs of a leaf all lie inside `gpRvSegs`. -/
def segsInRange (e : Env) (subsec : subsector_t) : Bool :=
  decide (subsec.numsegs ≤ 0 ∨
    (0 ≤ subsec.firstseg ∧ subsec.firstseg + subsec.numsegs ≤ e.gpRvSegs.length))

/-- The leaf is drawable and its draw index is inside a list of `n` heads. -/
def drawableIn (n : Nat) (subsec : subsector_t) : Bool :=
  decide (0 ≤ subsec.vkDrawSubsecIdx ∧ subsec.vkDrawSubsecIdx < n)

/-- The child references below `nodeIdx` form a finite tree of height less than the
first argument: every node index is inside `gpBspNodes`, every leaf marker refers to
a leaf inside `gpSubsectors`, and every such leaf satisfies `p`. -/
def treeAll (e : Env) (p : subsector_t → Bool) : Nat → Int → Bool
  | 0, _ => false
  | h + 1, nodeIdx =>
    if isSubsector e nodeIdx then
      match subsectorOf e nodeIdx with
      | none => false
      | some subsec => p subsec
    else
      match getAt e.gpBspNodes nodeIdx with
      | none => false
      | some node => treeAll e p h node.children0 && treeAll e p h node.children1

/-- A well formed BSP tree of height less than `h` below `nodeIdx`, the segs of
whose leaves lie inside `gpRvSegs`. -/
def wellFormedBsp (e : Env) (h : Nat) (nodeIdx : Int) : Bool :=
  treeAll e (segsInRange e) h nodeIdx

/-- A well formed BSP tree all of whose leaves are drawable, for `n` list heads. -/
def wellFormedDrawableBsp (e : Env) (n : Nat) (h : Nat) (nodeIdx : Int) : Bool :=
  treeAll e (fun subsec => segsInRange e subsec && drawableIn n subsec) h nodeIdx

/-! ## Filing and splitting fragments (lines 290 to 304 and 421 to 536) -/

/-- Adds the fragment to the draw list of a leaf (`RV_SpriteFrag_VisitSubsector`).
The index `(int32_t) gRvSpriteFrags.size()` is the length of the store. -/
def RV_SpriteFrag_VisitSubsector (subsec : subsector_t) (frag : SpriteFrag)
    (st : RvState) : Option RvState :=
  let drawSubsecIdx := subsec.vkDrawSubsecIdx
  if drawSubsecIdx < 0 then
    some st
  else
    match st.gRvDrawSubsecSprFrags[drawSubsecIdx.toNat]? with
    | none => none
    | some head =>
      let sprFragIdx : Int := st.gRvSpriteFrags.length
      let drawFrag := { frag with nextSubsecFragIdx := head }
      some { st with
        gRvSpriteFrags := st.gRvSpriteFrags ++ [drawFrag]
        gRvDrawSubsecSprFrags := st.gRvDrawSubsecSprFrags.set drawSubsecIdx.toNat sprFragIdx }

/-- The split parameter `splitT` of a fragment at a node (lines 466 to 474). -/
def splitTOf (e : Env) (node : node_t) (frag : SpriteFrag) : ℚ :=
  let nodePx := e.RV_FixedToFloat node.line.x
  let nodePy := e.RV_FixedToFloat node.line.y
  let nodeDx := e.RV_FixedToFloat node.line.dx
  let nodeDy := e.RV_FixedToFloat node.line.dy
  let relX1 := frag.x1 - nodePx
  let relX2 := frag.x2 - nodePx
  let relZ1 := frag.z1 - nodePy
  let relZ2 := frag.z2 - nodePy
  let nodeNx := -nodeDy
  let nodeNy := nodeDx
  let dist1 := |relX1 * nodeNx + relZ1 * nodeNy|
  let dist2 := |relX2 * nodeNx + relZ2 * nodeNy|
  clamp (dist1 / (dist1 + dist2)) 0 1

/-- The test line built around the split point (lines 483 to 494). -/
def splitLineOf (frag : SpriteFrag) (splitT : ℚ) : SplitTestLine :=
  let splitT1 := clamp (splitT * (99 / 100)) 0 1
  let splitT2 := clamp (splitT * (101 / 100)) 0 1
  let splitT1_inv := 1 - splitT1
  let splitT2_inv := 1 - splitT2
  { x1 := frag.x1 * splitT1_inv + frag.x2 * splitT1
    z1 := frag.z1 * splitT1_inv + frag.z2 * splitT1
    x2 := frag.x1 * splitT2_inv + frag.x2 * splitT2
    z2 := frag.z1 * splitT2_inv + frag.z2 * splitT2
    y := (frag.yt + frag.yb) * (1 / 2) }

/-- The second piece of a split, `frag2` (lines 512 to 517). -/
def splitFrag2 (frag : SpriteFrag) (splitT : ℚ) : SpriteFrag :=
  let splitT_inv := 1 - splitT
  { frag with
    x1 := frag.x1 * splitT_inv + frag.x2 * splitT
    z1 := frag.z1 * splitT_inv + frag.z2 * splitT
    ul := frag.ul * splitT_inv + frag.ur * splitT }

/-- The first piece of a split, `frag1`, built from `frag2` (lines 519 to 522). -/
def splitFrag1 (frag frag2 : SpriteFrag) : SpriteFrag :=
  { frag with x2 := frag2.x1, z2 := frag2.z1, ur := frag2.ul }

/-- The side of the thing's anchor `gSpriteFragThingPos` (lines 500 to 502):
`nodeDx * (pos[2] - nodePy) < nodeDy * (pos[0] - nodePx)`. -/
def bCenterSideOf (e : Env) (node : node_t) (st : RvState) : Bool :=
  bSideOf e node st.gSpriteFragThingPos.1 st.gSpriteFragThingPos.2.2

/-- Recursive traversal of the BSP tree with a sprite fragment
(`RV_SpriteFrag_VisitBspNode`). The first argument is the fuel. -/
def RV_SpriteFrag_VisitBspNode (e : Env) :
    Nat → Int → SpriteFrag → RvState → Option RvState
  | 0, _, _, _ => none
  | fuel + 1, nodeIdx, frag, st =>
    if isSubsector e nodeIdx then
      match subsectorOf e nodeIdx with
      | none => none
      | some subsec => RV_SpriteFrag_VisitSubsector subsec frag st
    else
      match getAt e.gpBspNodes nodeIdx with
      | none => none
      | some node =>
        let bSide1 := bSideOf e node frag.x1 frag.z1
        let bSide2 := bSideOf e node frag.x2 frag.z2
        if bSide1 = bSide2 then
          if bSide1 then
            RV_SpriteFrag_VisitBspNode e fuel node.children0 frag st
          else
            RV_SpriteFrag_VisitBspNode e fuel node.children1 frag st
        else
          let splitT := splitTOf e node frag
          let splitLine := splitLineOf frag splitT
          match RV_SpriteSplitTest_VisitBspNode e (fuel + 1) nodeIdx splitLine with
          | none => none
          | some false =>
            if bCenterSideOf e node st then
              RV_SpriteFrag_VisitBspNode e fuel node.children0 frag st
            else
              RV_SpriteFrag_VisitBspNode e fuel node.children1 frag st
          | some true =>
            let frag2 := splitFrag2 frag splitT
            let frag1 := splitFrag1 frag frag2
            if bSide1 then
              match RV_SpriteFrag_VisitBspNode e fuel node.children0 frag1 st with
              | none => none
              | some st1 => RV_SpriteFrag_VisitBspNode e fuel node.children1 frag2 st1
            else
              match RV_SpriteFrag_VisitBspNode e fuel node.children1 frag1 st with
              | none => none
              | some st1 => RV_SpriteFrag_VisitBspNode e fuel node.children0 frag2 st1

/-! ## Drawing the fragments of a leaf (lines 615 to 645) -/

/-- The gathering loop of `RV_DrawSubsecSpriteFrags` (lines 623 to 628): follows the
links from `nextSprIdx` and appends a pointer to each fragment to the scratch list.
The first argument is the fuel. -/
def RV_DrawSubsecSpriteFrags_gather (frags : List SpriteFrag) :
    Nat → Int → List (Nat × SpriteFrag) → Option (List (Nat × SpriteFrag))
  | 0, nextSprIdx, sorted => if nextSprIdx < 0 then some sorted else none
  | fuel + 1, nextSprIdx, sorted =>
    if nextSprIdx < 0 then some sorted
    else
      match frags[nextSprIdx.toNat]? with
      | none => none
      | some sprFrag =>
        RV_DrawSubsecSpriteFrags_gather frags fuel sprFrag.nextSubsecFragIdx
          (sorted ++ [(nextSprIdx.toNat, sprFrag)])

/-- Insertion of one element in front of the first element that the comparison does
not put before it. -/
def stable_sort_insert {α : Type} (comp : α → α → Bool) (x : α) : List α → List α
  | [] => [x]
  | y :: ys => if comp y x then y :: stable_sort_insert comp x ys else x :: y :: ys

/-- The library function `std::stable_sort` with a comparison `comp` (`comp a b` when
`a` goes before `b`): the result is fixed by the C++ standard as the sorted
arrangement that keeps equivalent elements in their original order; it is computed
here by insertion from the back. -/
def stable_sort {α : Type} (comp : α → α → Bool) : List α → List α
  | [] => []
  | x :: xs => stable_sort_insert comp x (stable_sort comp xs)

/-- The comparison passed to `std::stable_sort` (lines 634 to 636). -/
def depthComp (pFrag1 pFrag2 : Nat × SpriteFrag) : Bool :=
  decide (pFrag1.2.depth > pFrag2.2.depth)

/-- Draws the fragments of a draw subsector (`RV_DrawSubsecSpriteFrags`). The result
is the sequence of calls of `RV_DrawSpriteFrag`, each with the reference it is given,
and the state on return. The first argument is the fuel of the gathering loop. -/
def RV_DrawSubsecSpriteFrags (e : Env) (fuel : Nat) (drawSubsecIdx : Int) (st : RvState) :
    Option (List (Nat × SpriteFrag) × RvState) :=
  if st.gRvSortedFrags ≠ [] then none
  else if ¬ (0 ≤ drawSubsecIdx ∧ drawSubsecIdx.toNat < e.gRvDrawSubsecs.length) then none
  else
    match getAt st.gRvDrawSubsecSprFrags drawSubsecIdx with
    | none => none
    | some nextSprIdx =>
      match RV_DrawSubsecSpriteFrags_gather st.gRvSpriteFrags fuel nextSprIdx
          st.gRvSortedFrags with
      | none => none
      | some gathered =>
        let sorted := stable_sort depthComp gathered
        some (sorted, { st with gRvSortedFrags := [] })

/-! ## Building the full fragment of a thing (lines 74 to 261) -/

/-- A sprite frame (`spriteframe_t`): whether it has rotations, and the lump and the
flip flag of each of its 8 rotations. -/
structure spriteframe_t where
  rotate : Bool
  lump : List Int
  flip : List Bool
  deriving DecidableEq

/-- A sprite definition (`spritedef_t`): its frames. -/
structure spritedef_t where
  spriteframes : List spriteframe_t
  deriving DecidableEq

/-- A texture (`texture_t`): the fields read by this file, and the lump it is for. -/
structure texture_t where
  offsetX : Int
  offsetY : Int
  width : Int
  height : Int
  lumpNum : Int
  deriving DecidableEq

/-- A map object (`mobj_t`): the fields read by `RV_InitSpriteFrag`. -/
structure mobj_t where
  sprite : Nat
  frame : Nat
  angle : Nat
  flags : Nat
  deriving DecidableEq

/-- What `RV_InitSpriteFrag` reads but does not own: constants of the game headers,
the sprite table, the view, and the texture cache (`texFor lump` is the texture
returned by `R_GetTexForLump` once `I_CacheTex` has made it resident). -/
structure ThingEnv where
  FF_FRAMEMASK : Nat
  FF_FULLBRIGHT : Nat
  MF_BLEND_ON : Nat
  MF_BLEND_MODE_BIT1 : Nat
  MF_BLEND_MODE_BIT2 : Nat
  LIGHT_INTENSTIY_MAX : Nat
  ANG45 : Nat
  RV_FixedToFloat : Int → ℚ
  gSprites : List spritedef_t
  gViewX : Int
  gViewY : Int
  R_PointToAngle2 : Int → Int → Int → Int → Nat
  texFor : Int → texture_t
  RV_GetTexWinXyWh : texture_t → Nat × Nat × Nat × Nat
  gViewProjMatrix_transform3d : ℚ × ℚ × ℚ → ℚ × ℚ × ℚ
  gSpriteBillboardMatrix_row0 : ℚ × ℚ × ℚ × ℚ

/-- The rotation index of line 87, in 32 bit unsigned arithmetic:
`(angToThing - thingAngle + (ANG45 / 2) * 9) >> 29`. -/
def dirIdxOf (te : ThingEnv) (angToThing thingAngle : Nat) : Nat :=
  ((angToThing % 4294967296 + (4294967296 - thingAngle % 4294967296)
    + (te.ANG45 / 2) * 9) % 4294967296) >>> 29

/-- The texture of a thing's sprite frame and whether it is flipped
(`RV_CacheThingSpriteFrame`). -/
def RV_CacheThingSpriteFrame (te : ThingEnv) (thingX thingY : Int) (thingAngle : Nat)
    (frame : spriteframe_t) : Option (texture_t × Bool) :=
  let dirIdx :=
    if frame.rotate then
      let angToThing := te.R_PointToAngle2 te.gViewX te.gViewY thingX thingY
      dirIdxOf te angToThing thingAngle
    else 0
  match frame.lump[dirIdx]?, frame.flip[dirIdx]? with
  | some lumpIdx, some bFlipSrite => some (te.texFor lumpIdx, bFlipSrite)
  | _, _ => none

/-- Populates the fragment covering the whole sprite of a thing
(`RV_InitSpriteFrag`); the result is the value written to `sprFrag`. A value stored
in a `uint8_t` is taken modulo 256. -/
def RV_InitSpriteFrag (te : ThingEnv) (thing : mobj_t) (thingX thingY thingZ : Int)
    (secR secG secB : Nat) : Option SpriteFrag :=
  let thingPos : ℚ × ℚ × ℚ :=
    (te.RV_FixedToFloat thingX, te.RV_FixedToFloat thingZ, te.RV_FixedToFloat thingY)
  let thingDepth := (te.gViewProjMatrix_transform3d thingPos).2.2
  match te.gSprites[thing.sprite]? with
  | none => none
  | some spriteDef =>
    match spriteDef.spriteframes[thing.frame &&& te.FF_FRAMEMASK]? with
    | none => none
    | some frame =>
      match RV_CacheThingSpriteFrame te thingX thingY thing.angle frame with
      | none => none
      | some (tex, bFlipSprite) =>
        let texWin := te.RV_GetTexWinXyWh tex
        let blend : VPipelineType × Nat × Nat × Nat × Nat :=
          if thing.flags &&& te.MF_BLEND_MODE_BIT1 ≠ 0 then
            if thing.flags &&& te.MF_BLEND_MODE_BIT2 ≠ 0 then
              (VPipelineType.World_SpriteAdditive, 32, 32, 32, 128)
            else
              (VPipelineType.World_SpriteAdditive, 128, 128, 128, 128)
          else if thing.flags &&& te.MF_BLEND_MODE_BIT2 ≠ 0 then
            (VPipelineType.World_SpriteSubtractive, 128, 128, 128, 128)
          else if thing.flags &&& te.MF_BLEND_ON ≠ 0 then
            (VPipelineType.World_SpriteAlpha, 128, 128, 128, 64)
          else
            (VPipelineType.World_SpriteMasked, 128, 128, 128, 128)
        let ASPECT_CORRECT : ℚ := 4 / 5
        let spriteW : ℚ := (tex.width : ℚ) * ASPECT_CORRECT
        let spriteH : ℚ := (tex.height : ℚ)
        let offsetY : ℚ := -(tex.height : ℚ) + (tex.offsetY : ℚ)
        let offsetX : ℚ :=
          if bFlipSprite then (-(tex.width : ℚ) + (tex.offsetX : ℚ)) * ASPECT_CORRECT
          else (-(tex.offsetX : ℚ)) * ASPECT_CORRECT
        let axisX := te.gSpriteBillboardMatrix_row0
        let worldPos : ℚ × ℚ × ℚ :=
          (thingPos.1 + offsetX * axisX.1, thingPos.2.1 + offsetY,
            thingPos.2.2 + offsetX * axisX.2.2.1)
        let p1 : ℚ × ℚ := (worldPos.1, worldPos.2.2)
        let p2 : ℚ × ℚ := (worldPos.1 + spriteW * axisX.1, worldPos.2.2 + spriteW * axisX.2.2.1)
        let yb := worldPos.2.1
        let yt := worldPos.2.1 + spriteH
        let ul : ℚ := if bFlipSprite then (tex.width : ℚ) else 0
        let ur : ℚ := if bFlipSprite then 0 else (tex.width : ℚ)
        let vt : ℚ := 0
        let vb : ℚ := spriteH
        let sprCol : Nat × Nat × Nat :=
          if thing.frame &&& te.FF_FULLBRIGHT ≠ 0 then
            (te.LIGHT_INTENSTIY_MAX % 256, te.LIGHT_INTENSTIY_MAX % 256,
              te.LIGHT_INTENSTIY_MAX % 256)
          else (secR, secG, secB)
        some {
          nextSubsecFragIdx := -1
          depth := thingDepth
          x1 := p1.1
          z1 := p1.2
          x2 := p2.1
          z2 := p2.2
          yt := yt
          yb := yb
          ul := ul
          ur := ur
          vt := vt
          vb := vb
          drawPipeline := blend.1
          colR := sprCol.1
          colG := sprCol.2.1
          colB := sprCol.2.2
          stMulR := blend.2.1
          stMulG := blend.2.2.1
          stMulB := blend.2.2.2.1
          stMulA := blend.2.2.2.2
          texWinX := texWin.1
          texWinY := texWin.2.1
          texWinW := texWin.2.2.1
          texWinH := texWin.2.2.2 }

/-! ## Notions used to state the properties -/

/-- The fragment `P` is the part of `F` between the parameters `a` and `b`: its two
endpoints and their U coordinates are those of `F` interpolated at `a` and at `b`. -/
def IsPiece (F P : SpriteFrag) (a b : ℚ) : Prop :=
  P.x1 = F.x1 * (1 - a) + F.x2 * a ∧ P.z1 = F.z1 * (1 - a) + F.z2 * a ∧
  P.ul = F.ul * (1 - a) + F.ur * a ∧
  P.x2 = F.x1 * (1 - b) + F.x2 * b ∧ P.z2 = F.z1 * (1 - b) + F.z2 * b ∧
  P.ur = F.ul * (1 - b) + F.ur * b

/-- The pieces, in order, tile `F` from the parameter `a` to the parameter `b`: there
are cut points `a ≤ m₁ ≤ m₂ ≤ ... ≤ b` such that each piece is the part of `F` between
two consecutive cut points, the first starting at `a` and the last ending at `b`. -/
def Tiles (F : SpriteFrag) : ℚ → ℚ → List SpriteFrag → Prop
  | a, b, [] => a = b
  | a, b, P :: rest => ∃ m, a ≤ m ∧ IsPiece F P a m ∧ Tiles F m b rest

/-- The leaf reached from `nodeIdx` when, at every node on the way, both endpoints of
the fragment are on the same side of the partition line; `none` when some node
separates them (or the tree is not valid down that path within the given height). -/
def sameSideLeaf (e : Env) (frag : SpriteFrag) : Nat → Int → Option subsector_t
  | 0, _ => none
  | h + 1, nodeIdx =>
    if isSubsector e nodeIdx then subsectorOf e nodeIdx
    else
      match getAt e.gpBspNodes nodeIdx with
      | none => none
      | some node =>
        if bSideOf e node frag.x1 frag.z1 = bSideOf e node frag.x2 frag.z2 then
          sameSideLeaf e frag h (node.children (sideOf e node frag.x1 frag.z1))
        else none

/-- The linked list of a leaf walked from the index `idx`: the fragment at `idx`,
then the one its link names, and so on until a negative index ends the list. Each
element is listed with its index. The walk is `none` when it leaves the store or
does not end within the fuel. -/
def leafList (frags : List SpriteFrag) : Nat → Int → Option (List (Nat × SpriteFrag))
  | 0, idx => if idx < 0 then some [] else none
  | fuel + 1, idx =>
    if idx < 0 then some []
    else
      match frags[idx.toNat]? with
      | none => none
      | some frag =>
        match leafList frags fuel frag.nextSubsecFragIdx with
        | none => none
        | some rest => some ((idx.toNat, frag) :: rest)

/-- Every link of the store names an earlier fragment (or is negative), and every
list head is below the size of the store. -/
def LinksDescend (st : RvState) : Prop :=
  (∀ (j : Nat) (frag : SpriteFrag), st.gRvSpriteFrags[j]? = some frag →
    frag.nextSubsecFragIdx < j) ∧
  (∀ head ∈ st.gRvDrawSubsecSprFrags, head < st.gRvSpriteFrags.length)

/-! ## The reset of a frame and the states it leads to (lines 594 to 610) -/

/-- The reset at the start of `RV_BuildSpriteFragLists` (lines 597 to 604): the store
is cleared and every draw subsector gets the list head `-1`. -/
def RV_BuildSpriteFragLists_reset (e : Env) (st : RvState) : RvState :=
  { st with
    gRvSpriteFrags := []
    gRvDrawSubsecSprFrags := List.replicate e.gRvDrawSubsecs.length (-1) }

/-- The states of a frame: the reset, followed by any number of traversals of
`RV_SpriteFrag_VisitBspNode`, the anchor `gSpriteFragThingPos` being set to any
position before each of them (line 582 to 584). -/
inductive Reachable (e : Env) : RvState → Prop
  | reset (st : RvState) : Reachable e (RV_BuildSpriteFragLists_reset e st)
  | anchor (st : RvState) (pos : ℚ × ℚ × ℚ) :
      Reachable e st → Reachable e { st with gSpriteFragThingPos := pos }
  | visit (st st' : RvState) (fuel : Nat) (nodeIdx : Int) (frag : SpriteFrag) :
      Reachable e st → RV_SpriteFrag_VisitBspNode e fuel nodeIdx frag st = some st' →
      Reachable e st'

/-- The list of every draw subsector, walked from its head (empty for a walk that
does not end inside the store). -/
def listsOf (st : RvState) : List (List (Nat × SpriteFrag)) :=
  st.gRvDrawSubsecSprFrags.map
    (fun head => (leafList st.gRvSpriteFrags st.gRvSpriteFrags.length head).getD [])

/-- Every list of the state can be walked to its end, and the indices met on all the
lists together are the indices of the store, each once. -/
def FiledOnce (st : RvState) : Prop :=
  (∀ head ∈ st.gRvDrawSubsecSprFrags,
    ∃ walk, leafList st.gRvSpriteFrags st.gRvSpriteFrags.length head = some walk) ∧
  (((listsOf st).flatten).map Prod.fst).Perm (List.range st.gRvSpriteFrags.length)

/-- The leaf is not drawn, or its draw index is inside a list of `n` heads. -/
def fileableIn (n : Nat) (subsec : subsector_t) : Bool :=
  decide (subsec.vkDrawSubsecIdx < n)

/-- A well formed BSP tree of height less than `h` below `nodeIdx`: the segs of its
leaves lie inside `gpRvSegs`, and the draw index of every drawable leaf is inside a
list of `n` heads. -/
def wellFormedFileBsp (e : Env) (n : Nat) (h : Nat) (nodeIdx : Int) : Bool :=
  treeAll e (fun subsec => segsInRange e subsec && fileableIn n subsec) h nodeIdx

/-- The fragment `P` has the depth, the heights, the V coordinates, the pipeline, the
colour, the semi-transparency multiplier and the texture window of `F`. -/
def SameAttrs (F P : SpriteFrag) : Prop :=
  P.depth = F.depth ∧ P.yt = F.yt ∧ P.yb = F.yb ∧ P.vt = F.vt ∧ P.vb = F.vb ∧
  P.drawPipeline = F.drawPipeline ∧
  P.colR = F.colR ∧ P.colG = F.colG ∧ P.colB = F.colB ∧
  P.stMulR = F.stMulR ∧ P.stMulG = F.stMulG ∧ P.stMulB = F.stMulB ∧ P.stMulA = F.stMulA ∧
  P.texWinX = F.texWinX ∧ P.texWinY = F.texWinY ∧
  P.texWinW = F.texWinW ∧ P.texWinH = F.texWinH

/-! ## Notions for the split geometry and the links -/

/-- The scaled perpendicular distance `dist1` of endpoint 1 to the node plane
(line 470). -/
def dist1Of (e : Env) (node : node_t) (frag : SpriteFrag) : ℚ :=
  let nodePx := e.RV_FixedToFloat node.line.x
  let nodePy := e.RV_FixedToFloat node.line.y
  let nodeDx := e.RV_FixedToFloat node.line.dx
  let nodeDy := e.RV_FixedToFloat node.line.dy
  let relX1 := frag.x1 - nodePx
  let relZ1 := frag.z1 - nodePy
  let nodeNx := -nodeDy
  let nodeNy := nodeDx
  |relX1 * nodeNx + relZ1 * nodeNy|

/-- The scaled perpendicular distance `dist2` of endpoint 2 to the node plane
(line 471). -/
def dist2Of (e : Env) (node : node_t) (frag : SpriteFrag) : ℚ :=
  let nodePx := e.RV_FixedToFloat node.line.x
  let nodePy := e.RV_FixedToFloat node.line.y
  let nodeDx := e.RV_FixedToFloat node.line.dx
  let nodeDy := e.RV_FixedToFloat node.line.dy
  let relX2 := frag.x2 - nodePx
  let relZ2 := frag.z2 - nodePy
  let nodeNx := -nodeDy
  let nodeNy := nodeDx
  |relX2 * nodeNx + relZ2 * nodeNy|

/-- The equation of the partition line of a node at a point:
`dx * (z - py) - dy * (x - px)`; it is zero exactly for the points of the line. -/
def lineEq (e : Env) (node : node_t) (x z : ℚ) : ℚ :=
  e.RV_FixedToFloat node.line.dx * (z - e.RV_FixedToFloat node.line.y)
    - e.RV_FixedToFloat node.line.dy * (x - e.RV_FixedToFloat node.line.x)

/-- Every list head is `-1` or the index of a stored fragment, and the link of every
stored fragment is `-1` or the index of an earlier fragment. -/
def LinksOk (st : RvState) : Prop :=
  (∀ head ∈ st.gRvDrawSubsecSprFrags,
    head = -1 ∨ (0 ≤ head ∧ head < st.gRvSpriteFrags.length)) ∧
  (∀ (j : Nat) (frag : SpriteFrag), st.gRvSpriteFrags[j]? = some frag →
    frag.nextSubsecFragIdx = -1 ∨
      (0 ≤ frag.nextSubsecFragIdx ∧ frag.nextSubsecFragIdx < j))

/-- The states of a frame in terms of single filings: the reset, followed by any number
of calls of `RV_SpriteFrag_VisitSubsector`. -/
inductive FilingReachable (e : Env) : RvState → Prop
  | reset (st : RvState) : FilingReachable e (RV_BuildSpriteFragLists_reset e st)
  | file (st st' : RvState) (subsec : subsector_t) (frag : SpriteFrag) :
      FilingReachable e st → RV_SpriteFrag_VisitSubsector subsec frag st = some st' →
      FilingReachable e st'

/-- The child references below `nodeIdx` form a finite tree of height less than `h`
that ends in leaf markers: every node index is inside `gpBspNodes` and every leaf marker
refers to a leaf inside `gpSubsectors`. -/
def finiteBsp (e : Env) (h : Nat) (nodeIdx : Int) : Bool :=
  treeAll e (fun _ => true) h nodeIdx

/-- The state `s` extends the state `st` by appending: the store of `st` is a prefix of
the store of `s`, there are as many list heads, and a head of `s` is the head of `st`
or the index of an appended fragment. -/
def AppendOnly (st s : RvState) : Prop :=
  (∃ pieces, s.gRvSpriteFrags = st.gRvSpriteFrags ++ pieces) ∧
  s.gRvDrawSubsecSprFrags.length = st.gRvDrawSubsecSprFrags.length ∧
  ∀ d : Nat, s.gRvDrawSubsecSprFrags[d]? = st.gRvDrawSubsecSprFrags[d]? ∨
    ∃ head : Int, s.gRvDrawSubsecSprFrags[d]? = some head ∧
      (st.gRvSpriteFrags.length : Int) ≤ head ∧ head < s.gRvSpriteFrags.length

/-! ## Notions for the leaves a traversal visits -/

/-- The index in `gpSubsectors` of the leaf that a subsector node index refers to: 0
for `-1`, `nodeIdx & (~NF_SUBSECTOR)` otherwise. -/
def leafIdxOf (e : Env) (nodeIdx : Int) : Nat :=
  if nodeIdx = -1 then 0 else subsecIdx e nodeIdx

/-- The leaves referenced below `nodeIdx`, as indices in `gpSubsectors`, once for each
reference, down to the depth given by the first argument. -/
def leavesBelow (e : Env) : Nat → Int → List Nat
  | 0, _ => []
  | h + 1, nodeIdx =>
    if isSubsector e nodeIdx then [leafIdxOf e nodeIdx]
    else
      match getAt e.gpBspNodes nodeIdx with
      | none => []
      | some node => leavesBelow e h node.children0 ++ leavesBelow e h node.children1

/-- The draw subsector indices `vkDrawSubsecIdx` of the drawn leaves referenced below
`nodeIdx`, once for each reference. -/
def slotsBelow (e : Env) : Nat → Int → List Int
  | 0, _ => []
  | h + 1, nodeIdx =>
    if isSubsector e nodeIdx then
      match subsectorOf e nodeIdx with
      | none => []
      | some subsec => if subsec.vkDrawSubsecIdx < 0 then [] else [subsec.vkDrawSubsecIdx]
    else
      match getAt e.gpBspNodes nodeIdx with
      | none => []
      | some node => slotsBelow e h node.children0 ++ slotsBelow e h node.children1

/-- The leaves on which the traversal calls `RV_SpriteFrag_VisitSubsector`, as indices
in `gpSubsectors`, in the order of the calls: the recursion of
`RV_SpriteFrag_VisitBspNode`, recording the leaf where the source files the fragment. -/
def RV_SpriteFrag_visited (e : Env) :
    Nat → Int → SpriteFrag → RvState → List Nat
  | 0, _, _, _ => []
  | fuel + 1, nodeIdx, frag, st =>
    if isSubsector e nodeIdx then
      match subsectorOf e nodeIdx with
      | none => []
      | some _ => [leafIdxOf e nodeIdx]
    else
      match getAt e.gpBspNodes nodeIdx with
      | none => []
      | some node =>
        let bSide1 := bSideOf e node frag.x1 frag.z1
        let bSide2 := bSideOf e node frag.x2 frag.z2
        if bSide1 = bSide2 then
          if bSide1 then
            RV_SpriteFrag_visited e fuel node.children0 frag st
          else
            RV_SpriteFrag_visited e fuel node.children1 frag st
        else
          let splitT := splitTOf e node frag
          let splitLine := splitLineOf frag splitT
          match RV_SpriteSplitTest_VisitBspNode e (fuel + 1) nodeIdx splitLine with
          | none => []
          | some false =>
            if bCenterSideOf e node st then
              RV_SpriteFrag_visited e fuel node.children0 frag st
            else
              RV_SpriteFrag_visited e fuel node.children1 frag st
          | some true =>
            let frag2 := splitFrag2 frag splitT
            let frag1 := splitFrag1 frag frag2
            if bSide1 then
              RV_SpriteFrag_visited e fuel node.children0 frag1 st ++
                (match RV_SpriteFrag_VisitBspNode e fuel node.children0 frag1 st with
                | none => []
                | some st1 => RV_SpriteFrag_visited e fuel node.children1 frag2 st1)
            else
              RV_SpriteFrag_visited e fuel node.children1 frag1 st ++
                (match RV_SpriteFrag_VisitBspNode e fuel node.children1 frag1 st with
                | none => []
                | some st1 => RV_SpriteFrag_visited e fuel node.children0 frag2 st1)

/-- The state `s` comes from `st` by filing at most one fragment in each of the draw
subsectors `slots` and none elsewhere: the store grows by `pieces`, at most one for each
slot; a list head either stays, or belongs to a slot and becomes the index of a piece
whose link is the head as it was; and the link of every piece is the former head of a
slot. -/
def FiledApart (slots : List Int) (st s : RvState) : Prop :=
  ∃ pieces : List SpriteFrag,
    s.gRvSpriteFrags = st.gRvSpriteFrags ++ pieces ∧
    pieces.length ≤ slots.length ∧
    (∀ d : Nat, s.gRvDrawSubsecSprFrags[d]? = st.gRvDrawSubsecSprFrags[d]? ∨
      ((d : Int) ∈ slots ∧ ∃ (k : Nat) (piece : SpriteFrag), pieces[k]? = some piece ∧
        st.gRvDrawSubsecSprFrags[d]? = some piece.nextSubsecFragIdx ∧
        s.gRvDrawSubsecSprFrags[d]? = some ((st.gRvSpriteFrags.length + k : Nat) : Int))) ∧
    (∀ piece ∈ pieces, ∃ d : Nat, (d : Int) ∈ slots ∧
      st.gRvDrawSubsecSprFrags[d]? = some piece.nextSubsecFragIdx)

/-! ## A small level used to instantiate the theorems

One BSP node whose partition line is the line `x = 0`, directed along `+z`; a point
with `x > 0` is on side 0. Its children are the leaves 0 and 1, drawn as draw
subsectors 0 and 1. -/

/-- A line intersection test for the example level: the two segments cross properly. -/
def exLinesIntersect (ax ay bx b_y cx cy dx dy : ℚ) : Bool :=
  decide (((bx - ax) * (cy - ay) - (b_y - ay) * (cx - ax))
    * ((bx - ax) * (dy - ay) - (b_y - ay) * (dx - ax)) < 0) &&
  decide (((dx - cx) * (ay - cy) - (dy - cy) * (ax - cx))
    * ((dx - cx) * (b_y - cy) - (dy - cy) * (bx - cx)) < 0)

/-- The node of the example level. -/
def exNode : node_t :=
  { line := { x := 0, y := 0, dx := 0, dy := 65536 }, children0 := 32768, children1 := 32769 }

/-- A one sided wall from `(0, -10)` to `(0, 10)`. -/
def exWall : rvseg_t :=
  { linedef := { vertex1 := { x := 0, y := -655360 }, vertex2 := { x := 0, y := 655360 },
                 flags := 0 }
    frontsector := { floorDrawH := 0, ceilingDrawH := 8388608 }
    backsector := none
    flags := 1 }

/-- Leaf 0 of the example level, without segs. -/
def exLeaf0 : subsector_t := { numsegs := 0, firstseg := 0, vkDrawSubsecIdx := 0 }

/-- Leaf 1 of the example level, without segs. -/
def exLeaf1 : subsector_t := { numsegs := 0, firstseg := 0, vkDrawSubsecIdx := 1 }

/-- Leaf 0 with one seg, the first of `gpRvSegs`. -/
def exLeaf0Wall : subsector_t := { numsegs := 1, firstseg := 0, vkDrawSubsecIdx := 0 }

/-- The example level without walls. -/
def exEnv : Env :=
  { NF_SUBSECTOR := 32768
    ML_MIDMASKED := 512
    ML_MIDTRANSLUCENT := 1024
    SGF_VISIBLE_COLS := 1
    RV_FixedToFloat := fun x : Int => (x : ℚ) / 65536
    RV_LinesIntersect := exLinesIntersect
    gpBspNodes := [exNode]
    gpSubsectors := [exLeaf0, exLeaf1]
    gpRvSegs := []
    gRvDrawSubsecs := [exLeaf0, exLeaf1] }

/-- The example level with the one sided wall `exWall` as the seg of leaf 0. -/
def exEnvWall : Env :=
  { exEnv with
    gpSubsectors := [exLeaf0Wall, exLeaf1]
    gpRvSegs := [exWall]
    gRvDrawSubsecs := [exLeaf0Wall, exLeaf1] }

/-- A fragment from `(-3, 1)` to `(1, 1)`, crossing the partition line at `3/4`. -/
def exFrag : SpriteFrag :=
  { nextSubsecFragIdx := -1, depth := 5
    x1 := -3, z1 := 1, x2 := 1, z2 := 1, yt := 10, yb := 0
    ul := 0, ur := 8, vt := 0, vb := 10
    drawPipeline := VPipelineType.World_SpriteMasked
    colR := 1, colG := 2, colB := 3
    stMulR := 128, stMulG := 128, stMulB := 128, stMulA := 128
    texWinX := 0, texWinY := 0, texWinW := 8, texWinH := 10 }

/-- A fragment from `(1, 1)` to `(3, 1)`, entirely on side 0. -/
def exFragSide0 : SpriteFrag :=
  { exFrag with x1 := 1, x2 := 3 }

/-- The state after the reset for two draw subsectors, with the anchor at
`(-2, 0, 1)`. -/
def exState : RvState :=
  { gRvSpriteFrags := [], gRvDrawSubsecSprFrags := [-1, -1], gRvSortedFrags := []
    gSpriteFragThingPos := (-2, 0, 1) }

/-- The same state with the anchor at `(1/2, 0, 1)`, on side 0. -/
def exStateSide0 : RvState :=
  { exState with gSpriteFragThingPos := (1 / 2, 0, 1) }

/-- A store of three fragments on one list, `2 → 1 → 0`, of depths 5, 7 and 5. -/
def exStoreState : RvState :=
  { gRvSpriteFrags :=
      [{ exFrag with nextSubsecFragIdx := -1, depth := 5 },
       { exFrag with nextSubsecFragIdx := 0, depth := 7 },
       { exFrag with nextSubsecFragIdx := 1, depth := 5, ul := 4 }]
    gRvDrawSubsecSprFrags := [2, -1]
    gRvSortedFrags := []
    gSpriteFragThingPos := (-2, 0, 1) }

/-- The test line of `exFrag` at the node of the example level. -/
def exTestLine : SplitTestLine :=
  { x1 := -3 / 100, z1 := 1, x2 := 3 / 100, z2 := 1, y := 5 }

/-- A test line on side 0 that does not reach the wall. -/
def exTestLineSide0 : SplitTestLine :=
  { x1 := 1, z1 := 1, x2 := 3, z2 := 1, y := 5 }

/-- A sprite frame without rotations, all of whose entries name lump 7. -/
def exFrame : spriteframe_t :=
  { rotate := false
    lump := [7, 7, 7, 7, 7, 7, 7, 7]
    flip := [false, false, false, false, false, false, false, false] }

/-- The texture of every lump in the example: 8 by 10 pixels, offset `(4, 10)`. -/
def exTex (lump : Int) : texture_t :=
  { offsetX := 4, offsetY := 10, width := 8, height := 10, lumpNum := lump }

/-- An environment for `RV_InitSpriteFrag`: one sprite with one frame, the identity
as view transform and the x axis as billboard axis. -/
def exThingEnv : ThingEnv :=
  { FF_FRAMEMASK := 32767
    FF_FULLBRIGHT := 32768
    MF_BLEND_ON := 536870912
    MF_BLEND_MODE_BIT1 := 1073741824
    MF_BLEND_MODE_BIT2 := 2147483648
    LIGHT_INTENSTIY_MAX := 160
    ANG45 := 536870912
    RV_FixedToFloat := fun x : Int => (x : ℚ) / 65536
    gSprites := [{ spriteframes := [exFrame] }]
    gViewX := 0
    gViewY := 0
    R_PointToAngle2 := fun _ _ _ _ => 0
    texFor := exTex
    RV_GetTexWinXyWh := fun _ => (0, 0, 8, 10)
    gViewProjMatrix_transform3d := fun p => p
    gSpriteBillboardMatrix_row0 := (1, 0, 0, 0) }

/-- A thing showing frame 0 of sprite 0 with the full bright bit set. -/
def exThingBright : mobj_t := { sprite := 0, frame := 32768, angle := 0, flags := 0 }

/-- A thing showing frame 0 of sprite 0 without the full bright bit. -/
def exThingDim : mobj_t := { sprite := 0, frame := 0, angle := 0, flags := 0 }

/-- A two sided seg on the line of `exWall`, visible and solid: the floors are at 0 and
16, the ceilings at 128 and 96. -/
def exStep : rvseg_t :=
  { exWall with
    backsector := some { floorDrawH := 1048576, ceilingDrawH := 6291456 } }

/-- A two sided seg on the line of `exWall` whose line has `ML_MIDMASKED` set and whose
`SGF_VISIBLE_COLS` flag is unset. -/
def exMasked : rvseg_t :=
  { linedef := { vertex1 := { x := 0, y := -655360 }, vertex2 := { x := 0, y := 655360 },
                 flags := 512 }
    frontsector := { floorDrawH := 0, ceilingDrawH := 8388608 }
    backsector := some { floorDrawH := 0, ceilingDrawH := 8388608 }
    flags := 0 }

/-- A two sided seg on the line of `exWall` without line flags whose
`SGF_VISIBLE_COLS` flag is unset; its sectors leave no opening. -/
def exHidden : rvseg_t :=
  { exWall with
    backsector := some { floorDrawH := 8388608, ceilingDrawH := 0 }
    flags := 0 }

/-- A thing with both blend mode bits and `MF_BLEND_ON` set. -/
def exThingBlend : mobj_t :=
  { sprite := 0, frame := 0, angle := 0, flags := 536870912 + 1073741824 + 2147483648 }

/-- A leaf that is not drawn in this frame. -/
def exLeafHidden : subsector_t := { numsegs := 0, firstseg := 0, vkDrawSubsecIdx := -1 }

/-- A fragment from `(0, 1)` to `(1, 1)`: its endpoint 1 lies on the partition line of
`exNode` and its endpoint 2 on side 0. -/
def exFragOnLine : SpriteFrag :=
  { exFrag with x1 := 0, x2 := 1 }

/-- A fragment from `(0, 1)` to `(-1, 1)`: its endpoint 1 lies on the partition line of
`exNode` and its endpoint 2 on side 1. -/
def exFragOnLineSide1 : SpriteFrag :=
  { exFrag with x1 := 0, x2 := -1 }

/-- A fragment from `(1, 1)` to `(0, 1)`: its endpoint 1 lies on side 0 of `exNode` and
its endpoint 2 on the partition line. -/
def exFragEndOnLine : SpriteFrag :=
  { exFrag with x1 := 1, x2 := 0 }

/-- A one sided wall from `(1/256, -10)` to `(1/256, 10)`, on side 0 next to the
partition line of `exNode`. -/
def exWallNear : rvseg_t :=
  { linedef := { vertex1 := { x := 256, y := -655360 }, vertex2 := { x := 256, y := 655360 },
                 flags := 0 }
    frontsector := { floorDrawH := 0, ceilingDrawH := 8388608 }
    backsector := none
    flags := 1 }

/-- The example level with the one sided wall `exWallNear` as the seg of leaf 0. -/
def exEnvWallNear : Env :=
  { exEnv with
    gpSubsectors := [exLeaf0Wall, exLeaf1]
    gpRvSegs := [exWallNear]
    gRvDrawSubsecs := [exLeaf0Wall, exLeaf1] }

/-- A sprite frame with rotations: rotation `k` shows lump `10 + k`. -/
def exFrameRot : spriteframe_t :=
  { rotate := true
    lump := [10, 11, 12, 13, 14, 15, 16, 17]
    flip := [false, false, false, false, false, true, true, true] }

/-! ## Lemmas on the split test -/

theorem visitSeg_of_not_intersects (e : Env) (seg : rvseg_t) (line : SplitTestLine)
    (h : segIntersects e seg line = false) : RV_SpriteSplitTest_VisitSeg e seg line = true := by
  unfold segIntersects at h
  simp [RV_SpriteSplitTest_VisitSeg, h]

theorem visitSeg_one_sided (e : Env) (seg : rvseg_t) (line : SplitTestLine)
    (h : segIntersects e seg line = true) (hback : seg.backsector = none) :
    RV_SpriteSplitTest_VisitSeg e seg line = false := by
  unfold segIntersects at h
  simp [RV_SpriteSplitTest_VisitSeg, h, hback]

theorem segLoop_total (e : Env) (firstseg : Int) (line : SplitTestLine) :
    ∀ (n : Nat) (i : Int), 0 ≤ firstseg + i → firstseg + i + n ≤ e.gpRvSegs.length →
      ∃ b, RV_SpriteSplitTest_segLoop e firstseg line n i = some b := by
  intro n
  induction n with
  | zero => intro i _ _; exact ⟨true, rfl⟩
  | succ n ih =>
    intro i h0 h1
    have hlt : (firstseg + i).toNat < e.gpRvSegs.length := by omega
    have hget : getAt e.gpRvSegs (firstseg + i) = some (e.gpRvSegs[(firstseg + i).toNat]) := by
      simp [getAt, not_lt.mpr h0, List.getElem?_eq_getElem hlt]
    rw [RV_SpriteSplitTest_segLoop, hget]
    by_cases hv : RV_SpriteSplitTest_VisitSeg e (e.gpRvSegs[(firstseg + i).toNat]) line = true
    · simp only [hv]
      have := ih (i + 1) (by omega) (by omega)
      simpa using this
    · simp [hv]

/-- When the loop over the segs returns `true` every seg it ranges over permits. -/
theorem segLoop_true (e : Env) (firstseg : Int) (line : SplitTestLine) :
    ∀ (n : Nat) (i : Int), RV_SpriteSplitTest_segLoop e firstseg line n i = some true →
      ∀ (j : Int) (seg : rvseg_t), i ≤ j → j < i + n → getAt e.gpRvSegs (firstseg + j) = some seg →
        RV_SpriteSplitTest_VisitSeg e seg line = true := by
  intro n
  induction n with
  | zero => intro i _ j seg h1 h2; omega
  | succ n ih =>
    intro i h j seg h1 h2 hseg
    rw [RV_SpriteSplitTest_segLoop] at h
    cases hget : getAt e.gpRvSegs (firstseg + i) with
    | none => simp [hget] at h
    | some seg0 =>
      simp only [hget] at h
      by_cases hv : RV_SpriteSplitTest_VisitSeg e seg0 line = true
      · simp only [hv] at h
        rcases eq_or_lt_of_le h1 with heq | hlt
        · subst heq
          rw [hget] at hseg
          cases hseg
          exact hv
        · exact ih (i + 1) (by simpa using h) j seg (by omega) (by push_cast at h2 ⊢; omega) hseg
      · simp [hv] at h

/-- When every seg the loop ranges over permits, the loop returns `true`. -/
theorem segLoop_of_all (e : Env) (firstseg : Int) (line : SplitTestLine) :
    ∀ (n : Nat) (i : Int), 0 ≤ firstseg + i → firstseg + i + n ≤ e.gpRvSegs.length →
      (∀ (j : Int) (seg : rvseg_t), i ≤ j → j < i + n →
        getAt e.gpRvSegs (firstseg + j) = some seg →
        RV_SpriteSplitTest_VisitSeg e seg line = true) →
      RV_SpriteSplitTest_segLoop e firstseg line n i = some true := by
  intro n
  induction n with
  | zero => intro i _ _ _; rfl
  | succ n ih =>
    intro i h0 h1 hall
    have hlt : (firstseg + i).toNat < e.gpRvSegs.length := by omega
    have hget : getAt e.gpRvSegs (firstseg + i) = some (e.gpRvSegs[(firstseg + i).toNat]) := by
      simp [getAt, not_lt.mpr h0, List.getElem?_eq_getElem hlt]
    rw [RV_SpriteSplitTest_segLoop, hget]
    have hv := hall i _ (le_refl _) (by push_cast; omega) hget
    simp only [hv]
    have := ih (i + 1) (by omega) (by omega)
      (fun j seg hj1 hj2 hseg => hall j seg (by omega) (by push_cast; omega) hseg)
    simpa using this

theorem visitSubsector_total (e : Env) (subsec : subsector_t) (line : SplitTestLine)
    (h : segsInRange e subsec = true) :
    ∃ b, RV_SpriteSplitTest_VisitSubsector e subsec line = some b := by
  unfold RV_SpriteSplitTest_VisitSubsector
  simp only [segsInRange, decide_eq_true_eq] at h
  rcases h with h | ⟨h0, h1⟩
  · have : subsec.numsegs.toNat = 0 := by omega
    rw [this]; exact ⟨true, rfl⟩
  · by_cases hn : subsec.numsegs ≤ 0
    · have : subsec.numsegs.toNat = 0 := by omega
      rw [this]; exact ⟨true, rfl⟩
    · exact segLoop_total e _ line _ 0 (by omega) (by
        have : ((subsec.numsegs.toNat : Nat) : Int) = subsec.numsegs := Int.toNat_of_nonneg (by omega)
        omega)

/-- A leaf test that returns `true` was permitted by every seg of the leaf. -/
theorem visitSubsector_true (e : Env) (subsec : subsector_t) (line : SplitTestLine)
    (h : RV_SpriteSplitTest_VisitSubsector e subsec line = some true)
    (i : Int) (seg : rvseg_t) (hseg : segOf e subsec i = some seg) :
    RV_SpriteSplitTest_VisitSeg e seg line = true := by
  unfold segOf at hseg
  split_ifs at hseg with hi
  exact segLoop_true e _ line _ 0 h i seg hi.1 (by omega) hseg

/-- A leaf all of whose segs permit is permitted. -/
theorem visitSubsector_of_all (e : Env) (subsec : subsector_t) (line : SplitTestLine)
    (hr : segsInRange e subsec = true)
    (hall : ∀ (i : Int) (seg : rvseg_t), segOf e subsec i = some seg →
      RV_SpriteSplitTest_VisitSeg e seg line = true) :
    RV_SpriteSplitTest_VisitSubsector e subsec line = some true := by
  unfold RV_SpriteSplitTest_VisitSubsector
  by_cases hn : subsec.numsegs ≤ 0
  · have : subsec.numsegs.toNat = 0 := by omega
    rw [this]; rfl
  · simp only [segsInRange, decide_eq_true_eq] at hr
    rcases hr with hr | ⟨h0, h1⟩
    · exact absurd hr hn
    · have hcast : ((subsec.numsegs.toNat : Nat) : Int) = subsec.numsegs :=
        Int.toNat_of_nonneg (by omega)
      refine segLoop_of_all e _ line _ 0 (by omega) (by omega) ?_
      intro j seg hj1 hj2 hseg
      refine hall j seg ?_
      have : 0 ≤ j ∧ j < subsec.numsegs := ⟨hj1, by omega⟩
      simp [segOf, this, hseg]

theorem treeAll_leaf (e : Env) (p : subsector_t → Bool) (h : Nat) (nodeIdx : Int)
    (subsec : subsector_t) (hleaf : isSubsector e nodeIdx = true)
    (hsub : subsectorOf e nodeIdx = some subsec) :
    treeAll e p (h + 1) nodeIdx = p subsec := by
  simp [treeAll, hleaf, hsub]

theorem treeAll_leaf_none (e : Env) (p : subsector_t → Bool) (h : Nat) (nodeIdx : Int)
    (hleaf : isSubsector e nodeIdx = true) (hsub : subsectorOf e nodeIdx = none) :
    treeAll e p (h + 1) nodeIdx = false := by
  simp [treeAll, hleaf, hsub]

theorem treeAll_node (e : Env) (p : subsector_t → Bool) (h : Nat) (nodeIdx : Int)
    (node : node_t) (hnode : isSubsector e nodeIdx = false)
    (hget : getAt e.gpBspNodes nodeIdx = some node) :
    treeAll e p (h + 1) nodeIdx =
      (treeAll e p h node.children0 && treeAll e p h node.children1) := by
  simp [treeAll, hnode, hget]

theorem treeAll_node_none (e : Env) (p : subsector_t → Bool) (h : Nat) (nodeIdx : Int)
    (hnode : isSubsector e nodeIdx = false) (hget : getAt e.gpBspNodes nodeIdx = none) :
    treeAll e p (h + 1) nodeIdx = false := by
  simp [treeAll, hnode, hget]

theorem splitTest_leaf (e : Env) (fuel : Nat) (nodeIdx : Int) (line : SplitTestLine)
    (subsec : subsector_t) (hleaf : isSubsector e nodeIdx = true)
    (hsub : subsectorOf e nodeIdx = some subsec) :
    RV_SpriteSplitTest_VisitBspNode e (fuel + 1) nodeIdx line =
      RV_SpriteSplitTest_VisitSubsector e subsec line := by
  simp [RV_SpriteSplitTest_VisitBspNode, hleaf, hsub]

/-- The result of the split test at an internal node, from the results below. -/
theorem splitTest_node (e : Env) (fuel : Nat) (nodeIdx : Int) (line : SplitTestLine)
    (node : node_t) (hnode : isSubsector e nodeIdx = false)
    (hget : getAt e.gpBspNodes nodeIdx = some node) :
    RV_SpriteSplitTest_VisitBspNode e (fuel + 1) nodeIdx line =
      (RV_SpriteSplitTest_VisitBspNode e fuel
        (node.children (sideOf e node line.x1 line.z1)) line).bind
        (fun b1 =>
          if b1 = false then some false
          else if sideOf e node line.x1 line.z1 ≠ sideOf e node line.x2 line.z2 then
            RV_SpriteSplitTest_VisitBspNode e fuel
              (node.children (sideOf e node line.x2 line.z2)) line
          else some true) := by
  rw [RV_SpriteSplitTest_VisitBspNode]
  simp only [hnode, hget]
  cases h1 : RV_SpriteSplitTest_VisitBspNode e fuel
      (node.children (sideOf e node line.x1 line.z1)) line with
  | none => simp
  | some b1 =>
    cases b1
    · simp
    · by_cases hne : sideOf e node line.x1 line.z1 ≠ sideOf e node line.x2 line.z2
      · simp only [hne]
        cases h2 : RV_SpriteSplitTest_VisitBspNode e fuel
            (node.children (sideOf e node line.x2 line.z2)) line with
        | none => simp
        | some b2 => cases b2 <;> simp
      · simp [hne]

theorem visited_leaf (e : Env) (fuel : Nat) (nodeIdx : Int) (line : SplitTestLine)
    (subsec : subsector_t) (hleaf : isSubsector e nodeIdx = true)
    (hsub : subsectorOf e nodeIdx = some subsec) :
    RV_SpriteSplitTest_visited e (fuel + 1) nodeIdx line = [subsec] := by
  simp [RV_SpriteSplitTest_visited, hleaf, hsub]

theorem visited_node (e : Env) (fuel : Nat) (nodeIdx : Int) (line : SplitTestLine)
    (node : node_t) (hnode : isSubsector e nodeIdx = false)
    (hget : getAt e.gpBspNodes nodeIdx = some node) :
    RV_SpriteSplitTest_visited e (fuel + 1) nodeIdx line =
      RV_SpriteSplitTest_visited e fuel (node.children (sideOf e node line.x1 line.z1)) line ++
        (if RV_SpriteSplitTest_VisitBspNode e fuel
              (node.children (sideOf e node line.x1 line.z1)) line = some true
            ∧ sideOf e node line.x1 line.z1 ≠ sideOf e node line.x2 line.z2 then
          RV_SpriteSplitTest_visited e fuel (node.children (sideOf e node line.x2 line.z2)) line
        else []) := by
  simp [RV_SpriteSplitTest_visited, hnode, hget]

theorem treeAll_mono (e : Env) (p q : subsector_t → Bool) (hpq : ∀ s, p s = true → q s = true) :
    ∀ (h : Nat) (nodeIdx : Int), treeAll e p h nodeIdx = true → treeAll e q h nodeIdx = true := by
  intro h
  induction h with
  | zero => intro nodeIdx hw; simp [treeAll] at hw
  | succ h ih =>
    intro nodeIdx hw
    cases hs : isSubsector e nodeIdx with
    | true =>
      cases hsub : subsectorOf e nodeIdx with
      | none => rw [treeAll_leaf_none e p h nodeIdx hs hsub] at hw; exact absurd hw (by simp)
      | some subsec =>
        rw [treeAll_leaf e p h nodeIdx subsec hs hsub] at hw
        rw [treeAll_leaf e q h nodeIdx subsec hs hsub]
        exact hpq _ hw
    | false =>
      cases hget : getAt e.gpBspNodes nodeIdx with
      | none => rw [treeAll_node_none e p h nodeIdx hs hget] at hw; exact absurd hw (by simp)
      | some node =>
        rw [treeAll_node e p h nodeIdx node hs hget, Bool.and_eq_true] at hw
        rw [treeAll_node e q h nodeIdx node hs hget, Bool.and_eq_true]
        exact ⟨ih _ hw.1, ih _ hw.2⟩

theorem treeAll_child (e : Env) (p : subsector_t → Bool) (h : Nat) (nodeIdx : Int)
    (node : node_t) (hnode : isSubsector e nodeIdx = false)
    (hget : getAt e.gpBspNodes nodeIdx = some node)
    (hw : treeAll e p (h + 1) nodeIdx = true) (side : Nat) :
    treeAll e p h (node.children side) = true := by
  rw [treeAll_node e p h nodeIdx node hnode hget, Bool.and_eq_true] at hw
  unfold node_t.children
  split_ifs
  · exact hw.1
  · exact hw.2

/-- On a well formed tree the split test returns a result. -/
theorem splitTest_total (e : Env) (line : SplitTestLine) :
    ∀ (h : Nat) (nodeIdx : Int), wellFormedBsp e h nodeIdx = true →
      ∃ b, RV_SpriteSplitTest_VisitBspNode e h nodeIdx line = some b := by
  intro h
  induction h with
  | zero => intro nodeIdx hw; simp [wellFormedBsp, treeAll] at hw
  | succ h ih =>
    intro nodeIdx hw
    unfold wellFormedBsp at hw ih
    cases hs : isSubsector e nodeIdx with
    | true =>
      cases hsub : subsectorOf e nodeIdx with
      | none => rw [treeAll_leaf_none e _ h nodeIdx hs hsub] at hw; exact absurd hw (by simp)
      | some subsec =>
        rw [treeAll_leaf e _ h nodeIdx subsec hs hsub] at hw
        rw [splitTest_leaf e h nodeIdx line subsec hs hsub]
        exact visitSubsector_total e subsec line hw
    | false =>
      cases hget : getAt e.gpBspNodes nodeIdx with
      | none => rw [treeAll_node_none e _ h nodeIdx hs hget] at hw; exact absurd hw (by simp)
      | some node =>
        rw [splitTest_node e h nodeIdx line node hs hget]
        obtain ⟨b1, hb1⟩ := ih _ (treeAll_child e _ h nodeIdx node hs hget hw
          (sideOf e node line.x1 line.z1))
        obtain ⟨b2, hb2⟩ := ih _ (treeAll_child e _ h nodeIdx node hs hget hw
          (sideOf e node line.x2 line.z2))
        rw [hb1, Option.some_bind]
        split_ifs
        · exact ⟨false, rfl⟩
        · exact ⟨b2, hb2⟩
        · exact ⟨true, rfl⟩

/-- A veto by a seg of a visited leaf makes the split test return `false`. -/
theorem splitTest_false_of_veto (e : Env) (line : SplitTestLine) :
    ∀ (fuel : Nat) (nodeIdx : Int) (b : Bool),
      RV_SpriteSplitTest_VisitBspNode e fuel nodeIdx line = some b →
      ∀ (subsec : subsector_t) (i : Int) (seg : rvseg_t),
        subsec ∈ RV_SpriteSplitTest_visited e fuel nodeIdx line →
        segOf e subsec i = some seg → RV_SpriteSplitTest_VisitSeg e seg line = false →
        b = false := by
  intro fuel
  induction fuel with
  | zero => intro nodeIdx b hb; simp [RV_SpriteSplitTest_VisitBspNode] at hb
  | succ fuel ih =>
    intro nodeIdx b hb subsec i seg hmem hseg hveto
    cases hs : isSubsector e nodeIdx with
    | true =>
      cases hsub : subsectorOf e nodeIdx with
      | none => simp [RV_SpriteSplitTest_visited, hs, hsub] at hmem
      | some subsec0 =>
        rw [visited_leaf e fuel nodeIdx line subsec0 hs hsub, List.mem_singleton] at hmem
        rw [splitTest_leaf e fuel nodeIdx line subsec0 hs hsub] at hb
        subst hmem
        cases b
        · rfl
        · have := visitSubsector_true e subsec line hb i seg hseg
          rw [hveto] at this
          exact absurd this (by simp)
    | false =>
      cases hget : getAt e.gpBspNodes nodeIdx with
      | none => simp [RV_SpriteSplitTest_visited, hs, hget] at hmem
      | some node =>
        rw [visited_node e fuel nodeIdx line node hs hget, List.mem_append] at hmem
        rw [splitTest_node e fuel nodeIdx line node hs hget] at hb
        cases h1 : RV_SpriteSplitTest_VisitBspNode e fuel
            (node.children (sideOf e node line.x1 line.z1)) line with
        | none => simp [h1] at hb
        | some b1 =>
          rw [h1, Option.some_bind] at hb
          rcases hmem with hmem | hmem
          · have hb1 := ih _ b1 h1 subsec i seg hmem hseg hveto
            subst hb1
            simpa using hb.symm
          · rw [h1] at hmem
            split_ifs at hmem with hc
            · obtain ⟨hc1, hne⟩ := hc
              have hb1 : b1 = true := by simpa using hc1
              subst hb1
              exact ih _ b (by simpa [hne] using hb) subsec i seg hmem hseg hveto
            · exact absurd hmem (List.not_mem_nil _)

/-- When every seg of every visited leaf permits, the split test returns `true`. -/
theorem splitTest_true_of_all (e : Env) (line : SplitTestLine) :
    ∀ (h : Nat) (nodeIdx : Int), wellFormedBsp e h nodeIdx = true →
      (∀ (subsec : subsector_t) (i : Int) (seg : rvseg_t),
        subsec ∈ RV_SpriteSplitTest_visited e h nodeIdx line →
        segOf e subsec i = some seg → RV_SpriteSplitTest_VisitSeg e seg line = true) →
      RV_SpriteSplitTest_VisitBspNode e h nodeIdx line = some true := by
  intro h
  induction h with
  | zero => intro nodeIdx hw; simp [wellFormedBsp, treeAll] at hw
  | succ h ih =>
    intro nodeIdx hw hall
    unfold wellFormedBsp at hw ih
    cases hs : isSubsector e nodeIdx with
    | true =>
      cases hsub : subsectorOf e nodeIdx with
      | none => rw [treeAll_leaf_none e _ h nodeIdx hs hsub] at hw; exact absurd hw (by simp)
      | some subsec =>
        rw [treeAll_leaf e _ h nodeIdx subsec hs hsub] at hw
        rw [splitTest_leaf e h nodeIdx line subsec hs hsub]
        rw [visited_leaf e h nodeIdx line subsec hs hsub] at hall
        exact visitSubsector_of_all e subsec line hw
          (fun i seg hseg => hall subsec i seg (List.mem_singleton.mpr rfl) hseg)
    | false =>
      cases hget : getAt e.gpBspNodes nodeIdx with
      | none => rw [treeAll_node_none e _ h nodeIdx hs hget] at hw; exact absurd hw (by simp)
      | some node =>
        rw [splitTest_node e h nodeIdx line node hs hget]
        rw [visited_node e h nodeIdx line node hs hget] at hall
        have h1 := ih _ (treeAll_child e _ h nodeIdx node hs hget hw
          (sideOf e node line.x1 line.z1))
          (fun subsec i seg hmem hseg => hall subsec i seg
            (List.mem_append.mpr (Or.inl hmem)) hseg)
        rw [h1, Option.some_bind]
        by_cases hne : sideOf e node line.x1 line.z1 ≠ sideOf e node line.x2 line.z2
        · have h2 := ih _ (treeAll_child e _ h nodeIdx node hs hget hw
            (sideOf e node line.x2 line.z2))
            (fun subsec i seg hmem hseg => hall subsec i seg
              (List.mem_append.mpr (Or.inr (by rw [if_pos ⟨h1, hne⟩]; exact hmem))) hseg)
          simp [hne, h2]
        · simp [hne]

/-! ## Lemmas on the traversal -/

theorem clamp_nonneg (v : ℚ) : 0 ≤ clamp v 0 1 := by
  unfold clamp
  split_ifs with h1 h2
  · exact le_refl _
  · exact zero_le_one
  · exact not_lt.mp h1

theorem clamp_le_one (v : ℚ) : clamp v 0 1 ≤ 1 := by
  unfold clamp
  split_ifs with h1 h2
  · exact zero_le_one
  · exact le_refl _
  · exact not_lt.mp h2

theorem splitTOf_nonneg (e : Env) (node : node_t) (F : SpriteFrag) : 0 ≤ splitTOf e node F :=
  clamp_nonneg _

theorem splitTOf_le_one (e : Env) (node : node_t) (F : SpriteFrag) : splitTOf e node F ≤ 1 :=
  clamp_le_one _

theorem visit_leaf (e : Env) (fuel : Nat) (nodeIdx : Int) (subsec : subsector_t)
    (F : SpriteFrag) (st : RvState)
    (hleaf : isSubsector e nodeIdx = true) (hsub : subsectorOf e nodeIdx = some subsec) :
    RV_SpriteFrag_VisitBspNode e (fuel + 1) nodeIdx F st =
      RV_SpriteFrag_VisitSubsector subsec F st := by
  simp [RV_SpriteFrag_VisitBspNode, hleaf, hsub]

theorem visit_same (e : Env) (fuel : Nat) (nodeIdx : Int) (node : node_t)
    (F : SpriteFrag) (st : RvState)
    (hnode : isSubsector e nodeIdx = false) (hget : getAt e.gpBspNodes nodeIdx = some node)
    (hsides : bSideOf e node F.x1 F.z1 = bSideOf e node F.x2 F.z2) :
    RV_SpriteFrag_VisitBspNode e (fuel + 1) nodeIdx F st =
      RV_SpriteFrag_VisitBspNode e fuel (node.children (sideOf e node F.x1 F.z1)) F st := by
  simp only [RV_SpriteFrag_VisitBspNode, hnode, hget, hsides, node_t.children, sideOf]
  cases bSideOf e node F.x2 F.z2 <;> simp

theorem visit_denied (e : Env) (fuel : Nat) (nodeIdx : Int) (node : node_t)
    (F : SpriteFrag) (st : RvState)
    (hnode : isSubsector e nodeIdx = false) (hget : getAt e.gpBspNodes nodeIdx = some node)
    (hsides : bSideOf e node F.x1 F.z1 ≠ bSideOf e node F.x2 F.z2)
    (hdeny : RV_SpriteSplitTest_VisitBspNode e (fuel + 1) nodeIdx
      (splitLineOf F (splitTOf e node F)) = some false) :
    RV_SpriteFrag_VisitBspNode e (fuel + 1) nodeIdx F st =
      RV_SpriteFrag_VisitBspNode e fuel
        (if bCenterSideOf e node st then node.children0 else node.children1) F st := by
  rw [RV_SpriteFrag_VisitBspNode]
  simp only [hnode, hget, hsides, hdeny]
  cases bCenterSideOf e node st <;> simp

theorem visit_split (e : Env) (fuel : Nat) (nodeIdx : Int) (node : node_t)
    (F : SpriteFrag) (st : RvState)
    (hnode : isSubsector e nodeIdx = false) (hget : getAt e.gpBspNodes nodeIdx = some node)
    (hsides : bSideOf e node F.x1 F.z1 ≠ bSideOf e node F.x2 F.z2)
    (hperm : RV_SpriteSplitTest_VisitBspNode e (fuel + 1) nodeIdx
      (splitLineOf F (splitTOf e node F)) = some true) :
    RV_SpriteFrag_VisitBspNode e (fuel + 1) nodeIdx F st =
      (RV_SpriteFrag_VisitBspNode e fuel (node.children (sideOf e node F.x1 F.z1))
        (splitFrag1 F (splitFrag2 F (splitTOf e node F))) st).bind
        (fun st1 => RV_SpriteFrag_VisitBspNode e fuel (node.children (sideOf e node F.x2 F.z2))
          (splitFrag2 F (splitTOf e node F)) st1) := by
  rw [RV_SpriteFrag_VisitBspNode]
  simp only [hnode, hget, hperm, sideOf, node_t.children]
  rcases Bool.eq_false_or_eq_true (bSideOf e node F.x1 F.z1) with h1 | h1 <;>
    rcases Bool.eq_false_or_eq_true (bSideOf e node F.x2 F.z2) with h2 | h2
  · simp [h1, h2] at hsides
  · simp only [h1, h2]
    simp
    cases RV_SpriteFrag_VisitBspNode e fuel node.children0
      (splitFrag1 F (splitFrag2 F (splitTOf e node F))) st <;> rfl
  · simp only [h1, h2]
    simp
    cases RV_SpriteFrag_VisitBspNode e fuel node.children1
      (splitFrag1 F (splitFrag2 F (splitTOf e node F))) st <;> rfl
  · simp [h1, h2] at hsides

@[simp] theorem children_zero (node : node_t) : node.children 0 = node.children0 := rfl
@[simp] theorem children_one (node : node_t) : node.children 1 = node.children1 := rfl

theorem children_sideOf (e : Env) (node : node_t) (x z : ℚ) :
    node.children (sideOf e node x z) =
      if bSideOf e node x z then node.children0 else node.children1 := by
  unfold sideOf
  cases bSideOf e node x z <;> rfl

/-- Filing a fragment in a drawable leaf appends it and makes it the head. -/
theorem visitSubsector_drawable (subsec : subsector_t) (F : SpriteFrag) (st : RvState)
    (head : Int) (hd : 0 ≤ subsec.vkDrawSubsecIdx)
    (hhead : st.gRvDrawSubsecSprFrags[subsec.vkDrawSubsecIdx.toNat]? = some head) :
    RV_SpriteFrag_VisitSubsector subsec F st = some { st with
      gRvSpriteFrags := st.gRvSpriteFrags ++ [{ F with nextSubsecFragIdx := head }]
      gRvDrawSubsecSprFrags :=
        st.gRvDrawSubsecSprFrags.set subsec.vkDrawSubsecIdx.toNat st.gRvSpriteFrags.length } := by
  simp [RV_SpriteFrag_VisitSubsector, not_lt.mpr hd, hhead]

theorem drawableIn_head (n : Nat) (subsec : subsector_t) (heads : List Int)
    (hlen : heads.length = n) (h : drawableIn n subsec = true) :
    0 ≤ subsec.vkDrawSubsecIdx ∧
      ∃ head, heads[subsec.vkDrawSubsecIdx.toNat]? = some head := by
  simp only [drawableIn, decide_eq_true_eq] at h
  refine ⟨h.1, ?_⟩
  have hlt : subsec.vkDrawSubsecIdx.toNat < heads.length := by omega
  exact ⟨heads[subsec.vkDrawSubsecIdx.toNat], List.getElem?_eq_getElem hlt⟩

theorem isPiece_self (F : SpriteFrag) : IsPiece F F 0 1 := by
  simp [IsPiece]

theorem isPiece_link (F P : SpriteFrag) (a b : ℚ) (link : Int) (h : IsPiece F P a b) :
    IsPiece F { P with nextSubsecFragIdx := link } a b := h

theorem isPiece_frag1 (F P : SpriteFrag) (a b t : ℚ) (h : IsPiece F P a b) :
    IsPiece F (splitFrag1 P (splitFrag2 P t)) a (a * (1 - t) + b * t) := by
  obtain ⟨h1, h2, h3, h4, h5, h6⟩ := h
  refine ⟨h1, h2, h3, ?_, ?_, ?_⟩
  · simp only [splitFrag1, splitFrag2, h1, h4]; ring
  · simp only [splitFrag1, splitFrag2, h2, h5]; ring
  · simp only [splitFrag1, splitFrag2, h3, h6]; ring

theorem isPiece_frag2 (F P : SpriteFrag) (a b t : ℚ) (h : IsPiece F P a b) :
    IsPiece F (splitFrag2 P t) (a * (1 - t) + b * t) b := by
  obtain ⟨h1, h2, h3, h4, h5, h6⟩ := h
  refine ⟨?_, ?_, ?_, h4, h5, h6⟩
  · simp only [splitFrag2, h1, h4]; ring
  · simp only [splitFrag2, h2, h5]; ring
  · simp only [splitFrag2, h3, h6]; ring

theorem cut_between (a b t : ℚ) (hab : a ≤ b) (h0 : 0 ≤ t) (h1 : t ≤ 1) :
    a ≤ a * (1 - t) + b * t ∧ a * (1 - t) + b * t ≤ b := by
  constructor
  · nlinarith [mul_nonneg (sub_nonneg.mpr hab) h0]
  · nlinarith [mul_nonneg (sub_nonneg.mpr hab) (sub_nonneg.mpr h1)]

theorem tiles_single (F P : SpriteFrag) (a b : ℚ) (hab : a ≤ b) (h : IsPiece F P a b) :
    Tiles F a b [P] :=
  ⟨b, hab, h, rfl⟩

theorem tiles_append (F : SpriteFrag) :
    ∀ (ps qs : List SpriteFrag) (a m b : ℚ), Tiles F a m ps → Tiles F m b qs →
      Tiles F a b (ps ++ qs) := by
  intro ps
  induction ps with
  | nil =>
    intro qs a m b h1 h2
    simp only [Tiles] at h1
    subst h1
    simpa using h2
  | cons P ps ih =>
    intro qs a m b h1 h2
    obtain ⟨c, hac, hP, hrest⟩ := h1
    exact ⟨c, hac, hP, ih qs c m b hrest h2⟩

/-- The traversal of a well formed tree with drawable leaves returns, and the fragments
it appends to the store tile the fragment it was given. -/
theorem visit_tiles (e : Env) (F : SpriteFrag) :
    ∀ (h : Nat) (nodeIdx : Int) (frag : SpriteFrag) (st : RvState) (a b : ℚ),
      wellFormedDrawableBsp e st.gRvDrawSubsecSprFrags.length h nodeIdx = true →
      a ≤ b → IsPiece F frag a b →
      ∃ (st' : RvState) (pieces : List SpriteFrag),
        RV_SpriteFrag_VisitBspNode e h nodeIdx frag st = some st' ∧
        st'.gRvSpriteFrags = st.gRvSpriteFrags ++ pieces ∧
        st'.gRvDrawSubsecSprFrags.length = st.gRvDrawSubsecSprFrags.length ∧
        Tiles F a b pieces := by
  intro h
  induction h with
  | zero => intro nodeIdx frag st a b hw; simp [wellFormedDrawableBsp, treeAll] at hw
  | succ h ih =>
    intro nodeIdx frag st a b hw hab hP
    unfold wellFormedDrawableBsp at hw ih
    cases hs : isSubsector e nodeIdx with
    | true =>
      cases hsub : subsectorOf e nodeIdx with
      | none => rw [treeAll_leaf_none e _ h nodeIdx hs hsub] at hw; exact absurd hw (by simp)
      | some subsec =>
        rw [treeAll_leaf e _ h nodeIdx subsec hs hsub, Bool.and_eq_true] at hw
        obtain ⟨hd, head, hhead⟩ := drawableIn_head _ subsec st.gRvDrawSubsecSprFrags rfl hw.2
        rw [visit_leaf e h nodeIdx subsec frag st hs hsub,
          visitSubsector_drawable subsec frag st head hd hhead]
        exact ⟨_, [{ frag with nextSubsecFragIdx := head }], rfl, rfl, by simp,
          tiles_single F _ a b hab hP⟩
    | false =>
      cases hget : getAt e.gpBspNodes nodeIdx with
      | none => rw [treeAll_node_none e _ h nodeIdx hs hget] at hw; exact absurd hw (by simp)
      | some node =>
        have hc := treeAll_child e _ h nodeIdx node hs hget hw
        by_cases hsides : bSideOf e node frag.x1 frag.z1 = bSideOf e node frag.x2 frag.z2
        · rw [visit_same e h nodeIdx node frag st hs hget hsides]
          exact ih _ frag st a b (hc _) hab hP
        · have hwf : wellFormedBsp e (h + 1) nodeIdx = true :=
            treeAll_mono e _ _ (fun s hs => (Bool.and_eq_true _ _ ▸ hs).1) _ _ hw
          obtain ⟨r, hr⟩ := splitTest_total e (splitLineOf frag (splitTOf e node frag))
            (h + 1) nodeIdx hwf
          cases r with
          | false =>
            rw [visit_denied e h nodeIdx node frag st hs hget hsides hr]
            have hc' : treeAll e (fun subsec => segsInRange e subsec &&
                drawableIn st.gRvDrawSubsecSprFrags.length subsec) h
                (if bCenterSideOf e node st then node.children0 else node.children1) = true := by
              split_ifs
              · exact hc 0
              · exact hc 1
            exact ih _ frag st a b hc' hab hP
          | true =>
            rw [visit_split e h nodeIdx node frag st hs hget hsides hr]
            have ht0 := splitTOf_nonneg e node frag
            have ht1 := splitTOf_le_one e node frag
            obtain ⟨hm1, hm2⟩ := cut_between a b _ hab ht0 ht1
            obtain ⟨st1, ps, hv1, hf1, hl1, ht1'⟩ := ih (node.children (sideOf e node frag.x1 frag.z1))
              _ st a _ (hc _) hm1
              (isPiece_frag1 F frag a b (splitTOf e node frag) hP)
            obtain ⟨st2, qs, hv2, hf2, hl2, ht2'⟩ := ih (node.children (sideOf e node frag.x2 frag.z2))
              _ st1 _ b (by rw [hl1]; exact hc _) hm2
              (isPiece_frag2 F frag a b (splitTOf e node frag) hP)
            refine ⟨st2, ps ++ qs, ?_, ?_, ?_, tiles_append F ps qs a _ b ht1' ht2'⟩
            · rw [hv1, Option.some_bind, hv2]
            · rw [hf2, hf1, List.append_assoc]
            · rw [hl2, hl1]

/-! ## Lemmas on the list walk and the sort -/

theorem gather_eq_leafList (frags : List SpriteFrag) :
    ∀ (fuel : Nat) (idx : Int) (acc : List (Nat × SpriteFrag)),
      RV_DrawSubsecSpriteFrags_gather frags fuel idx acc =
        (leafList frags fuel idx).map (fun walk => acc ++ walk) := by
  intro fuel
  induction fuel with
  | zero =>
    intro idx acc
    by_cases h : idx < 0 <;> simp [RV_DrawSubsecSpriteFrags_gather, leafList, h]
  | succ fuel ih =>
    intro idx acc
    rw [RV_DrawSubsecSpriteFrags_gather, leafList]
    by_cases h : idx < 0
    · simp [h]
    · simp only [h, if_false]
      cases hf : frags[idx.toNat]? with
      | none => rfl
      | some frag =>
        simp only [ih]
        cases leafList frags fuel frag.nextSubsecFragIdx <;> simp

theorem leafList_total (frags : List SpriteFrag)
    (hlinks : ∀ (j : Nat) (frag : SpriteFrag), frags[j]? = some frag →
      frag.nextSubsecFragIdx < j) :
    ∀ (fuel : Nat) (idx : Int), idx < fuel → idx < frags.length →
      ∃ walk, leafList frags fuel idx = some walk := by
  intro fuel
  induction fuel with
  | zero =>
    intro idx h1 _
    exact ⟨[], by simp [leafList, (by simpa using h1 : idx < 0)]⟩
  | succ fuel ih =>
    intro idx h1 h2
    rw [leafList]
    by_cases h : idx < 0
    · exact ⟨[], by simp [h]⟩
    · have hlt : idx.toNat < frags.length := by omega
      have hget : frags[idx.toNat]? = some frags[idx.toNat] := List.getElem?_eq_getElem hlt
      have hnext := hlinks _ _ hget
      obtain ⟨rest, hrest⟩ := ih (frags[idx.toNat]).nextSubsecFragIdx
        (by push_cast at h1; omega) (by omega)
      exact ⟨(idx.toNat, frags[idx.toNat]) :: rest, by simp [h, hget, hrest]⟩

theorem mem_stable_sort_insert {α : Type} (comp : α → α → Bool) (x y : α) :
    ∀ l : List α, y ∈ stable_sort_insert comp x l ↔ y = x ∨ y ∈ l := by
  intro l
  induction l with
  | nil => simp [stable_sort_insert]
  | cons z zs ih =>
    rw [stable_sort_insert]
    split_ifs
    · simp only [List.mem_cons, ih]; tauto
    · simp only [List.mem_cons]

theorem sorted_stable_sort_insert (x : Nat × SpriteFrag) :
    ∀ l : List (Nat × SpriteFrag), l.Pairwise (fun p q => p.2.depth ≥ q.2.depth) →
      (stable_sort_insert depthComp x l).Pairwise (fun p q => p.2.depth ≥ q.2.depth) := by
  intro l
  induction l with
  | nil => intro _; simp [stable_sort_insert]
  | cons y ys ih =>
    intro hl
    rw [List.pairwise_cons] at hl
    rw [stable_sort_insert]
    by_cases hc : depthComp y x = true
    · simp only [hc, if_true, List.pairwise_cons]
      refine ⟨?_, ih hl.2⟩
      intro z hz
      rcases (mem_stable_sort_insert depthComp x z ys).mp hz with hz | hz
      · subst hz
        simp only [depthComp, decide_eq_true_eq] at hc
        exact le_of_lt hc
      · exact hl.1 z hz
    · rw [if_neg hc, List.pairwise_cons, List.pairwise_cons]
      simp only [depthComp, decide_eq_true_eq, not_lt] at hc
      refine ⟨?_, hl.1, hl.2⟩
      intro z hz
      rcases List.mem_cons.mp hz with hz | hz
      · subst hz; exact hc
      · exact le_trans (hl.1 z hz) hc

theorem sorted_stable_sort :
    ∀ l : List (Nat × SpriteFrag),
      (stable_sort depthComp l).Pairwise (fun p q => p.2.depth ≥ q.2.depth) := by
  intro l
  induction l with
  | nil => simp [stable_sort]
  | cons x xs ih => exact sorted_stable_sort_insert x _ ih

theorem filter_stable_sort_insert (d : ℚ) (x : Nat × SpriteFrag) :
    ∀ l : List (Nat × SpriteFrag),
      (stable_sort_insert depthComp x l).filter (fun p => decide (p.2.depth = d)) =
        (x :: l).filter (fun p => decide (p.2.depth = d)) := by
  intro l
  induction l with
  | nil => simp [stable_sort_insert]
  | cons y ys ih =>
    rw [stable_sort_insert]
    by_cases hc : depthComp y x = true
    · simp only [hc, if_true]
      rw [List.filter_cons, ih]
      simp only [depthComp, decide_eq_true_eq] at hc
      by_cases hy : y.2.depth = d
      · have hx : ¬ x.2.depth = d := by intro hx; rw [hx, hy] at hc; exact lt_irrefl _ hc
        simp [List.filter_cons, hx, hy]
      · simp [List.filter_cons, hy]
    · rw [if_neg hc]

theorem filter_stable_sort (d : ℚ) :
    ∀ l : List (Nat × SpriteFrag),
      (stable_sort depthComp l).filter (fun p => decide (p.2.depth = d)) =
        l.filter (fun p => decide (p.2.depth = d)) := by
  intro l
  induction l with
  | nil => simp [stable_sort]
  | cons x xs ih =>
    rw [stable_sort, filter_stable_sort_insert, List.filter_cons, List.filter_cons, ih]

/-- The result of `RV_DrawSubsecSpriteFrags` in terms of the walk of the list. -/
theorem draw_eq (e : Env) (fuel : Nat) (drawSubsecIdx : Int) (st : RvState)
    (drawn : List (Nat × SpriteFrag)) (st' : RvState)
    (h : RV_DrawSubsecSpriteFrags e fuel drawSubsecIdx st = some (drawn, st')) :
    st.gRvSortedFrags = [] ∧
    ∃ head walk, getAt st.gRvDrawSubsecSprFrags drawSubsecIdx = some head ∧
      leafList st.gRvSpriteFrags fuel head = some walk ∧
      drawn = stable_sort depthComp walk ∧ st' = { st with gRvSortedFrags := [] } := by
  unfold RV_DrawSubsecSpriteFrags at h
  by_cases h1 : st.gRvSortedFrags ≠ []
  · simp [h1] at h
  · rw [if_neg h1] at h
    have h1' : st.gRvSortedFrags = [] := by simpa using h1
    split_ifs at h with h2
    cases hh : getAt st.gRvDrawSubsecSprFrags drawSubsecIdx with
    | none => simp [hh] at h
    | some head =>
      simp only [hh, gather_eq_leafList, h1', List.nil_append] at h
      cases hw : leafList st.gRvSpriteFrags fuel head with
      | none => simp [hw] at h
      | some walk =>
        simp only [hw, Option.map_some', Option.some.injEq, Prod.mk.injEq] at h
        exact ⟨h1', head, walk, rfl, hw, h.1.symm, h.2.symm⟩

/-- With descending links the drawing of a valid draw subsector returns. -/
theorem draw_total (e : Env) (drawSubsecIdx : Int) (st : RvState)
    (hlinks : LinksDescend st) (hempty : st.gRvSortedFrags = [])
    (hidx : 0 ≤ drawSubsecIdx ∧ drawSubsecIdx.toNat < e.gRvDrawSubsecs.length)
    (hheads : st.gRvDrawSubsecSprFrags.length = e.gRvDrawSubsecs.length) :
    ∃ drawn st', RV_DrawSubsecSpriteFrags e st.gRvSpriteFrags.length drawSubsecIdx st =
      some (drawn, st') := by
  have hlt : drawSubsecIdx.toNat < st.gRvDrawSubsecSprFrags.length := by omega
  have hget : getAt st.gRvDrawSubsecSprFrags drawSubsecIdx =
      some st.gRvDrawSubsecSprFrags[drawSubsecIdx.toNat] := by
    simp [getAt, not_lt.mpr hidx.1, List.getElem?_eq_getElem hlt]
  have hhead := hlinks.2 _ (List.getElem_mem hlt)
  obtain ⟨walk, hwalk⟩ := leafList_total st.gRvSpriteFrags hlinks.1 st.gRvSpriteFrags.length
    _ hhead hhead
  refine ⟨stable_sort depthComp walk, { st with gRvSortedFrags := [] }, ?_⟩
  unfold RV_DrawSubsecSpriteFrags
  simp [hempty, hidx, hget, gather_eq_leafList, hwalk]

/-- Along a path on which the endpoints are never separated the traversal files the
whole fragment in the leaf the path ends in. -/
theorem visit_sameSideLeaf (e : Env) (F : SpriteFrag) (st : RvState) (subsec : subsector_t) :
    ∀ (h : Nat) (nodeIdx : Int), sameSideLeaf e F h nodeIdx = some subsec →
      ∀ fuel, h ≤ fuel →
        RV_SpriteFrag_VisitBspNode e fuel nodeIdx F st =
          RV_SpriteFrag_VisitSubsector subsec F st := by
  intro h
  induction h with
  | zero => intro nodeIdx hp; simp [sameSideLeaf] at hp
  | succ h ih =>
    intro nodeIdx hp fuel hfuel
    obtain ⟨fuel', rfl⟩ : ∃ fuel', fuel = fuel' + 1 := ⟨fuel - 1, by omega⟩
    rw [sameSideLeaf] at hp
    cases hs : isSubsector e nodeIdx with
    | true =>
      simp only [hs, if_true] at hp
      exact visit_leaf e fuel' nodeIdx subsec F st hs hp
    | false =>
      cases hget : getAt e.gpBspNodes nodeIdx with
      | none => simp [hs, hget] at hp
      | some node =>
        simp only [hs, hget] at hp
        by_cases hsides : bSideOf e node F.x1 F.z1 = bSideOf e node F.x2 F.z2
        · rw [visit_same e fuel' nodeIdx node F st hs hget hsides]
          refine ih _ ?_ fuel' (by omega)
          simpa [hsides] using hp
        · simp [hsides] at hp

/-! ## Lemmas on the fragment of a thing -/

/-- The depth that `RV_InitSpriteFrag` writes is the third component of the view
projection transform of the anchor. -/
theorem initSpriteFrag_depth (te : ThingEnv) (thing : mobj_t) (thingX thingY thingZ : Int)
    (secR secG secB : Nat) (F : SpriteFrag)
    (h : RV_InitSpriteFrag te thing thingX thingY thingZ secR secG secB = some F) :
    F.depth = (te.gViewProjMatrix_transform3d
      (te.RV_FixedToFloat thingX, te.RV_FixedToFloat thingZ, te.RV_FixedToFloat thingY)).2.2 := by
  unfold RV_InitSpriteFrag at h
  cases hdef : te.gSprites[thing.sprite]? with
  | none => simp [hdef] at h
  | some spriteDef =>
    cases hframe : spriteDef.spriteframes[thing.frame &&& te.FF_FRAMEMASK]? with
    | none => simp [hdef, hframe] at h
    | some frame =>
      cases hcache : RV_CacheThingSpriteFrame te thingX thingY thing.angle frame with
      | none => simp [hdef, hframe, hcache] at h
      | some r =>
        obtain ⟨tex, flip⟩ := r
        simp only [hdef, hframe, hcache, Option.some.injEq] at h
        rw [← h]

/-- The colour that `RV_InitSpriteFrag` writes. -/
theorem initSpriteFrag_colour (te : ThingEnv) (thing : mobj_t) (thingX thingY thingZ : Int)
    (secR secG secB : Nat) (spriteDef : spritedef_t) (frame : spriteframe_t)
    (tex : texture_t) (bFlipSprite : Bool)
    (hdef : te.gSprites[thing.sprite]? = some spriteDef)
    (hframe : spriteDef.spriteframes[thing.frame &&& te.FF_FRAMEMASK]? = some frame)
    (hcache : RV_CacheThingSpriteFrame te thingX thingY thing.angle frame
      = some (tex, bFlipSprite)) :
    ∃ F, RV_InitSpriteFrag te thing thingX thingY thingZ secR secG secB = some F ∧
      (F.colR, F.colG, F.colB) =
        if thing.frame &&& te.FF_FULLBRIGHT ≠ 0 then
          (te.LIGHT_INTENSTIY_MAX % 256, te.LIGHT_INTENSTIY_MAX % 256,
            te.LIGHT_INTENSTIY_MAX % 256)
        else (secR, secG, secB) := by
  unfold RV_InitSpriteFrag
  simp only [hdef, hframe, hcache]
  refine ⟨_, rfl, ?_⟩
  split_ifs <;> rfl

/-- An internal node whose children are leaves with segs in range is a well formed
tree for any fuel of at least 2. -/
theorem wellFormedBsp_two_leaves (e : Env) (fuel : Nat) (nodeIdx : Int) (node : node_t)
    (leaf0 leaf1 : subsector_t)
    (hnode : isSubsector e nodeIdx = false)
    (hget : getAt e.gpBspNodes nodeIdx = some node)
    (hc0 : isSubsector e node.children0 = true)
    (hl0 : subsectorOf e node.children0 = some leaf0)
    (hc1 : isSubsector e node.children1 = true)
    (hl1 : subsectorOf e node.children1 = some leaf1)
    (hr0 : segsInRange e leaf0 = true) (hr1 : segsInRange e leaf1 = true) :
    wellFormedBsp e (fuel + 2) nodeIdx = true := by
  unfold wellFormedBsp
  rw [treeAll_node e _ (fuel + 1) nodeIdx node hnode hget,
    treeAll_leaf e _ fuel _ leaf0 hc0 hl0, treeAll_leaf e _ fuel _ leaf1 hc1 hl1, hr0, hr1]
  rfl

/-! ## Lemmas on flags and node indices -/

theorem lor_eq_zero_iff (x y : Nat) : x ||| y = 0 ↔ x = 0 ∧ y = 0 := by
  constructor
  · intro h
    constructor
    · apply Nat.eq_of_testBit_eq
      intro i
      have := congrArg (fun n => n.testBit i) h
      simp only [Nat.testBit_or, Nat.zero_testBit, Bool.or_eq_false_iff] at this
      simp [this.1]
    · apply Nat.eq_of_testBit_eq
      intro i
      have := congrArg (fun n => n.testBit i) h
      simp only [Nat.testBit_or, Nat.zero_testBit, Bool.or_eq_false_iff] at this
      simp [this.2]
  · rintro ⟨rfl, rfl⟩
    rfl

/-- A flag word has neither of two flags exactly when it does not meet their union. -/
theorem land_lor_eq_zero_iff (f a b : Nat) :
    f &&& (a ||| b) = 0 ↔ f &&& a = 0 ∧ f &&& b = 0 := by
  rw [Nat.and_or_distrib_left, lor_eq_zero_iff]

/-- The result of the seg test on a two sided seg whose linedef intersects the line. -/
theorem visitSeg_two_sided (e : Env) (seg : rvseg_t) (line : SplitTestLine)
    (back : sector_t) (hint : segIntersects e seg line = true)
    (hback : seg.backsector = some back) :
    RV_SpriteSplitTest_VisitSeg e seg line =
      if seg.linedef.flags &&& (e.ML_MIDMASKED ||| e.ML_MIDTRANSLUCENT) ≠ 0 then false
      else if seg.flags &&& e.SGF_VISIBLE_COLS = 0 then true
      else decide (line.y ≥ e.RV_FixedToFloat (max seg.frontsector.floorDrawH back.floorDrawH))
        && decide (line.y ≤ e.RV_FixedToFloat
          (min seg.frontsector.ceilingDrawH back.ceilingDrawH)) := by
  unfold segIntersects at hint
  simp [RV_SpriteSplitTest_VisitSeg, hint, hback]

theorem toU32_neg_one : toU32 (-1) = 2 ^ 32 - 1 := by decide

theorem isSubsector_neg_one (e : Env) (hNF : e.NF_SUBSECTOR % 4294967296 ≠ 0) :
    isSubsector e (-1) = true := by
  unfold isSubsector
  rw [toU32_neg_one, Nat.and_comm, Nat.and_pow_two_sub_one_eq_mod]
  simpa using hNF

theorem toU32_lt (i : Int) : toU32 i < 2 ^ 32 := by
  unfold toU32
  have h1 : (0 : Int) ≤ i % 4294967296 := Int.emod_nonneg _ (by decide)
  have h2 : i % 4294967296 < 4294967296 := Int.emod_lt_of_pos _ (by decide)
  omega

/-- The leaf index of a subsector node index has none of the bits of `NF_SUBSECTOR`. -/
theorem subsecIdx_land (e : Env) (nodeIdx : Int) :
    subsecIdx e nodeIdx &&& e.NF_SUBSECTOR = 0 := by
  apply Nat.eq_of_testBit_eq
  intro i
  unfold subsecIdx
  have h : (4294967295 : Nat) = 2 ^ 32 - 1 := by decide
  have h2 : (4294967296 : Nat) = 2 ^ 32 := by decide
  rw [h, h2]
  simp only [Nat.testBit_and, Nat.testBit_xor, Nat.testBit_two_pow_sub_one,
    Nat.testBit_mod_two_pow, Nat.zero_testBit]
  by_cases hi : i < 32
  · simp only [hi, decide_True, Bool.true_and]
    cases (toU32 nodeIdx).testBit i <;> cases e.NF_SUBSECTOR.testBit i <;> rfl
  · have := Nat.testBit_lt_two_pow
      (lt_of_lt_of_le (toU32_lt nodeIdx) (Nat.pow_le_pow_right (by decide) (not_lt.mp hi)))
    simp [this]

/-- The leaf index together with the flag bits that were cleared is the node index. -/
theorem subsecIdx_lor (e : Env) (nodeIdx : Int) :
    subsecIdx e nodeIdx ||| (toU32 nodeIdx &&& e.NF_SUBSECTOR) = toU32 nodeIdx := by
  apply Nat.eq_of_testBit_eq
  intro i
  unfold subsecIdx
  have h : (4294967295 : Nat) = 2 ^ 32 - 1 := by decide
  have h2 : (4294967296 : Nat) = 2 ^ 32 := by decide
  rw [h, h2]
  simp only [Nat.testBit_or, Nat.testBit_and, Nat.testBit_xor, Nat.testBit_two_pow_sub_one,
    Nat.testBit_mod_two_pow]
  by_cases hi : i < 32
  · simp only [hi, decide_True, Bool.true_and]
    cases (toU32 nodeIdx).testBit i <;> cases e.NF_SUBSECTOR.testBit i <;> rfl
  · have := Nat.testBit_lt_two_pow
      (lt_of_lt_of_le (toU32_lt nodeIdx) (Nat.pow_le_pow_right (by decide) (not_lt.mp hi)))
    simp [this]

/-- The pipeline and the semi-transparency multiplier that `RV_InitSpriteFrag` writes. -/
theorem initSpriteFrag_blend (te : ThingEnv) (thing : mobj_t) (thingX thingY thingZ : Int)
    (secR secG secB : Nat) (spriteDef : spritedef_t) (frame : spriteframe_t)
    (tex : texture_t) (bFlipSprite : Bool)
    (hdef : te.gSprites[thing.sprite]? = some spriteDef)
    (hframe : spriteDef.spriteframes[thing.frame &&& te.FF_FRAMEMASK]? = some frame)
    (hcache : RV_CacheThingSpriteFrame te thingX thingY thing.angle frame
      = some (tex, bFlipSprite)) :
    ∃ F, RV_InitSpriteFrag te thing thingX thingY thingZ secR secG secB = some F ∧
      (F.drawPipeline, F.stMulR, F.stMulG, F.stMulB, F.stMulA) =
        if thing.flags &&& te.MF_BLEND_MODE_BIT1 ≠ 0 then
          if thing.flags &&& te.MF_BLEND_MODE_BIT2 ≠ 0 then
            (VPipelineType.World_SpriteAdditive, 32, 32, 32, 128)
          else
            (VPipelineType.World_SpriteAdditive, 128, 128, 128, 128)
        else if thing.flags &&& te.MF_BLEND_MODE_BIT2 ≠ 0 then
          (VPipelineType.World_SpriteSubtractive, 128, 128, 128, 128)
        else if thing.flags &&& te.MF_BLEND_ON ≠ 0 then
          (VPipelineType.World_SpriteAlpha, 128, 128, 128, 64)
        else
          (VPipelineType.World_SpriteMasked, 128, 128, 128, 128) := by
  unfold RV_InitSpriteFrag
  simp only [hdef, hframe, hcache]
  exact ⟨_, rfl, rfl⟩

/-! ## Lemmas on what the traversal files -/

/-- The two outcomes of filing a fragment in a leaf. -/
theorem visitSubsector_cases (subsec : subsector_t) (F : SpriteFrag) (st st' : RvState)
    (h : RV_SpriteFrag_VisitSubsector subsec F st = some st') :
    (subsec.vkDrawSubsecIdx < 0 ∧ st' = st) ∨
    (0 ≤ subsec.vkDrawSubsecIdx ∧ ∃ head,
      st.gRvDrawSubsecSprFrags[subsec.vkDrawSubsecIdx.toNat]? = some head ∧
      st' = { st with
        gRvSpriteFrags := st.gRvSpriteFrags ++ [{ F with nextSubsecFragIdx := head }]
        gRvDrawSubsecSprFrags := st.gRvDrawSubsecSprFrags.set
          subsec.vkDrawSubsecIdx.toNat st.gRvSpriteFrags.length }) := by
  unfold RV_SpriteFrag_VisitSubsector at h
  by_cases hneg : subsec.vkDrawSubsecIdx < 0
  · simp only [hneg, if_true, Option.some.injEq] at h
    exact Or.inl ⟨hneg, h.symm⟩
  · simp only [hneg, if_false] at h
    cases hh : st.gRvDrawSubsecSprFrags[subsec.vkDrawSubsecIdx.toNat]? with
    | none => simp [hh] at h
    | some head =>
      simp only [hh, Option.some.injEq] at h
      exact Or.inr ⟨not_lt.mp hneg, head, rfl, h.symm⟩

/-- A fragment is dropped by a leaf that is not drawn. -/
theorem visitSubsector_not_drawn (subsec : subsector_t) (F : SpriteFrag) (st : RvState)
    (h : subsec.vkDrawSubsecIdx < 0) : RV_SpriteFrag_VisitSubsector subsec F st = some st := by
  simp [RV_SpriteFrag_VisitSubsector, h]

/-- Whatever the traversal appends to the store satisfies every property of the
fragment that is kept by the two pieces of a split and by setting the link; the
number of list heads, the scratch list and the anchor stay as they are. -/
theorem visit_pieces (e : Env) (Q : SpriteFrag → Prop)
    (hlink : ∀ (P : SpriteFrag) (link : Int), Q P → Q { P with nextSubsecFragIdx := link })
    (hsplit : ∀ (P : SpriteFrag) (t : ℚ), 0 ≤ t → t ≤ 1 → Q P →
      Q (splitFrag1 P (splitFrag2 P t)) ∧ Q (splitFrag2 P t)) :
    ∀ (fuel : Nat) (nodeIdx : Int) (frag : SpriteFrag) (st st' : RvState), Q frag →
      RV_SpriteFrag_VisitBspNode e fuel nodeIdx frag st = some st' →
      ∃ pieces : List SpriteFrag,
        st'.gRvSpriteFrags = st.gRvSpriteFrags ++ pieces ∧ (∀ P ∈ pieces, Q P) ∧
        st'.gRvDrawSubsecSprFrags.length = st.gRvDrawSubsecSprFrags.length ∧
        st'.gRvSortedFrags = st.gRvSortedFrags ∧
        st'.gSpriteFragThingPos = st.gSpriteFragThingPos := by
  intro fuel
  induction fuel with
  | zero => intro nodeIdx frag st st' _ h; simp [RV_SpriteFrag_VisitBspNode] at h
  | succ fuel ih =>
    intro nodeIdx frag st st' hQ h
    cases hs : isSubsector e nodeIdx with
    | true =>
      cases hsub : subsectorOf e nodeIdx with
      | none => simp [RV_SpriteFrag_VisitBspNode, hs, hsub] at h
      | some subsec =>
        rw [visit_leaf e fuel nodeIdx subsec frag st hs hsub] at h
        rcases visitSubsector_cases subsec frag st st' h with ⟨_, rfl⟩ | ⟨_, head, _, rfl⟩
        · exact ⟨[], by simp, by simp, rfl, rfl, rfl⟩
        · refine ⟨[{ frag with nextSubsecFragIdx := head }], rfl, ?_, by simp, rfl, rfl⟩
          intro P hP
          rw [List.mem_singleton] at hP
          subst hP
          exact hlink frag head hQ
    | false =>
      cases hget : getAt e.gpBspNodes nodeIdx with
      | none => simp [RV_SpriteFrag_VisitBspNode, hs, hget] at h
      | some node =>
        by_cases hsides : bSideOf e node frag.x1 frag.z1 = bSideOf e node frag.x2 frag.z2
        · rw [visit_same e fuel nodeIdx node frag st hs hget hsides] at h
          exact ih _ frag st st' hQ h
        · cases hr : RV_SpriteSplitTest_VisitBspNode e (fuel + 1) nodeIdx
              (splitLineOf frag (splitTOf e node frag)) with
          | none =>
            rw [RV_SpriteFrag_VisitBspNode] at h
            simp [hs, hget, hsides, hr] at h
          | some r =>
            cases r with
            | false =>
              rw [visit_denied e fuel nodeIdx node frag st hs hget hsides hr] at h
              exact ih _ frag st st' hQ h
            | true =>
              rw [visit_split e fuel nodeIdx node frag st hs hget hsides hr] at h
              obtain ⟨hQ1, hQ2⟩ := hsplit frag (splitTOf e node frag)
                (splitTOf_nonneg e node frag) (splitTOf_le_one e node frag) hQ
              cases h1 : RV_SpriteFrag_VisitBspNode e fuel
                  (node.children (sideOf e node frag.x1 frag.z1))
                  (splitFrag1 frag (splitFrag2 frag (splitTOf e node frag))) st with
              | none => simp [h1] at h
              | some st1 =>
                rw [h1, Option.some_bind] at h
                obtain ⟨ps, hp1, hp2, hp3, hp4, hp5⟩ := ih _ _ st st1 hQ1 h1
                obtain ⟨qs, hq1, hq2, hq3, hq4, hq5⟩ := ih _ _ st1 st' hQ2 h
                refine ⟨ps ++ qs, ?_, ?_, ?_, ?_, ?_⟩
                · rw [hq1, hp1, List.append_assoc]
                · intro P hP
                  rcases List.mem_append.mp hP with hP | hP
                  · exact hp2 P hP
                  · exact hq2 P hP
                · rw [hq3, hp3]
                · rw [hq4, hp4]
                · rw [hq5, hp5]

/-- On a well formed BSP tree the traversal returns. -/
theorem visit_total (e : Env) :
    ∀ (h : Nat) (nodeIdx : Int) (frag : SpriteFrag) (st : RvState),
      wellFormedFileBsp e st.gRvDrawSubsecSprFrags.length h nodeIdx = true →
      ∃ st', RV_SpriteFrag_VisitBspNode e h nodeIdx frag st = some st' := by
  intro h
  induction h with
  | zero => intro nodeIdx frag st hw; simp [wellFormedFileBsp, treeAll] at hw
  | succ h ih =>
    intro nodeIdx frag st hw
    unfold wellFormedFileBsp at hw ih
    cases hs : isSubsector e nodeIdx with
    | true =>
      cases hsub : subsectorOf e nodeIdx with
      | none => rw [treeAll_leaf_none e _ h nodeIdx hs hsub] at hw; exact absurd hw (by simp)
      | some subsec =>
        rw [treeAll_leaf e _ h nodeIdx subsec hs hsub, Bool.and_eq_true] at hw
        rw [visit_leaf e h nodeIdx subsec frag st hs hsub]
        by_cases hneg : subsec.vkDrawSubsecIdx < 0
        · exact ⟨st, visitSubsector_not_drawn subsec frag st hneg⟩
        · have hlt : subsec.vkDrawSubsecIdx.toNat < st.gRvDrawSubsecSprFrags.length := by
            have := hw.2
            simp only [fileableIn, decide_eq_true_eq] at this
            omega
          exact ⟨_, visitSubsector_drawable subsec frag st _ (not_lt.mp hneg)
            (List.getElem?_eq_getElem hlt)⟩
    | false =>
      cases hget : getAt e.gpBspNodes nodeIdx with
      | none => rw [treeAll_node_none e _ h nodeIdx hs hget] at hw; exact absurd hw (by simp)
      | some node =>
        have hc := treeAll_child e _ h nodeIdx node hs hget hw
        by_cases hsides : bSideOf e node frag.x1 frag.z1 = bSideOf e node frag.x2 frag.z2
        · rw [visit_same e h nodeIdx node frag st hs hget hsides]
          exact ih _ frag st (hc _)
        · have hwf : wellFormedBsp e (h + 1) nodeIdx = true :=
            treeAll_mono e _ _ (fun s hs => (Bool.and_eq_true _ _ ▸ hs).1) _ _ hw
          obtain ⟨r, hr⟩ := splitTest_total e (splitLineOf frag (splitTOf e node frag))
            (h + 1) nodeIdx hwf
          cases r with
          | false =>
            rw [visit_denied e h nodeIdx node frag st hs hget hsides hr]
            refine ih _ frag st ?_
            split_ifs
            · exact hc 0
            · exact hc 1
          | true =>
            rw [visit_split e h nodeIdx node frag st hs hget hsides hr]
            obtain ⟨st1, h1⟩ := ih (node.children (sideOf e node frag.x1 frag.z1))
              (splitFrag1 frag (splitFrag2 frag (splitTOf e node frag))) st (hc _)
            obtain ⟨_, _, _, hl, _, _⟩ := visit_pieces e (fun _ => True)
              (fun _ _ _ => trivial) (fun _ _ _ _ _ => ⟨trivial, trivial⟩) h _ _ st st1
              trivial h1
            obtain ⟨st2, h2⟩ := ih (node.children (sideOf e node frag.x2 frag.z2))
              (splitFrag2 frag (splitTOf e node frag)) st1 (by rw [hl]; exact hc _)
            exact ⟨st2, by rw [h1, Option.some_bind, h2]⟩

theorem sameAttrs_refl (F : SpriteFrag) : SameAttrs F F := by
  simp [SameAttrs]

/-- A walk of a list stays the same when fragments are appended to the store. -/
theorem leafList_append (frags more : List SpriteFrag) :
    ∀ (fuel : Nat) (idx : Int) (walk : List (Nat × SpriteFrag)),
      leafList frags fuel idx = some walk → leafList (frags ++ more) fuel idx = some walk := by
  intro fuel
  induction fuel with
  | zero =>
    intro idx walk h
    simpa [leafList] using h
  | succ fuel ih =>
    intro idx walk h
    rw [leafList] at h ⊢
    by_cases hneg : idx < 0
    · simpa [hneg] using h
    · simp only [hneg, if_false] at h ⊢
      cases hf : frags[idx.toNat]? with
      | none => simp [hf] at h
      | some frag =>
        have hlt : idx.toNat < frags.length := by
          by_contra hc
          rw [List.getElem?_eq_none (not_lt.mp hc)] at hf
          exact absurd hf (by simp)
        have hf' : (frags ++ more)[idx.toNat]? = some frag := by
          rw [List.getElem?_append_left hlt, hf]
        simp only [hf, hf'] at h ⊢
        cases hr : leafList frags fuel frag.nextSubsecFragIdx with
        | none => simp [hr] at h
        | some rest =>
          simp only [hr] at h
          simp only [ih _ rest hr]
          exact h

/-- A walk of a list stays the same with more fuel. -/
theorem leafList_fuel (frags : List SpriteFrag) :
    ∀ (fuel : Nat) (idx : Int) (walk : List (Nat × SpriteFrag)),
      leafList frags fuel idx = some walk →
      ∀ fuel', fuel ≤ fuel' → leafList frags fuel' idx = some walk := by
  intro fuel
  induction fuel with
  | zero =>
    intro idx walk h fuel' _
    have hneg : idx < 0 := by
      by_contra hc
      simp [leafList, hc] at h
    simp only [leafList, hneg, if_true] at h
    cases fuel' <;> simpa [leafList, hneg] using h
  | succ fuel ih =>
    intro idx walk h fuel' hle
    obtain ⟨k, rfl⟩ : ∃ k, fuel' = k + 1 := ⟨fuel' - 1, by omega⟩
    rw [leafList] at h ⊢
    by_cases hneg : idx < 0
    · simpa [hneg] using h
    · simp only [hneg, if_false] at h ⊢
      cases hf : frags[idx.toNat]? with
      | none => simp [hf] at h
      | some frag =>
        simp only [hf] at h ⊢
        cases hr : leafList frags fuel frag.nextSubsecFragIdx with
        | none => simp [hr] at h
        | some rest =>
          simp only [hr] at h
          simp only [ih _ rest hr k (by omega)]
          exact h

/-- The list of a leaf after a fragment was filed in it: the new fragment, followed by
the list as it was. -/
theorem leafList_filed (frags : List SpriteFrag) (F : SpriteFrag) (head : Int)
    (fuel : Nat) (walk : List (Nat × SpriteFrag))
    (h : leafList frags fuel head = some walk) :
    leafList (frags ++ [{ F with nextSubsecFragIdx := head }]) (fuel + 1)
        (frags.length : Int) =
      some ((frags.length, { F with nextSubsecFragIdx := head }) :: walk) := by
  generalize hG : ({ F with nextSubsecFragIdx := head } : SpriteFrag) = G
  have hnext : G.nextSubsecFragIdx = head := by rw [← hG]
  rw [leafList]
  have hneg : ¬ ((frags.length : Int) < 0) := by omega
  have hget : (frags ++ [G])[frags.length]? = some G := by simp
  simp only [hneg, if_false, Int.toNat_ofNat, hget, hnext,
    leafList_append frags [G] fuel head walk h]

theorem stable_sort_insert_perm {α : Type} (comp : α → α → Bool) (x : α) :
    ∀ l : List α, (stable_sort_insert comp x l).Perm (x :: l) := by
  intro l
  induction l with
  | nil => exact List.Perm.refl _
  | cons y ys ih =>
    rw [stable_sort_insert]
    split_ifs
    · exact (List.Perm.cons y ih).trans (List.Perm.swap x y ys)
    · exact List.Perm.refl _

/-- The sort rearranges its input. -/
theorem stable_sort_perm {α : Type} (comp : α → α → Bool) :
    ∀ l : List α, (stable_sort comp l).Perm l := by
  intro l
  induction l with
  | nil => exact List.Perm.refl _
  | cons x xs ih => exact (stable_sort_insert_perm comp x _).trans (List.Perm.cons x ih)

/-- The elements of a walk are fragments of the store with their indices, and when the
links descend the indices met are below the index the walk starts from. -/
theorem leafList_elems (frags : List SpriteFrag) :
    ∀ (fuel : Nat) (idx : Int) (walk : List (Nat × SpriteFrag)),
      leafList frags fuel idx = some walk →
      (∀ p ∈ walk, frags[p.1]? = some p.2) ∧
      ((∀ (j : Nat) (frag : SpriteFrag), frags[j]? = some frag → frag.nextSubsecFragIdx < j) →
        (∀ p ∈ walk, (p.1 : Int) ≤ idx) ∧ (walk.map Prod.fst).Nodup) := by
  intro fuel
  induction fuel with
  | zero =>
    intro idx walk h
    by_cases hneg : idx < 0
    · simp only [leafList, hneg, if_true, Option.some.injEq] at h
      subst h
      simp
    · simp [leafList, hneg] at h
  | succ fuel ih =>
    intro idx walk h
    rw [leafList] at h
    by_cases hneg : idx < 0
    · simp only [hneg, if_true, Option.some.injEq] at h
      subst h
      simp
    · simp only [hneg, if_false] at h
      cases hf : frags[idx.toNat]? with
      | none => simp [hf] at h
      | some frag =>
        simp only [hf] at h
        cases hr : leafList frags fuel frag.nextSubsecFragIdx with
        | none => simp [hr] at h
        | some rest =>
          simp only [hr, Option.some.injEq] at h
          subst h
          obtain ⟨ih1, ih2⟩ := ih _ rest hr
          refine ⟨?_, ?_⟩
          · intro p hp
            rcases List.mem_cons.mp hp with hp | hp
            · subst hp; exact hf
            · exact ih1 p hp
          · intro hlinks
            obtain ⟨ih3, ih4⟩ := ih2 hlinks
            have hnext := hlinks _ _ hf
            have hidx : ((idx.toNat : Nat) : Int) = idx := Int.toNat_of_nonneg (not_lt.mp hneg)
            refine ⟨?_, ?_⟩
            · intro p hp
              rcases List.mem_cons.mp hp with hp | hp
              · subst hp; exact le_of_eq hidx
              · have := ih3 p hp
                omega
            · rw [List.map_cons, List.nodup_cons]
              refine ⟨?_, ih4⟩
              intro hmem
              obtain ⟨p, hp, hpe⟩ := List.mem_map.mp hmem
              have := ih3 p hp
              rw [hpe] at this
              omega

/-! ## Lemmas on the states of a frame -/

/-- The traversal keeps every property of the state that filing in a leaf keeps. -/
theorem visit_preserves (e : Env) (I : RvState → Prop)
    (hfile : ∀ (subsec : subsector_t) (F : SpriteFrag) (st st' : RvState), I st →
      RV_SpriteFrag_VisitSubsector subsec F st = some st' → I st') :
    ∀ (fuel : Nat) (nodeIdx : Int) (frag : SpriteFrag) (st st' : RvState), I st →
      RV_SpriteFrag_VisitBspNode e fuel nodeIdx frag st = some st' → I st' := by
  intro fuel
  induction fuel with
  | zero => intro nodeIdx frag st st' _ h; simp [RV_SpriteFrag_VisitBspNode] at h
  | succ fuel ih =>
    intro nodeIdx frag st st' hI h
    cases hs : isSubsector e nodeIdx with
    | true =>
      cases hsub : subsectorOf e nodeIdx with
      | none => simp [RV_SpriteFrag_VisitBspNode, hs, hsub] at h
      | some subsec =>
        rw [visit_leaf e fuel nodeIdx subsec frag st hs hsub] at h
        exact hfile subsec frag st st' hI h
    | false =>
      cases hget : getAt e.gpBspNodes nodeIdx with
      | none => simp [RV_SpriteFrag_VisitBspNode, hs, hget] at h
      | some node =>
        by_cases hsides : bSideOf e node frag.x1 frag.z1 = bSideOf e node frag.x2 frag.z2
        · rw [visit_same e fuel nodeIdx node frag st hs hget hsides] at h
          exact ih _ frag st st' hI h
        · cases hr : RV_SpriteSplitTest_VisitBspNode e (fuel + 1) nodeIdx
              (splitLineOf frag (splitTOf e node frag)) with
          | none =>
            rw [RV_SpriteFrag_VisitBspNode] at h
            simp [hs, hget, hsides, hr] at h
          | some r =>
            cases r with
            | false =>
              rw [visit_denied e fuel nodeIdx node frag st hs hget hsides hr] at h
              exact ih _ frag st st' hI h
            | true =>
              rw [visit_split e fuel nodeIdx node frag st hs hget hsides hr] at h
              cases h1 : RV_SpriteFrag_VisitBspNode e fuel
                  (node.children (sideOf e node frag.x1 frag.z1))
                  (splitFrag1 frag (splitFrag2 frag (splitTOf e node frag))) st with
              | none => simp [h1] at h
              | some st1 =>
                rw [h1, Option.some_bind] at h
                exact ih _ _ st1 st' (ih _ _ st st1 hI h1) h

theorem flatten_set_cons_perm {α : Type} (x : α) :
    ∀ (ws : List (List α)) (d : Nat) (w : List α), ws[d]? = some w →
      ((ws.set d (x :: w)).flatten).Perm (x :: ws.flatten) := by
  intro ws
  induction ws with
  | nil => intro d w h; simp at h
  | cons v vs ih =>
    intro d w h
    cases d with
    | zero =>
      simp only [List.getElem?_cons_zero, Option.some.injEq] at h
      subst h
      simp
    | succ d =>
      simp only [List.getElem?_cons_succ] at h
      simp only [List.set_cons_succ, List.flatten_cons]
      exact (List.Perm.append_left v (ih d w h)).trans List.perm_middle

theorem filedOnce_reset (e : Env) (st : RvState) :
    FiledOnce (RV_BuildSpriteFragLists_reset e st) := by
  constructor
  · intro head hhead
    simp only [RV_BuildSpriteFragLists_reset] at hhead
    rw [List.eq_of_mem_replicate hhead]
    exact ⟨[], by simp [RV_BuildSpriteFragLists_reset, leafList]⟩
  · have : (listsOf (RV_BuildSpriteFragLists_reset e st)).flatten = [] := by
      simp only [listsOf, RV_BuildSpriteFragLists_reset, List.length_nil, List.map_replicate]
      simp [leafList]
    rw [this]
    simp [RV_BuildSpriteFragLists_reset]

theorem filedOnce_file (subsec : subsector_t) (F : SpriteFrag) (st st' : RvState)
    (hI : FiledOnce st) (h : RV_SpriteFrag_VisitSubsector subsec F st = some st') :
    FiledOnce st' := by
  rcases visitSubsector_cases subsec F st st' h with ⟨_, rfl⟩ | ⟨hd, head, hhead, rfl⟩
  · exact hI
  · obtain ⟨hwalks, hperm⟩ := hI
    have hlt : subsec.vkDrawSubsecIdx.toNat < st.gRvDrawSubsecSprFrags.length := by
      by_contra hc
      rw [List.getElem?_eq_none (not_lt.mp hc)] at hhead
      exact absurd hhead (by simp)
    have hmem : head ∈ st.gRvDrawSubsecSprFrags := List.getElem?_mem hhead
    obtain ⟨w, hw⟩ := hwalks head hmem
    generalize hG : ({ F with nextSubsecFragIdx := head } : SpriteFrag) = G at *
    have hnew : leafList (st.gRvSpriteFrags ++ [G]) (st.gRvSpriteFrags.length + 1)
        (st.gRvSpriteFrags.length : Int) = some ((st.gRvSpriteFrags.length, G) :: w) := by
      rw [← hG]
      exact leafList_filed st.gRvSpriteFrags F head _ w hw
    have hold : ∀ head' ∈ st.gRvDrawSubsecSprFrags,
        leafList (st.gRvSpriteFrags ++ [G]) (st.gRvSpriteFrags.length + 1) head' =
          leafList st.gRvSpriteFrags st.gRvSpriteFrags.length head' := by
      intro head' hm
      obtain ⟨w', hw'⟩ := hwalks head' hm
      rw [hw']
      exact leafList_fuel _ _ _ _ (leafList_append _ _ _ _ _ hw') _ (Nat.le_succ _)
    constructor
    · intro head' hm
      simp only [List.length_append, List.length_singleton]
      rcases List.mem_or_eq_of_mem_set hm with hm | hm
      · obtain ⟨w', hw'⟩ := hwalks head' hm
        exact ⟨w', by rw [hold head' hm, hw']⟩
      · rw [hm]
        exact ⟨_, hnew⟩
    · have hlists : listsOf { st with
            gRvSpriteFrags := st.gRvSpriteFrags ++ [G]
            gRvDrawSubsecSprFrags := st.gRvDrawSubsecSprFrags.set
              subsec.vkDrawSubsecIdx.toNat st.gRvSpriteFrags.length } =
          (listsOf st).set subsec.vkDrawSubsecIdx.toNat ((st.gRvSpriteFrags.length, G) :: w) := by
        simp only [listsOf, List.length_append, List.length_singleton, List.map_set, hnew,
          Option.getD_some]
        congr 1
        apply List.map_congr_left
        intro head' hm
        rw [hold head' hm]
      have hwd : (listsOf st)[subsec.vkDrawSubsecIdx.toNat]? = some w := by
        simp [listsOf, hhead, hw]
      rw [hlists]
      simp only [List.length_append, List.length_singleton]
      rw [List.range_succ]
      refine ((flatten_set_cons_perm _ (listsOf st) _ w hwd).map Prod.fst).trans ?_
      rw [List.map_cons]
      exact ((List.Perm.cons _ hperm).trans (List.perm_append_singleton _ _).symm)

theorem filedOnce_reachable (e : Env) (st : RvState) (h : Reachable e st) : FiledOnce st := by
  induction h with
  | reset st => exact filedOnce_reset e st
  | anchor st pos _ ih => exact ih
  | visit st st' fuel nodeIdx frag _ hv ih =>
    exact visit_preserves e FiledOnce filedOnce_file fuel nodeIdx frag st st' ih hv

/-- An element that occurs once in the concatenation of lists occurs in one of them,
once, and in no other. -/
theorem count_flatten_one (j : Nat) :
    ∀ ws : List (List Nat), (ws.flatten).count j = 1 →
      ∃ (d : Nat) (w : List Nat), ws[d]? = some w ∧ w.count j = 1 ∧
        ∀ (d' : Nat) (w' : List Nat), d' ≠ d → ws[d']? = some w' → j ∉ w' := by
  intro ws
  induction ws with
  | nil => intro h; simp at h
  | cons v vs ih =>
    intro h
    rw [List.flatten_cons, List.count_append] at h
    by_cases hv : v.count j = 0
    · rw [hv, Nat.zero_add] at h
      obtain ⟨d, w, hw, hc, hothers⟩ := ih h
      refine ⟨d + 1, w, by simpa using hw, hc, ?_⟩
      intro d' w' hne hw'
      cases d' with
      | zero =>
        simp only [List.getElem?_cons_zero, Option.some.injEq] at hw'
        subst hw'
        exact List.count_eq_zero.mp hv
      | succ d' =>
        simp only [List.getElem?_cons_succ] at hw'
        exact hothers d' w' (by omega) hw'
    · have hv1 : v.count j = 1 := by omega
      have hrest : (vs.flatten).count j = 0 := by omega
      refine ⟨0, v, List.getElem?_cons_zero, hv1, ?_⟩
      intro d' w' hne hw'
      cases d' with
      | zero => exact absurd rfl hne
      | succ d' =>
        simp only [List.getElem?_cons_succ] at hw'
        intro hj
        exact List.count_eq_zero.mp hrest
          (List.mem_flatten.mpr ⟨w', List.getElem?_mem hw', hj⟩)

/-- In a state where `FiledOnce` holds every store index is on the list of exactly one
draw subsector, exactly once. -/
theorem filedOnce_unique (st : RvState) (hI : FiledOnce st) (j : Nat)
    (hj : j < st.gRvSpriteFrags.length) :
    ∃ (d : Nat) (head : Int) (walk : List (Nat × SpriteFrag)),
      st.gRvDrawSubsecSprFrags[d]? = some head ∧
      leafList st.gRvSpriteFrags st.gRvSpriteFrags.length head = some walk ∧
      (walk.map Prod.fst).count j = 1 ∧
      ∀ (d' : Nat) (head' : Int) (walk' : List (Nat × SpriteFrag)), d' ≠ d →
        st.gRvDrawSubsecSprFrags[d']? = some head' →
        leafList st.gRvSpriteFrags st.gRvSpriteFrags.length head' = some walk' →
        j ∉ walk'.map Prod.fst := by
  obtain ⟨hwalks, hperm⟩ := hI
  have hcount : (((listsOf st).map (List.map Prod.fst)).flatten).count j = 1 := by
    rw [← List.map_flatten]
    rw [hperm.count_eq]
    exact List.count_eq_one_of_mem (List.nodup_range _) (List.mem_range.mpr hj)
  obtain ⟨d, w, hw, hc, hothers⟩ := count_flatten_one j _ hcount
  simp only [listsOf, List.map_map, List.getElem?_map, Option.map_eq_some'] at hw
  obtain ⟨head, hhead, hwe⟩ := hw
  obtain ⟨walk, hwalk⟩ := hwalks head (List.getElem?_mem hhead)
  simp only [Function.comp_apply, hwalk, Option.getD_some] at hwe
  refine ⟨d, head, walk, hhead, hwalk, by rw [hwe]; exact hc, ?_⟩
  intro d' head' walk' hne hhead' hwalk'
  refine hothers d' (walk'.map Prod.fst) hne ?_
  simp [listsOf, hhead', hwalk']

/-! ## Lemmas on the split parameter -/

theorem splitTOf_eq (e : Env) (node : node_t) (F : SpriteFrag) :
    splitTOf e node F =
      clamp (dist1Of e node F / (dist1Of e node F + dist2Of e node F)) 0 1 := rfl

theorem bSideOf_eq (e : Env) (node : node_t) (x z : ℚ) :
    bSideOf e node x z = decide (lineEq e node x z < 0) := by
  simp only [bSideOf, lineEq, decide_eq_decide]
  constructor <;> intro h <;> linarith

theorem dist1Of_eq (e : Env) (node : node_t) (F : SpriteFrag) :
    dist1Of e node F = |lineEq e node F.x1 F.z1| := by
  simp only [dist1Of, lineEq]
  congr 1
  ring

theorem dist2Of_eq (e : Env) (node : node_t) (F : SpriteFrag) :
    dist2Of e node F = |lineEq e node F.x2 F.z2| := by
  simp only [dist2Of, lineEq]
  congr 1
  ring

/-- The line equation is affine along the fragment. -/
theorem lineEq_lerp (e : Env) (node : node_t) (F : SpriteFrag) (t : ℚ) :
    lineEq e node (F.x1 * (1 - t) + F.x2 * t) (F.z1 * (1 - t) + F.z2 * t) =
      lineEq e node F.x1 F.z1 * (1 - t) + lineEq e node F.x2 F.z2 * t := by
  simp only [lineEq]
  ring

/-- When the endpoints are on different sides the values of the line equation at them
have the signs of a crossing. -/
theorem sides_differ_cases (e : Env) (node : node_t) (F : SpriteFrag)
    (hsides : bSideOf e node F.x1 F.z1 ≠ bSideOf e node F.x2 F.z2) :
    (lineEq e node F.x1 F.z1 < 0 ∧ 0 ≤ lineEq e node F.x2 F.z2) ∨
    (0 ≤ lineEq e node F.x1 F.z1 ∧ lineEq e node F.x2 F.z2 < 0) := by
  rw [bSideOf_eq, bSideOf_eq] at hsides
  by_cases h1 : lineEq e node F.x1 F.z1 < 0
  · by_cases h2 : lineEq e node F.x2 F.z2 < 0
    · simp [h1, h2] at hsides
    · exact Or.inl ⟨h1, not_lt.mp h2⟩
  · by_cases h2 : lineEq e node F.x2 F.z2 < 0
    · exact Or.inr ⟨not_lt.mp h1, h2⟩
    · simp [h1, h2] at hsides

theorem dist_sum_pos (e : Env) (node : node_t) (F : SpriteFrag)
    (hsides : bSideOf e node F.x1 F.z1 ≠ bSideOf e node F.x2 F.z2) :
    0 < dist1Of e node F + dist2Of e node F := by
  rw [dist1Of_eq, dist2Of_eq]
  rcases sides_differ_cases e node F hsides with ⟨h1, _⟩ | ⟨_, h2⟩
  · have := abs_pos.mpr (ne_of_lt h1)
    have := abs_nonneg (lineEq e node F.x2 F.z2)
    linarith
  · have := abs_pos.mpr (ne_of_lt h2)
    have := abs_nonneg (lineEq e node F.x1 F.z1)
    linarith

theorem quotient_mem (e : Env) (node : node_t) (F : SpriteFrag)
    (hsides : bSideOf e node F.x1 F.z1 ≠ bSideOf e node F.x2 F.z2) :
    0 ≤ dist1Of e node F / (dist1Of e node F + dist2Of e node F) ∧
    dist1Of e node F / (dist1Of e node F + dist2Of e node F) ≤ 1 := by
  have hpos := dist_sum_pos e node F hsides
  have h1 : 0 ≤ dist1Of e node F := by rw [dist1Of_eq]; exact abs_nonneg _
  have h2 : 0 ≤ dist2Of e node F := by rw [dist2Of_eq]; exact abs_nonneg _
  refine ⟨div_nonneg h1 (le_of_lt hpos), ?_⟩
  rw [div_le_one hpos]
  linarith

theorem clamp_of_mem (v : ℚ) (h0 : 0 ≤ v) (h1 : v ≤ 1) : clamp v 0 1 = v := by
  unfold clamp
  rw [if_neg (not_lt.mpr h0), if_neg (not_lt.mpr h1)]

/-- The split parameter when the endpoints are on different sides: no clamping occurs. -/
theorem splitTOf_of_sides (e : Env) (node : node_t) (F : SpriteFrag)
    (hsides : bSideOf e node F.x1 F.z1 ≠ bSideOf e node F.x2 F.z2) :
    splitTOf e node F = dist1Of e node F / (dist1Of e node F + dist2Of e node F) := by
  obtain ⟨h0, h1⟩ := quotient_mem e node F hsides
  rw [splitTOf_eq, clamp_of_mem _ h0 h1]

/-- The value of the line equation at the split point is zero. -/
theorem lineEq_split (e : Env) (node : node_t) (F : SpriteFrag)
    (hsides : bSideOf e node F.x1 F.z1 ≠ bSideOf e node F.x2 F.z2) :
    lineEq e node F.x1 F.z1 * (1 - splitTOf e node F)
      + lineEq e node F.x2 F.z2 * splitTOf e node F = 0 := by
  rw [splitTOf_of_sides e node F hsides]
  have hpos := dist_sum_pos e node F hsides
  rw [dist1Of_eq, dist2Of_eq] at hpos ⊢
  have hne := ne_of_gt hpos
  rcases sides_differ_cases e node F hsides with ⟨h1, h2⟩ | ⟨h1, h2⟩
  · rw [abs_of_neg h1, abs_of_nonneg h2] at hne ⊢
    field_simp
    ring
  · rw [abs_of_nonneg h1, abs_of_neg h2] at hne ⊢
    field_simp
    ring

/-! ## Lemmas on the rotation index -/

theorem dirIdxOf_lt (te : ThingEnv) (angToThing thingAngle : Nat) :
    dirIdxOf te angToThing thingAngle < 8 := by
  unfold dirIdxOf
  rw [Nat.shiftRight_eq_div_pow]
  have h : (2 : Nat) ^ 29 = 536870912 := by norm_num
  rw [h]
  omega

theorem dirIdxOf_octant (te : ThingEnv) (hang : te.ANG45 = 536870912)
    (angToThing thingAngle : Nat) :
    dirIdxOf te angToThing thingAngle =
      (((angToThing % 4294967296 + (4294967296 - thingAngle % 4294967296)) % 4294967296
        + 268435456) / 536870912 + 4) % 8 := by
  unfold dirIdxOf
  rw [Nat.shiftRight_eq_div_pow, hang]
  have h : (2 : Nat) ^ 29 = 536870912 := by norm_num
  rw [h]
  omega

/-! ## Lemmas on the test line and on endpoints on the partition line -/

theorem splitTOf_zero_of_dist1 (e : Env) (node : node_t) (F : SpriteFrag)
    (h1 : dist1Of e node F = 0) : splitTOf e node F = 0 := by
  rw [splitTOf_eq, h1]
  simp [clamp]

/-- One endpoint of the test line is at the parameter `t * 0.99`, the other at
`min (t * 1.01) 1`, for `t` in `[0, 1]`. -/
theorem splitLineOf_params (F : SpriteFrag) (t : ℚ) (h0 : 0 ≤ t) (h1 : t ≤ 1) :
    (splitLineOf F t).x1 = F.x1 * (1 - t * (99 / 100)) + F.x2 * (t * (99 / 100)) ∧
    (splitLineOf F t).z1 = F.z1 * (1 - t * (99 / 100)) + F.z2 * (t * (99 / 100)) ∧
    (splitLineOf F t).x2
      = F.x1 * (1 - min (t * (101 / 100)) 1) + F.x2 * min (t * (101 / 100)) 1 ∧
    (splitLineOf F t).z2
      = F.z1 * (1 - min (t * (101 / 100)) 1) + F.z2 * min (t * (101 / 100)) 1 := by
  have ha : clamp (t * (99 / 100)) 0 1 = t * (99 / 100) :=
    clamp_of_mem _ (by positivity) (by linarith)
  have hb : clamp (t * (101 / 100)) 0 1 = min (t * (101 / 100)) 1 := by
    unfold clamp
    have : (0 : ℚ) ≤ t * (101 / 100) := by positivity
    split_ifs with hc1 hc2
    · linarith
    · rw [min_eq_right (le_of_lt hc2)]
    · rw [min_eq_left (not_lt.mp hc2)]
  simp only [splitLineOf, ha, hb, and_self]

/-- When endpoint 1 of a fragment is off the partition line and the endpoints are on
different sides, the endpoints of the test line are on different sides too. -/
theorem splitLine_crosses_of_pos (e : Env) (node : node_t) (F : SpriteFrag)
    (hsides : bSideOf e node F.x1 F.z1 ≠ bSideOf e node F.x2 F.z2)
    (hpos : 0 < dist1Of e node F) :
    bSideOf e node (splitLineOf F (splitTOf e node F)).x1 (splitLineOf F (splitTOf e node F)).z1
      ≠ bSideOf e node (splitLineOf F (splitTOf e node F)).x2
          (splitLineOf F (splitTOf e node F)).z2 := by
  have ht0 := splitTOf_nonneg e node F
  have ht1 := splitTOf_le_one e node F
  have hsum := dist_sum_pos e node F hsides
  have htpos : 0 < splitTOf e node F := by
    rw [splitTOf_of_sides e node F hsides]
    exact div_pos hpos hsum
  obtain ⟨hx1, hz1, hx2, hz2⟩ := splitLineOf_params F (splitTOf e node F) ht0 ht1
  have hsplit := lineEq_split e node F hsides
  rw [hx1, hz1, hx2, hz2, bSideOf_eq, bSideOf_eq, lineEq_lerp, lineEq_lerp]
  rw [dist1Of_eq] at hpos
  have hne : lineEq e node F.x1 F.z1 ≠ 0 := fun h => by rw [h, abs_zero] at hpos; exact lt_irrefl _ hpos
  set t := splitTOf e node F with ht
  set L1 := lineEq e node F.x1 F.z1 with hL1
  set L2 := lineEq e node F.x2 F.z2 with hL2
  set s2 := min (t * (101 / 100)) 1 with hs2
  have hs2t : t ≤ s2 := le_min (by linarith) ht1
  have hA : L1 * (1 - t * (99 / 100)) + L2 * (t * (99 / 100)) = (L1 - L2) * (t * (1 / 100)) := by
    linear_combination hsplit
  have hB : L1 * (1 - s2) + L2 * s2 = (L2 - L1) * (s2 - t) := by
    linear_combination hsplit
  rw [hA, hB]
  rcases sides_differ_cases e node F hsides with ⟨h1, h2⟩ | ⟨h1, h2⟩
  · have a1 : (L1 - L2) * (t * (1 / 100)) < 0 :=
      mul_neg_of_neg_of_pos (by linarith) (by positivity)
    have a2 : 0 ≤ (L2 - L1) * (s2 - t) :=
      mul_nonneg (by linarith) (by linarith)
    rw [decide_eq_true a1, decide_eq_false (not_lt.mpr a2)]
    decide
  · have h1' : 0 < L1 := lt_of_le_of_ne h1 (Ne.symm hne)
    have a1 : 0 < (L1 - L2) * (t * (1 / 100)) :=
      mul_pos (by linarith) (by positivity)
    have htlt : t < 1 := by
      by_contra hc
      have : t = 1 := le_antisymm ht1 (not_lt.mp hc)
      rw [this] at hsplit
      linarith
    have hs2lt : t < s2 := lt_min (by linarith) htlt
    have a2 : (L2 - L1) * (s2 - t) < 0 :=
      mul_neg_of_neg_of_pos (by linarith) (by linarith)
    rw [decide_eq_false (not_lt.mpr (le_of_lt a1)), decide_eq_true a2]
    decide

theorem sideOf_one_iff (e : Env) (node : node_t) (x z : ℚ) :
    sideOf e node x z = 1 ↔ bSideOf e node x z = false := by
  unfold sideOf
  cases bSideOf e node x z <;> simp

theorem bSideOf_of_dist1 (e : Env) (node : node_t) (F : SpriteFrag)
    (h : dist1Of e node F = 0) : bSideOf e node F.x1 F.z1 = false := by
  rw [dist1Of_eq, abs_eq_zero] at h
  rw [bSideOf_eq, h]
  simp

theorem bSideOf_of_dist2 (e : Env) (node : node_t) (F : SpriteFrag)
    (h : dist2Of e node F = 0) : bSideOf e node F.x2 F.z2 = false := by
  rw [dist2Of_eq, abs_eq_zero] at h
  rw [bSideOf_eq, h]
  simp

/-! ## Lemmas on the recursion depth -/

/-- On a finite tree of height less than `h` the split test does not depend on the
fuel from `h` on. -/
theorem splitTest_stable (e : Env) (line : SplitTestLine) :
    ∀ (h : Nat) (nodeIdx : Int), finiteBsp e h nodeIdx = true →
      ∀ fuel : Nat, h ≤ fuel →
        RV_SpriteSplitTest_VisitBspNode e fuel nodeIdx line
          = RV_SpriteSplitTest_VisitBspNode e h nodeIdx line := by
  intro h
  induction h with
  | zero => intro nodeIdx hw; simp [finiteBsp, treeAll] at hw
  | succ h ih =>
    intro nodeIdx hw fuel hle
    unfold finiteBsp at hw ih
    obtain ⟨f, rfl⟩ : ∃ f, fuel = f + 1 := ⟨fuel - 1, by omega⟩
    have hf : h ≤ f := by omega
    cases hs : isSubsector e nodeIdx with
    | true =>
      cases hsub : subsectorOf e nodeIdx with
      | none => rw [treeAll_leaf_none e _ h nodeIdx hs hsub] at hw; exact absurd hw (by simp)
      | some subsec =>
        rw [splitTest_leaf e f nodeIdx line subsec hs hsub,
          splitTest_leaf e h nodeIdx line subsec hs hsub]
    | false =>
      cases hget : getAt e.gpBspNodes nodeIdx with
      | none => rw [treeAll_node_none e _ h nodeIdx hs hget] at hw; exact absurd hw (by simp)
      | some node =>
        rw [splitTest_node e f nodeIdx line node hs hget,
          splitTest_node e h nodeIdx line node hs hget,
          ih _ (treeAll_child e _ h nodeIdx node hs hget hw _) f hf,
          ih _ (treeAll_child e _ h nodeIdx node hs hget hw _) f hf]

/-- On a finite tree of height less than `h` the traversal with a fragment does not
depend on the fuel from `h` on. -/
theorem visit_stable (e : Env) :
    ∀ (h : Nat) (nodeIdx : Int), finiteBsp e h nodeIdx = true →
      ∀ (fuel : Nat) (frag : SpriteFrag) (st : RvState), h ≤ fuel →
        RV_SpriteFrag_VisitBspNode e fuel nodeIdx frag st
          = RV_SpriteFrag_VisitBspNode e h nodeIdx frag st := by
  intro h
  induction h with
  | zero => intro nodeIdx hw; simp [finiteBsp, treeAll] at hw
  | succ h ih =>
    intro nodeIdx hw fuel frag st hle
    have hor := fun line => splitTest_stable e line (h + 1) nodeIdx hw fuel hle
    unfold finiteBsp at hw ih
    obtain ⟨f, rfl⟩ : ∃ f, fuel = f + 1 := ⟨fuel - 1, by omega⟩
    have hf : h ≤ f := by omega
    cases hs : isSubsector e nodeIdx with
    | true =>
      cases hsub : subsectorOf e nodeIdx with
      | none => rw [treeAll_leaf_none e _ h nodeIdx hs hsub] at hw; exact absurd hw (by simp)
      | some subsec =>
        rw [visit_leaf e f nodeIdx subsec frag st hs hsub,
          visit_leaf e h nodeIdx subsec frag st hs hsub]
    | false =>
      cases hget : getAt e.gpBspNodes nodeIdx with
      | none => rw [treeAll_node_none e _ h nodeIdx hs hget] at hw; exact absurd hw (by simp)
      | some node =>
        have hc := fun side => treeAll_child e _ h nodeIdx node hs hget hw side
        have hc0 := hc 0
        have hc1 := hc 1
        rw [children_zero] at hc0
        rw [children_one] at hc1
        rw [RV_SpriteFrag_VisitBspNode, RV_SpriteFrag_VisitBspNode]
        simp only [hs, hget, hor, ih _ hc0 f _ _ hf, ih _ hc1 f _ _ hf]

/-- At an internal node the traversal with a fragment fails, or is the traversal of one
child with the whole fragment, or the traversals of the two children with the two
pieces, one after the other. -/
theorem visit_node_cases (e : Env) (fuel : Nat) (nodeIdx : Int) (node : node_t)
    (F : SpriteFrag) (st : RvState)
    (hnode : isSubsector e nodeIdx = false)
    (hget : getAt e.gpBspNodes nodeIdx = some node) :
    RV_SpriteFrag_VisitBspNode e (fuel + 1) nodeIdx F st = none ∨
    RV_SpriteFrag_VisitBspNode e (fuel + 1) nodeIdx F st
      = RV_SpriteFrag_VisitBspNode e fuel node.children0 F st ∨
    RV_SpriteFrag_VisitBspNode e (fuel + 1) nodeIdx F st
      = RV_SpriteFrag_VisitBspNode e fuel node.children1 F st ∨
    RV_SpriteFrag_VisitBspNode e (fuel + 1) nodeIdx F st =
      (RV_SpriteFrag_VisitBspNode e fuel (node.children (sideOf e node F.x1 F.z1))
        (splitFrag1 F (splitFrag2 F (splitTOf e node F))) st).bind
        (fun st1 => RV_SpriteFrag_VisitBspNode e fuel (node.children (sideOf e node F.x2 F.z2))
          (splitFrag2 F (splitTOf e node F)) st1) := by
  by_cases hsides : bSideOf e node F.x1 F.z1 = bSideOf e node F.x2 F.z2
  · have h := visit_same e fuel nodeIdx node F st hnode hget hsides
    rw [children_sideOf] at h
    cases hb : bSideOf e node F.x1 F.z1 with
    | true => rw [hb] at h; exact Or.inr (Or.inl h)
    | false => rw [hb] at h; exact Or.inr (Or.inr (Or.inl h))
  · cases hr : RV_SpriteSplitTest_VisitBspNode e (fuel + 1) nodeIdx
        (splitLineOf F (splitTOf e node F)) with
    | none =>
      left
      rw [RV_SpriteFrag_VisitBspNode]
      simp [hnode, hget, hsides, hr]
    | some r =>
      cases r with
      | false =>
        have h := visit_denied e fuel nodeIdx node F st hnode hget hsides hr
        cases hb : bCenterSideOf e node st with
        | true => rw [hb] at h; exact Or.inr (Or.inl h)
        | false => rw [hb] at h; exact Or.inr (Or.inr (Or.inl h))
      | true =>
        exact Or.inr (Or.inr (Or.inr (visit_split e fuel nodeIdx node F st hnode hget hsides hr)))

/-! ## Lemmas on the links of the store -/

theorem linksOk_reset (e : Env) (st : RvState) :
    LinksOk (RV_BuildSpriteFragLists_reset e st) := by
  refine ⟨?_, ?_⟩
  · intro head hmem
    left
    exact List.eq_of_mem_replicate hmem
  · intro j frag hget
    simp [RV_BuildSpriteFragLists_reset] at hget

theorem linksOk_file (subsec : subsector_t) (F : SpriteFrag) (st st' : RvState)
    (hok : LinksOk st) (h : RV_SpriteFrag_VisitSubsector subsec F st = some st') :
    LinksOk st' := by
  rcases visitSubsector_cases subsec F st st' h with ⟨_, rfl⟩ | ⟨_, head, hhead, rfl⟩
  · exact hok
  · have hh := hok.1 head (List.getElem?_mem hhead)
    refine ⟨?_, ?_⟩
    · intro head' hmem
      simp only [List.length_append, List.length_singleton] at hmem ⊢
      rcases List.mem_or_eq_of_mem_set hmem with hold | hnew
      · rcases hok.1 head' hold with h1 | ⟨h1, h2⟩
        · exact Or.inl h1
        · right
          push_cast
          omega
      · right
        rw [hnew]
        push_cast
        omega
    · intro j frag hget
      simp only at hget
      by_cases hj : j < st.gRvSpriteFrags.length
      · rw [List.getElem?_append_left hj] at hget
        exact hok.2 j frag hget
      · have hlen : j < (st.gRvSpriteFrags ++ [{ F with nextSubsecFragIdx := head }]).length := by
          by_contra hc
          rw [List.getElem?_eq_none (not_lt.mp hc)] at hget
          exact absurd hget (by simp)
        simp only [List.length_append, List.length_singleton] at hlen
        have hj' : j = st.gRvSpriteFrags.length := by omega
        subst hj'
        simp only [List.getElem?_concat_length, Option.some.injEq] at hget
        subst hget
        simp only
        rcases hh with h1 | ⟨h1, h2⟩
        · exact Or.inl h1
        · exact Or.inr ⟨h1, h2⟩

theorem linksOk_filing (e : Env) (st : RvState) (h : FilingReachable e st) :
    LinksOk st ∧ st.gRvDrawSubsecSprFrags.length = e.gRvDrawSubsecs.length := by
  induction h with
  | reset st0 => exact ⟨linksOk_reset e st0, by simp [RV_BuildSpriteFragLists_reset]⟩
  | file st0 st1 subsec frag _ hfile ih =>
    refine ⟨linksOk_file subsec frag st0 st1 ih.1 hfile, ?_⟩
    rcases visitSubsector_cases subsec frag st0 st1 hfile with ⟨_, rfl⟩ | ⟨_, head, _, rfl⟩
    · exact ih.2
    · simpa using ih.2

theorem linksDescend_of_linksOk (st : RvState) (h : LinksOk st) : LinksDescend st := by
  refine ⟨?_, ?_⟩
  · intro j frag hget
    rcases h.2 j frag hget with h1 | ⟨_, h2⟩
    · omega
    · exact h2
  · intro head hmem
    rcases h.1 head hmem with h1 | ⟨_, h2⟩
    · omega
    · exact h2

/-- With well formed links the walk from every head ends, inside the store and without
meeting an index twice, and the gathering loop returns. -/
theorem linksOk_walk (st : RvState) (hok : LinksOk st) (head : Int)
    (hmem : head ∈ st.gRvDrawSubsecSprFrags) (acc : List (Nat × SpriteFrag)) :
    ∃ walk, leafList st.gRvSpriteFrags st.gRvSpriteFrags.length head = some walk ∧
      (walk.map Prod.fst).Nodup ∧
      (∀ p ∈ walk, p.1 < st.gRvSpriteFrags.length ∧ st.gRvSpriteFrags[p.1]? = some p.2) ∧
      RV_DrawSubsecSpriteFrags_gather st.gRvSpriteFrags st.gRvSpriteFrags.length head acc
        = some (acc ++ walk) := by
  have hd := linksDescend_of_linksOk st hok
  have hlt := hd.2 head hmem
  obtain ⟨walk, hwalk⟩ := leafList_total st.gRvSpriteFrags hd.1 st.gRvSpriteFrags.length
    head hlt hlt
  have hel := leafList_elems st.gRvSpriteFrags st.gRvSpriteFrags.length head walk hwalk
  refine ⟨walk, hwalk, (hel.2 hd.1).2, ?_, ?_⟩
  · intro p hp
    have hget := hel.1 p hp
    refine ⟨?_, hget⟩
    by_contra hc
    rw [List.getElem?_eq_none (not_lt.mp hc)] at hget
    exact absurd hget (by simp)
  · rw [gather_eq_leafList, hwalk]
    rfl

/-! ## Lemmas on the growth of the store -/

theorem appendOnly_refl (st : RvState) : AppendOnly st st :=
  ⟨⟨[], by simp⟩, rfl, fun _ => Or.inl rfl⟩

theorem appendOnly_file (st : RvState) (subsec : subsector_t) (F : SpriteFrag)
    (s s' : RvState) (hR : AppendOnly st s)
    (h : RV_SpriteFrag_VisitSubsector subsec F s = some s') : AppendOnly st s' := by
  rcases visitSubsector_cases subsec F s s' h with ⟨_, rfl⟩ | ⟨_, head, hhead, rfl⟩
  · exact hR
  · obtain ⟨⟨pieces, hp⟩, hlen, hheads⟩ := hR
    have hslen : s.gRvSpriteFrags.length = st.gRvSpriteFrags.length + pieces.length := by
      rw [hp, List.length_append]
    refine ⟨⟨pieces ++ [{ F with nextSubsecFragIdx := head }], ?_⟩, ?_, ?_⟩
    · simp only [hp, List.append_assoc]
    · simp only [List.length_set]
      exact hlen
    · intro d
      simp only [List.length_append, List.length_singleton]
      by_cases hd : subsec.vkDrawSubsecIdx.toNat = d
      · right
        have hlt : d < s.gRvDrawSubsecSprFrags.length := by
          by_contra hc
          rw [hd, List.getElem?_eq_none (not_lt.mp hc)] at hhead
          exact absurd hhead (by simp)
        refine ⟨(s.gRvSpriteFrags.length : Int), ?_, ?_, ?_⟩
        · rw [List.getElem?_set, if_pos hd, if_pos (by rw [hd]; exact hlt)]
        · rw [hslen]; push_cast; omega
        · push_cast; omega
      · rw [List.getElem?_set, if_neg hd]
        rcases hheads d with h1 | ⟨head', h1, h2, h3⟩
        · exact Or.inl h1
        · exact Or.inr ⟨head', h1, h2, by push_cast; omega⟩

theorem visit_appendOnly (e : Env) (fuel : Nat) (nodeIdx : Int) (F : SpriteFrag)
    (st st' : RvState) (h : RV_SpriteFrag_VisitBspNode e fuel nodeIdx F st = some st') :
    AppendOnly st st' :=
  visit_preserves e (AppendOnly st) (appendOnly_file st) fuel nodeIdx F st st'
    (appendOnly_refl st) h

/-! ## Lemmas on the leaves a traversal visits -/

theorem leavesBelow_leaf (e : Env) (h : Nat) (nodeIdx : Int)
    (hleaf : isSubsector e nodeIdx = true) :
    leavesBelow e (h + 1) nodeIdx = [leafIdxOf e nodeIdx] := by
  simp [leavesBelow, hleaf]

theorem leavesBelow_node (e : Env) (h : Nat) (nodeIdx : Int) (node : node_t)
    (hnode : isSubsector e nodeIdx = false) (hget : getAt e.gpBspNodes nodeIdx = some node) :
    leavesBelow e (h + 1) nodeIdx
      = leavesBelow e h node.children0 ++ leavesBelow e h node.children1 := by
  simp [leavesBelow, hnode, hget]

theorem slotsBelow_leaf (e : Env) (h : Nat) (nodeIdx : Int) (subsec : subsector_t)
    (hleaf : isSubsector e nodeIdx = true) (hsub : subsectorOf e nodeIdx = some subsec) :
    slotsBelow e (h + 1) nodeIdx
      = if subsec.vkDrawSubsecIdx < 0 then [] else [subsec.vkDrawSubsecIdx] := by
  simp [slotsBelow, hleaf, hsub]

theorem slotsBelow_node (e : Env) (h : Nat) (nodeIdx : Int) (node : node_t)
    (hnode : isSubsector e nodeIdx = false) (hget : getAt e.gpBspNodes nodeIdx = some node) :
    slotsBelow e (h + 1) nodeIdx
      = slotsBelow e h node.children0 ++ slotsBelow e h node.children1 := by
  simp [slotsBelow, hnode, hget]

theorem visited_frag_leaf (e : Env) (fuel : Nat) (nodeIdx : Int) (subsec : subsector_t)
    (F : SpriteFrag) (st : RvState)
    (hleaf : isSubsector e nodeIdx = true) (hsub : subsectorOf e nodeIdx = some subsec) :
    RV_SpriteFrag_visited e (fuel + 1) nodeIdx F st = [leafIdxOf e nodeIdx] := by
  simp [RV_SpriteFrag_visited, hleaf, hsub]

/-- What a traversal that returns does at an internal node: it goes on in one child with
the whole fragment, or in both children, one after the other, with two fragments. The
leaves it visits are those visited in these children. -/
theorem visit_visited_cases (e : Env) (fuel : Nat) (nodeIdx : Int) (node : node_t)
    (F : SpriteFrag) (st st' : RvState)
    (hnode : isSubsector e nodeIdx = false) (hget : getAt e.gpBspNodes nodeIdx = some node)
    (h : RV_SpriteFrag_VisitBspNode e (fuel + 1) nodeIdx F st = some st') :
    (RV_SpriteFrag_VisitBspNode e fuel node.children0 F st = some st' ∧
      RV_SpriteFrag_visited e (fuel + 1) nodeIdx F st
        = RV_SpriteFrag_visited e fuel node.children0 F st) ∨
    (RV_SpriteFrag_VisitBspNode e fuel node.children1 F st = some st' ∧
      RV_SpriteFrag_visited e (fuel + 1) nodeIdx F st
        = RV_SpriteFrag_visited e fuel node.children1 F st) ∨
    (∃ (F1 F2 : SpriteFrag) (st1 : RvState),
      RV_SpriteFrag_VisitBspNode e fuel node.children0 F1 st = some st1 ∧
      RV_SpriteFrag_VisitBspNode e fuel node.children1 F2 st1 = some st' ∧
      RV_SpriteFrag_visited e (fuel + 1) nodeIdx F st
        = RV_SpriteFrag_visited e fuel node.children0 F1 st
          ++ RV_SpriteFrag_visited e fuel node.children1 F2 st1) ∨
    (∃ (F1 F2 : SpriteFrag) (st1 : RvState),
      RV_SpriteFrag_VisitBspNode e fuel node.children1 F1 st = some st1 ∧
      RV_SpriteFrag_VisitBspNode e fuel node.children0 F2 st1 = some st' ∧
      RV_SpriteFrag_visited e (fuel + 1) nodeIdx F st
        = RV_SpriteFrag_visited e fuel node.children1 F1 st
          ++ RV_SpriteFrag_visited e fuel node.children0 F2 st1) := by
  rw [RV_SpriteFrag_VisitBspNode] at h
  rw [RV_SpriteFrag_visited]
  simp only [hnode, hget, Bool.false_eq_true, if_false] at h ⊢
  by_cases hsides : bSideOf e node F.x1 F.z1 = bSideOf e node F.x2 F.z2
  · simp only [hsides, if_true] at h ⊢
    cases hb : bSideOf e node F.x2 F.z2 with
    | true =>
      simp only [hb, if_true] at h ⊢
      exact Or.inl ⟨h, trivial⟩
    | false =>
      simp only [hb, Bool.false_eq_true, if_false] at h ⊢
      exact Or.inr (Or.inl ⟨h, trivial⟩)
  · simp only [hsides, if_false] at h ⊢
    cases hr : RV_SpriteSplitTest_VisitBspNode e (fuel + 1) nodeIdx
        (splitLineOf F (splitTOf e node F)) with
    | none => simp [hr] at h
    | some r =>
      cases r with
      | false =>
        simp only [hr] at h ⊢
        cases hb : bCenterSideOf e node st with
        | true =>
          simp only [hb, if_true] at h ⊢
          exact Or.inl ⟨h, trivial⟩
        | false =>
          simp only [hb, Bool.false_eq_true, if_false] at h ⊢
          exact Or.inr (Or.inl ⟨h, trivial⟩)
      | true =>
        simp only [hr] at h ⊢
        cases hb : bSideOf e node F.x1 F.z1 with
        | true =>
          simp only [hb, if_true] at h ⊢
          cases h1 : RV_SpriteFrag_VisitBspNode e fuel node.children0
              (splitFrag1 F (splitFrag2 F (splitTOf e node F))) st with
          | none => simp [h1] at h
          | some st1 =>
            simp only [h1] at h ⊢
            exact Or.inr (Or.inr (Or.inl ⟨_, _, st1, h1, h, rfl⟩))
        | false =>
          simp only [hb, Bool.false_eq_true, if_false] at h ⊢
          cases h1 : RV_SpriteFrag_VisitBspNode e fuel node.children1
              (splitFrag1 F (splitFrag2 F (splitTOf e node F))) st with
          | none => simp [h1] at h
          | some st1 =>
            simp only [h1] at h ⊢
            exact Or.inr (Or.inr (Or.inr ⟨_, _, st1, h1, h, rfl⟩))

/-- The leaves a returning traversal visits are among the leaves referenced below the
node, each at most as often as it is referenced. -/
theorem visited_subperm (e : Env) :
    ∀ (h : Nat) (nodeIdx : Int) (F : SpriteFrag) (st st' : RvState),
      RV_SpriteFrag_VisitBspNode e h nodeIdx F st = some st' →
      (RV_SpriteFrag_visited e h nodeIdx F st).Subperm (leavesBelow e h nodeIdx) := by
  intro h
  induction h with
  | zero => intro nodeIdx F st st' hv; simp [RV_SpriteFrag_VisitBspNode] at hv
  | succ h ih =>
    intro nodeIdx F st st' hv
    cases hs : isSubsector e nodeIdx with
    | true =>
      cases hsub : subsectorOf e nodeIdx with
      | none => simp [RV_SpriteFrag_VisitBspNode, hs, hsub] at hv
      | some subsec =>
        rw [visited_frag_leaf e h nodeIdx subsec F st hs hsub, leavesBelow_leaf e h nodeIdx hs]
    | false =>
      cases hget : getAt e.gpBspNodes nodeIdx with
      | none => simp [RV_SpriteFrag_VisitBspNode, hs, hget] at hv
      | some node =>
        rw [leavesBelow_node e h nodeIdx node hs hget]
        rcases visit_visited_cases e h nodeIdx node F st st' hs hget hv with
          ⟨h0, hvis⟩ | ⟨h1, hvis⟩ | ⟨F1, F2, st1, hA, hB, hvis⟩ | ⟨F1, F2, st1, hA, hB, hvis⟩
        · rw [hvis]
          exact (ih _ F st st' h0).trans (List.sublist_append_left _ _).subperm
        · rw [hvis]
          exact (ih _ F st st' h1).trans (List.sublist_append_right _ _).subperm
        · rw [hvis]
          exact ((List.subperm_append_right _).mpr (ih _ F1 st st1 hA)).trans
            ((List.subperm_append_left _).mpr (ih _ F2 st1 st' hB))
        · rw [hvis]
          exact (((List.subperm_append_right _).mpr (ih _ F1 st st1 hA)).trans
            ((List.subperm_append_left _).mpr (ih _ F2 st1 st' hB))).trans
            List.perm_append_comm.subperm

/-- A returning traversal files at most one fragment for each leaf it visits. -/
theorem visit_count (e : Env) :
    ∀ (h : Nat) (nodeIdx : Int) (F : SpriteFrag) (st st' : RvState),
      RV_SpriteFrag_VisitBspNode e h nodeIdx F st = some st' →
      st'.gRvSpriteFrags.length
        ≤ st.gRvSpriteFrags.length + (RV_SpriteFrag_visited e h nodeIdx F st).length := by
  intro h
  induction h with
  | zero => intro nodeIdx F st st' hv; simp [RV_SpriteFrag_VisitBspNode] at hv
  | succ h ih =>
    intro nodeIdx F st st' hv
    cases hs : isSubsector e nodeIdx with
    | true =>
      cases hsub : subsectorOf e nodeIdx with
      | none => simp [RV_SpriteFrag_VisitBspNode, hs, hsub] at hv
      | some subsec =>
        rw [visited_frag_leaf e h nodeIdx subsec F st hs hsub]
        rw [visit_leaf e h nodeIdx subsec F st hs hsub] at hv
        rcases visitSubsector_cases subsec F st st' hv with ⟨_, rfl⟩ | ⟨_, head, _, rfl⟩
        · simp
        · simp
    | false =>
      cases hget : getAt e.gpBspNodes nodeIdx with
      | none => simp [RV_SpriteFrag_VisitBspNode, hs, hget] at hv
      | some node =>
        rcases visit_visited_cases e h nodeIdx node F st st' hs hget hv with
          ⟨h0, hvis⟩ | ⟨h1, hvis⟩ | ⟨F1, F2, st1, hA, hB, hvis⟩ | ⟨F1, F2, st1, hA, hB, hvis⟩
        · rw [hvis]; exact ih _ F st st' h0
        · rw [hvis]; exact ih _ F st st' h1
        · rw [hvis, List.length_append]
          have a := ih _ F1 st st1 hA
          have b := ih _ F2 st1 st' hB
          omega
        · rw [hvis, List.length_append]
          have a := ih _ F1 st st1 hA
          have b := ih _ F2 st1 st' hB
          omega

theorem filedApart_mono (slots slots' : List Int) (st s : RvState)
    (hsub : ∀ x ∈ slots, x ∈ slots') (hlen : slots.length ≤ slots'.length)
    (h : FiledApart slots st s) : FiledApart slots' st s := by
  obtain ⟨pieces, hp, hn, hheads, hlinks⟩ := h
  refine ⟨pieces, hp, le_trans hn hlen, ?_, ?_⟩
  · intro d
    rcases hheads d with h1 | ⟨hd, h2⟩
    · exact Or.inl h1
    · exact Or.inr ⟨hsub _ hd, h2⟩
  · intro piece hmem
    obtain ⟨d, hd, h2⟩ := hlinks piece hmem
    exact ⟨d, hsub _ hd, h2⟩

theorem filedApart_leaf (subsec : subsector_t) (F : SpriteFrag) (st st' : RvState)
    (h : RV_SpriteFrag_VisitSubsector subsec F st = some st') :
    FiledApart (if subsec.vkDrawSubsecIdx < 0 then [] else [subsec.vkDrawSubsecIdx]) st st' := by
  rcases visitSubsector_cases subsec F st st' h with ⟨hneg, rfl⟩ | ⟨hpos, head, hhead, rfl⟩
  · exact ⟨[], by simp, by simp, fun d => Or.inl rfl, by simp⟩
  · rw [if_neg (not_lt.mpr hpos)]
    have hcast : ((subsec.vkDrawSubsecIdx.toNat : Nat) : Int) = subsec.vkDrawSubsecIdx :=
      Int.toNat_of_nonneg hpos
    have hlt : subsec.vkDrawSubsecIdx.toNat < st.gRvDrawSubsecSprFrags.length := by
      by_contra hc
      rw [List.getElem?_eq_none (not_lt.mp hc)] at hhead
      exact absurd hhead (by simp)
    refine ⟨[{ F with nextSubsecFragIdx := head }], rfl, by simp, ?_, ?_⟩
    · intro d
      by_cases hd : subsec.vkDrawSubsecIdx.toNat = d
      · right
        refine ⟨by rw [← hd, hcast]; simp, 0, { F with nextSubsecFragIdx := head }, rfl, ?_, ?_⟩
        · rw [← hd]; exact hhead
        · simp only [List.getElem?_set, if_pos hd, hlt, if_true, Nat.add_zero]
      · left
        simp only [List.getElem?_set, if_neg hd]
    · intro piece hmem
      rw [List.mem_singleton] at hmem
      subst hmem
      exact ⟨subsec.vkDrawSubsecIdx.toNat, by rw [hcast]; simp, hhead⟩

theorem filedApart_comp (slotsA slotsB : List Int) (st st1 s : RvState)
    (hdisj : ∀ x ∈ slotsA, x ∉ slotsB)
    (hA : FiledApart slotsA st st1) (hB : FiledApart slotsB st1 s) :
    FiledApart (slotsA ++ slotsB) st s := by
  obtain ⟨pA, hpA, hnA, hheadsA, hlinksA⟩ := hA
  obtain ⟨pB, hpB, hnB, hheadsB, hlinksB⟩ := hB
  have hkeep : ∀ d : Nat, (d : Int) ∈ slotsB →
      st1.gRvDrawSubsecSprFrags[d]? = st.gRvDrawSubsecSprFrags[d]? := by
    intro d hd
    rcases hheadsA d with h1 | ⟨hdA, _⟩
    · exact h1
    · exact absurd hd (hdisj _ hdA)
  refine ⟨pA ++ pB, ?_, ?_, ?_, ?_⟩
  · rw [hpB, hpA, List.append_assoc]
  · rw [List.length_append, List.length_append]; omega
  · intro d
    rcases hheadsB d with hB1 | ⟨hdB, k, piece, hk, hold, hnew⟩
    · rcases hheadsA d with hA1 | ⟨hdA, k, piece, hk, hold, hnew⟩
      · exact Or.inl (hB1.trans hA1)
      · right
        refine ⟨List.mem_append_left _ hdA, k, piece, ?_, hold, hB1.trans hnew⟩
        have hklt : k < pA.length := by
          by_contra hc
          rw [List.getElem?_eq_none (not_lt.mp hc)] at hk
          exact absurd hk (by simp)
        rw [List.getElem?_append_left hklt]
        exact hk
    · right
      refine ⟨List.mem_append_right _ hdB, pA.length + k, piece, ?_, ?_, ?_⟩
      · rw [List.getElem?_append_right (Nat.le_add_right _ _), Nat.add_sub_cancel_left]
        exact hk
      · rw [← hkeep d hdB]; exact hold
      · rw [hnew, hpA, List.length_append, Nat.add_assoc]
  · intro piece hmem
    rcases List.mem_append.mp hmem with hm | hm
    · obtain ⟨d, hd, h2⟩ := hlinksA piece hm
      exact ⟨d, List.mem_append_left _ hd, h2⟩
    · obtain ⟨d, hd, h2⟩ := hlinksB piece hm
      exact ⟨d, List.mem_append_right _ hd, by rw [← hkeep d hd]; exact h2⟩

/-- When the drawn leaves below a node have draw subsector indices of their own, a
returning traversal files at most one fragment in each of them. -/
theorem visit_filedApart (e : Env) :
    ∀ (h : Nat) (nodeIdx : Int) (F : SpriteFrag) (st st' : RvState),
      (slotsBelow e h nodeIdx).Nodup →
      RV_SpriteFrag_VisitBspNode e h nodeIdx F st = some st' →
      FiledApart (slotsBelow e h nodeIdx) st st' := by
  intro h
  induction h with
  | zero => intro nodeIdx F st st' _ hv; simp [RV_SpriteFrag_VisitBspNode] at hv
  | succ h ih =>
    intro nodeIdx F st st' hnd hv
    cases hs : isSubsector e nodeIdx with
    | true =>
      cases hsub : subsectorOf e nodeIdx with
      | none => simp [RV_SpriteFrag_VisitBspNode, hs, hsub] at hv
      | some subsec =>
        rw [slotsBelow_leaf e h nodeIdx subsec hs hsub]
        rw [visit_leaf e h nodeIdx subsec F st hs hsub] at hv
        exact filedApart_leaf subsec F st st' hv
    | false =>
      cases hget : getAt e.gpBspNodes nodeIdx with
      | none => simp [RV_SpriteFrag_VisitBspNode, hs, hget] at hv
      | some node =>
        rw [slotsBelow_node e h nodeIdx node hs hget] at hnd ⊢
        obtain ⟨hnd0, hnd1, hdisj⟩ := List.nodup_append.mp hnd
        rcases visit_visited_cases e h nodeIdx node F st st' hs hget hv with
          ⟨h0, _⟩ | ⟨h1, _⟩ | ⟨F1, F2, st1, hA, hB, _⟩ | ⟨F1, F2, st1, hA, hB, _⟩
        · exact filedApart_mono _ _ st st' (fun x hx => List.mem_append_left _ hx)
            (by simp) (ih _ F st st' hnd0 h0)
        · exact filedApart_mono _ _ st st' (fun x hx => List.mem_append_right _ hx)
            (by simp) (ih _ F st st' hnd1 h1)
        · exact filedApart_comp _ _ st st1 st' (fun x hx hx' => hdisj hx hx')
            (ih _ F1 st st1 hnd0 hA) (ih _ F2 st1 st' hnd1 hB)
        · refine filedApart_mono _ _ st st' ?_ ?_
            (filedApart_comp _ _ st st1 st' (fun x hx hx' => hdisj hx' hx)
              (ih _ F1 st st1 hnd1 hA) (ih _ F2 st1 st' hnd0 hB))
          · intro x hx
            rcases List.mem_append.mp hx with hm | hm
            · exact List.mem_append_right _ hm
            · exact List.mem_append_left _ hm
          · simp [Nat.add_comm]

/-- The list of a leaf whose head became the index of an appended fragment: that
fragment, followed by the walk from its link. -/
theorem leafList_piece (frags pieces : List SpriteFrag) (k : Nat) (piece : SpriteFrag)
    (fuel : Nat) (walk : List (Nat × SpriteFrag))
    (hk : pieces[k]? = some piece)
    (hwalk : leafList frags fuel piece.nextSubsecFragIdx = some walk) :
    leafList (frags ++ pieces) (fuel + 1) ((frags.length + k : Nat) : Int)
      = some ((frags.length + k, piece) :: walk) := by
  rw [leafList]
  have hneg : ¬ (((frags.length + k : Nat) : Int) < 0) := by omega
  have hget : (frags ++ pieces)[frags.length + k]? = some piece := by
    rw [List.getElem?_append_right (Nat.le_add_right _ _), Nat.add_sub_cancel_left]
    exact hk
  simp only [hneg, if_false, Int.toNat_ofNat, hget,
    leafList_append frags pieces fuel piece.nextSubsecFragIdx walk hwalk]

theorem nodup_of_subperm {α : Type} [DecidableEq α] (l₁ l₂ : List α)
    (h : l₁.Subperm l₂) (hnd : l₂.Nodup) : l₁.Nodup := by
  rw [List.nodup_iff_count_le_one] at hnd ⊢
  intro a
  exact le_trans (h.count_le a) (hnd a)

/-! ## Lemmas on a split at an end of the fragment -/

theorem splitTOf_one_of_dist2 (e : Env) (node : node_t) (F : SpriteFrag)
    (hsides : bSideOf e node F.x1 F.z1 ≠ bSideOf e node F.x2 F.z2)
    (h2 : dist2Of e node F = 0) : splitTOf e node F = 1 := by
  have hpos := dist_sum_pos e node F hsides
  rw [splitTOf_of_sides e node F hsides, h2, add_zero]
  rw [h2, add_zero] at hpos
  exact div_self (ne_of_gt hpos)

theorem splitFrag2_zero (F : SpriteFrag) : splitFrag2 F 0 = F := by
  cases F
  simp [splitFrag2]

theorem splitFrag1_zero (F : SpriteFrag) :
    splitFrag1 F (splitFrag2 F 0) = { F with x2 := F.x1, z2 := F.z1, ur := F.ul } := by
  rw [splitFrag2_zero]
  rfl

theorem splitFrag2_one (F : SpriteFrag) :
    splitFrag2 F 1 = { F with x1 := F.x2, z1 := F.z2, ul := F.ur } := by
  cases F
  simp [splitFrag2]

theorem splitFrag1_one (F : SpriteFrag) : splitFrag1 F (splitFrag2 F 1) = F := by
  rw [splitFrag2_one]
  cases F
  simp [splitFrag1]

theorem sideOf_zero_iff (e : Env) (node : node_t) (x z : ℚ) :
    sideOf e node x z = 0 ↔ bSideOf e node x z = true := by
  unfold sideOf
  cases bSideOf e node x z <;> simp

/-! ### Facts about the example level -/

theorem exEnv_node : isSubsector exEnv 0 = false ∧ getAt exEnv.gpBspNodes 0 = some exNode := by
  decide

theorem exEnvWall_node :
    isSubsector exEnvWall 0 = false ∧ getAt exEnvWall.gpBspNodes 0 = some exNode := by
  decide

theorem ex_bSideOf (e : Env) (hfx : e.RV_FixedToFloat = fun x : Int => (x : ℚ) / 65536) (x z : ℚ) :
    bSideOf e exNode x z = decide (0 < x) := by
  simp [bSideOf, exNode, hfx]

theorem ex_splitTOf (e : Env) (hfx : e.RV_FixedToFloat = fun x : Int => (x : ℚ) / 65536) :
    splitTOf e exNode exFrag = 3 / 4 := by
  norm_num [splitTOf, exNode, exFrag, hfx, clamp]

theorem ex_splitLineOf :
    splitLineOf exFrag (3 / 4) =
      { x1 := -3 / 100, z1 := 1, x2 := 3 / 100, z2 := 1, y := 5 } := by
  norm_num [splitLineOf, exFrag, clamp]

theorem exFrag_sides (e : Env) (hfx : e.RV_FixedToFloat = fun x : Int => (x : ℚ) / 65536) :
    bSideOf e exNode exFrag.x1 exFrag.z1 ≠ bSideOf e exNode exFrag.x2 exFrag.z2 := by
  rw [ex_bSideOf e hfx, ex_bSideOf e hfx]
  norm_num [exFrag]

/-- In the level without walls the split test permits every line. -/
theorem exEnv_splitTest (line : SplitTestLine) :
    RV_SpriteSplitTest_VisitBspNode exEnv 2 0 line = some true := by
  have h0 : RV_SpriteSplitTest_VisitBspNode exEnv 1 32768 line = some true := by
    rw [splitTest_leaf exEnv 0 32768 line exLeaf0 (by decide) (by decide)]
    rfl
  have h1 : RV_SpriteSplitTest_VisitBspNode exEnv 1 32769 line = some true := by
    rw [splitTest_leaf exEnv 0 32769 line exLeaf1 (by decide) (by decide)]
    rfl
  rw [splitTest_node exEnv 1 0 line exNode exEnv_node.1 exEnv_node.2]
  have hc : ∀ s, RV_SpriteSplitTest_VisitBspNode exEnv 1 (exNode.children s) line = some true := by
    intro s
    unfold node_t.children
    split_ifs
    · exact h0
    · exact h1
  rw [hc, Option.some_bind]
  simp [hc]

theorem exEnvWall_leaf1 (line : SplitTestLine) :
    RV_SpriteSplitTest_VisitBspNode exEnvWall 1 32769 line = some true := by
  rw [splitTest_leaf exEnvWall 0 32769 line exLeaf1 (by decide) (by decide)]
  rfl

theorem exTestLine_sides :
    sideOf exEnvWall exNode exTestLine.x1 exTestLine.z1 = 1 ∧
    sideOf exEnvWall exNode exTestLine.x2 exTestLine.z2 = 0 := by
  unfold sideOf
  rw [ex_bSideOf exEnvWall rfl, ex_bSideOf exEnvWall rfl]
  norm_num [exTestLine]

theorem exTestLine_visited :
    RV_SpriteSplitTest_visited exEnvWall 2 0 exTestLine = [exLeaf1, exLeaf0Wall] := by
  rw [visited_node exEnvWall 1 0 exTestLine exNode exEnvWall_node.1 exEnvWall_node.2,
    exTestLine_sides.1, exTestLine_sides.2]
  have h1 : exNode.children 1 = 32769 := rfl
  have h0 : exNode.children 0 = 32768 := rfl
  rw [h1, h0, exEnvWall_leaf1,
    visited_leaf exEnvWall 0 32769 exTestLine exLeaf1 (by decide) (by decide),
    visited_leaf exEnvWall 0 32768 exTestLine exLeaf0Wall (by decide) (by decide)]
  simp

theorem exWall_seg : segOf exEnvWall exLeaf0Wall 0 = some exWall := by decide

theorem exWall_intersects : segIntersects exEnvWall exWall exTestLine = true := by
  norm_num [segIntersects, exEnvWall, exEnv, exWall, exTestLine, exLinesIntersect]

theorem exWall_misses : segIntersects exEnvWall exWall exTestLineSide0 = false := by
  norm_num [segIntersects, exEnvWall, exEnv, exWall, exTestLineSide0, exLinesIntersect]

theorem exTestLineSide0_visited :
    RV_SpriteSplitTest_visited exEnvWall 2 0 exTestLineSide0 = [exLeaf0Wall] := by
  have hs : sideOf exEnvWall exNode exTestLineSide0.x1 exTestLineSide0.z1 = 0 ∧
      sideOf exEnvWall exNode exTestLineSide0.x2 exTestLineSide0.z2 = 0 := by
    unfold sideOf
    rw [ex_bSideOf exEnvWall rfl, ex_bSideOf exEnvWall rfl]
    norm_num [exTestLineSide0]
  rw [visited_node exEnvWall 1 0 exTestLineSide0 exNode exEnvWall_node.1 exEnvWall_node.2,
    hs.1, hs.2]
  have h0 : exNode.children 0 = 32768 := rfl
  rw [h0, visited_leaf exEnvWall 0 32768 exTestLineSide0 exLeaf0Wall (by decide) (by decide)]
  simp

theorem exEnvWall_denied :
    RV_SpriteSplitTest_VisitBspNode exEnvWall 2 0
      (splitLineOf exFrag (splitTOf exEnvWall exNode exFrag)) = some false := by
  rw [ex_splitTOf exEnvWall rfl, ex_splitLineOf]
  obtain ⟨b, hb⟩ := splitTest_total exEnvWall exTestLine 2 0 (by decide)
  have hv : exLeaf0Wall ∈ RV_SpriteSplitTest_visited exEnvWall 2 0 exTestLine := by
    rw [exTestLine_visited]; simp
  have := splitTest_false_of_veto exEnvWall exTestLine 2 0 b hb exLeaf0Wall 0 exWall hv
    exWall_seg (visitSeg_one_sided exEnvWall exWall exTestLine exWall_intersects rfl)
  rw [this] at hb
  exact hb

theorem exStore_draw :
    RV_DrawSubsecSpriteFrags exEnv 3 0 exStoreState =
      some ([(1, { exFrag with nextSubsecFragIdx := 0, depth := 7 }),
             (2, { exFrag with nextSubsecFragIdx := 1, depth := 5, ul := 4 }),
             (0, { exFrag with nextSubsecFragIdx := -1, depth := 5 })],
        exStoreState) := by
  decide

theorem exFragSide0_path : sameSideLeaf exEnv exFragSide0 2 0 = some exLeaf0 := by
  have hs : bSideOf exEnv exNode exFragSide0.x1 exFragSide0.z1 = true ∧
      bSideOf exEnv exNode exFragSide0.x2 exFragSide0.z2 = true := by
    rw [ex_bSideOf exEnv rfl, ex_bSideOf exEnv rfl]
    norm_num [exFragSide0]
  rw [sameSideLeaf]
  simp only [exEnv_node.1, exEnv_node.2, hs.1, hs.2, sideOf]
  decide

theorem ex_intersects (seg : rvseg_t)
    (hline : seg.linedef.vertex1 = exWall.linedef.vertex1 ∧
      seg.linedef.vertex2 = exWall.linedef.vertex2) :
    segIntersects exEnv seg exTestLine = true := by
  unfold segIntersects
  rw [hline.1, hline.2]
  norm_num [exEnv, exWall, exTestLine, exLinesIntersect]

theorem exLeaf0Wall_segOf (i : Int) (seg : rvseg_t)
    (h : segOf exEnvWall exLeaf0Wall i = some seg) : seg = exWall := by
  have hi : i = 0 := by
    unfold segOf at h
    split_ifs at h with hc
    have : exLeaf0Wall.numsegs = 1 := rfl
    omega
  subst hi
  rw [exWall_seg] at h
  exact (Option.some.inj h).symm

theorem exEnv_file (F : SpriteFrag) (st : RvState) :
    RV_SpriteFrag_VisitBspNode exEnv 1 32768 F st = RV_SpriteFrag_VisitSubsector exLeaf0 F st ∧
    RV_SpriteFrag_VisitBspNode exEnv 1 32769 F st = RV_SpriteFrag_VisitSubsector exLeaf1 F st :=
  ⟨visit_leaf exEnv 0 32768 exLeaf0 F st (by decide) (by decide),
    visit_leaf exEnv 0 32769 exLeaf1 F st (by decide) (by decide)⟩

theorem exStore_filing : FilingReachable exEnv exStoreState := by
  have h0 := FilingReachable.reset (e := exEnv) exState
  have h1 := FilingReachable.file _ _ exLeaf0 { exFrag with depth := 5 } h0 rfl
  have h2 := FilingReachable.file _ _ exLeaf0 { exFrag with depth := 7 } h1 rfl
  have h3 := FilingReachable.file _ _ exLeaf0 { exFrag with depth := 5, ul := 4 } h2 rfl
  exact h3

theorem exFrag_visited : RV_SpriteFrag_visited exEnv 2 0 exFrag exState = [1, 0] := by
  have hb : bSideOf exEnv exNode exFrag.x1 exFrag.z1 = false ∧
      bSideOf exEnv exNode exFrag.x2 exFrag.z2 = true := by
    rw [ex_bSideOf exEnv rfl, ex_bSideOf exEnv rfl]
    norm_num [exFrag]
  have hc1 : exNode.children1 = 32769 := rfl
  have hc0 : exNode.children0 = 32768 := rfl
  have hperm : ∀ line, RV_SpriteSplitTest_VisitBspNode exEnv (1 + 1) 0 line = some true :=
    exEnv_splitTest
  rw [RV_SpriteFrag_visited]
  simp only [exEnv_node.1, exEnv_node.2, hb.1, hb.2, hperm, hc0, hc1,
    Bool.false_eq_true, if_false]
  obtain ⟨st1, h1⟩ : ∃ st1, RV_SpriteFrag_VisitBspNode exEnv 1 32769
      (splitFrag1 exFrag (splitFrag2 exFrag (splitTOf exEnv exNode exFrag))) exState
        = some st1 := by
    rw [(exEnv_file _ _).2]
    exact ⟨_, rfl⟩
  rw [h1, visited_frag_leaf exEnv 0 32769 exLeaf1 _ _ (by decide) (by decide)]
  simp only []
  rw [visited_frag_leaf exEnv 0 32768 exLeaf0 _ _ (by decide) (by decide)]
  decide

theorem exEnvWallNear_node :
    isSubsector exEnvWallNear 0 = false ∧ getAt exEnvWallNear.gpBspNodes 0 = some exNode := by
  decide

theorem exFragEndOnLine_facts :
    dist2Of exEnvWallNear exNode exFragEndOnLine = 0 ∧
    bSideOf exEnvWallNear exNode exFragEndOnLine.x1 exFragEndOnLine.z1 = true ∧
    bSideOf exEnvWallNear exNode exFragEndOnLine.x2 exFragEndOnLine.z2 = false ∧
    splitLineOf exFragEndOnLine (splitTOf exEnvWallNear exNode exFragEndOnLine)
      = { x1 := 1 / 100, z1 := 1, x2 := 0, z2 := 1, y := 5 } := by
  have hd : dist2Of exEnvWallNear exNode exFragEndOnLine = 0 := by
    norm_num [dist2Of, exEnvWallNear, exEnv, exNode, exFragEndOnLine, exFrag]
  have hb : bSideOf exEnvWallNear exNode exFragEndOnLine.x1 exFragEndOnLine.z1 = true ∧
      bSideOf exEnvWallNear exNode exFragEndOnLine.x2 exFragEndOnLine.z2 = false := by
    rw [ex_bSideOf exEnvWallNear rfl, ex_bSideOf exEnvWallNear rfl]
    norm_num [exFragEndOnLine, exFrag]
  refine ⟨hd, hb.1, hb.2, ?_⟩
  rw [splitTOf_one_of_dist2 exEnvWallNear exNode exFragEndOnLine (by rw [hb.1, hb.2]; decide) hd]
  norm_num [splitLineOf, clamp, exFragEndOnLine, exFrag]

/-- In the level with the wall next to the partition line the split test denies the
split of `exFragEndOnLine`: its test line from `(1/100, 1)` to `(0, 1)` crosses the wall. -/
theorem exEnvWallNear_denied :
    RV_SpriteSplitTest_VisitBspNode exEnvWallNear 2 0
      (splitLineOf exFragEndOnLine (splitTOf exEnvWallNear exNode exFragEndOnLine))
        = some false := by
  rw [exFragEndOnLine_facts.2.2.2]
  generalize hl : ({ x1 := 1 / 100, z1 := 1, x2 := 0, z2 := 1, y := 5 } : SplitTestLine) = line
  have hx : line.x1 = 1 / 100 ∧ line.z1 = 1 ∧ line.x2 = 0 ∧ line.z2 = 1 := by
    rw [← hl]; exact ⟨rfl, rfl, rfl, rfl⟩
  obtain ⟨b, hb⟩ := splitTest_total exEnvWallNear line 2 0 (by decide)
  have hside : sideOf exEnvWallNear exNode line.x1 line.z1 = 0 := by
    unfold sideOf
    rw [ex_bSideOf exEnvWallNear rfl, hx.1]
    norm_num
  have hv : exLeaf0Wall ∈ RV_SpriteSplitTest_visited exEnvWallNear 2 0 line := by
    rw [visited_node exEnvWallNear 1 0 line exNode exEnvWallNear_node.1 exEnvWallNear_node.2,
      hside]
    have h0 : exNode.children 0 = 32768 := rfl
    rw [h0, visited_leaf exEnvWallNear 0 32768 line exLeaf0Wall (by decide) (by decide)]
    simp
  have hint : segIntersects exEnvWallNear exWallNear line = true := by
    unfold segIntersects
    rw [hx.1, hx.2.1, hx.2.2.1, hx.2.2.2]
    norm_num [exEnvWallNear, exEnv, exWallNear, exLinesIntersect]
  have := splitTest_false_of_veto exEnvWallNear line 2 0 b hb exLeaf0Wall 0 exWallNear hv
    (by decide) (visitSeg_one_sided exEnvWallNear exWallNear line hint rfl)
  rw [this] at hb
  exact hb

theorem exEnvWallNear_file (F : SpriteFrag) (st : RvState) :
    RV_SpriteFrag_VisitBspNode exEnvWallNear 1 32769 F st
      = RV_SpriteFrag_VisitSubsector exLeaf1 F st :=
  visit_leaf exEnvWallNear 0 32769 exLeaf1 F st (by decide) (by decide)

/-! ## The claims -/

/-- C1: at an internal node where the endpoints of the fragment `F` are on different
sides and the split test permits the split, `RV_SpriteFrag_VisitBspNode` continues
with two pieces, `frag1` into the child on the side of endpoint 1 and then `frag2`
into the child on the side of endpoint 2. The pieces share their boundary exactly
(`frag1.x2 = frag2.x1`, `frag1.z2 = frag2.z1`, `frag1.ur = frag2.ul`), the shared
values are those of `F` interpolated at the split parameter, `frag1` keeps endpoint 1
of `F` and `frag2` keeps endpoint 2 of `F`. -/
theorem split_pieces_share_boundary (e : Env) (fuel : Nat) (nodeIdx : Int) (node : node_t)
    (F : SpriteFrag) (st : RvState)
    (hnode : isSubsector e nodeIdx = false)
    (hget : getAt e.gpBspNodes nodeIdx = some node)
    (hsides : bSideOf e node F.x1 F.z1 ≠ bSideOf e node F.x2 F.z2)
    (hperm : RV_SpriteSplitTest_VisitBspNode e (fuel + 1) nodeIdx
      (splitLineOf F (splitTOf e node F)) = some true) :
    ∃ frag1 frag2 : SpriteFrag,
      RV_SpriteFrag_VisitBspNode e (fuel + 1) nodeIdx F st =
        (RV_SpriteFrag_VisitBspNode e fuel
          (node.children (sideOf e node F.x1 F.z1)) frag1 st).bind
          (fun st1 => RV_SpriteFrag_VisitBspNode e fuel
            (node.children (sideOf e node F.x2 F.z2)) frag2 st1) ∧
      frag1.x2 = frag2.x1 ∧ frag1.z2 = frag2.z1 ∧ frag1.ur = frag2.ul ∧
      frag2.x1 = F.x1 * (1 - splitTOf e node F) + F.x2 * splitTOf e node F ∧
      frag2.z1 = F.z1 * (1 - splitTOf e node F) + F.z2 * splitTOf e node F ∧
      frag2.ul = F.ul * (1 - splitTOf e node F) + F.ur * splitTOf e node F ∧
      frag1.x1 = F.x1 ∧ frag1.z1 = F.z1 ∧ frag1.ul = F.ul ∧
      frag2.x2 = F.x2 ∧ frag2.z2 = F.z2 ∧ frag2.ur = F.ur :=
  ⟨splitFrag1 F (splitFrag2 F (splitTOf e node F)), splitFrag2 F (splitTOf e node F),
    visit_split e fuel nodeIdx node F st hnode hget hsides hperm,
    rfl, rfl, rfl, rfl, rfl, rfl, rfl, rfl, rfl, rfl, rfl, rfl⟩

/-- C1, instance: the fragment `exFrag` is split at the node of the example level. -/
theorem split_pieces_share_boundary_witness :
    ∃ frag1 frag2 : SpriteFrag,
      RV_SpriteFrag_VisitBspNode exEnv 2 0 exFrag exState =
        (RV_SpriteFrag_VisitBspNode exEnv 1
          (exNode.children (sideOf exEnv exNode exFrag.x1 exFrag.z1)) frag1 exState).bind
          (fun st1 => RV_SpriteFrag_VisitBspNode exEnv 1
            (exNode.children (sideOf exEnv exNode exFrag.x2 exFrag.z2)) frag2 st1) ∧
      frag1.x2 = frag2.x1 ∧ frag1.z2 = frag2.z1 ∧ frag1.ur = frag2.ul ∧
      frag2.x1 = exFrag.x1 * (1 - splitTOf exEnv exNode exFrag)
        + exFrag.x2 * splitTOf exEnv exNode exFrag ∧
      frag2.z1 = exFrag.z1 * (1 - splitTOf exEnv exNode exFrag)
        + exFrag.z2 * splitTOf exEnv exNode exFrag ∧
      frag2.ul = exFrag.ul * (1 - splitTOf exEnv exNode exFrag)
        + exFrag.ur * splitTOf exEnv exNode exFrag ∧
      frag1.x1 = exFrag.x1 ∧ frag1.z1 = exFrag.z1 ∧ frag1.ul = exFrag.ul ∧
      frag2.x2 = exFrag.x2 ∧ frag2.z2 = exFrag.z2 ∧ frag2.ur = exFrag.ur :=
  split_pieces_share_boundary exEnv 1 0 exNode exFrag exState exEnv_node.1 exEnv_node.2
    (exFrag_sides exEnv rfl) (exEnv_splitTest _)

/-- C2: the fragments that `RV_DrawSubsecSpriteFrags` submits to `RV_DrawSpriteFrag`
are in non-increasing depth order, and for every depth `d` the fragments of depth `d`
are drawn in the order in which the walk of the leaf's list from its head meets them
(the sort is stable). This holds for every store and index for which the function
returns; with descending links and an empty scratch list it does return for every
valid draw subsector, with the size of the store as fuel. -/
theorem drawn_sorted_and_stable (e : Env) (drawSubsecIdx : Int) (st : RvState) :
    (∀ (fuel : Nat) (drawn : List (Nat × SpriteFrag)) (st' : RvState),
      RV_DrawSubsecSpriteFrags e fuel drawSubsecIdx st = some (drawn, st') →
        drawn.Pairwise (fun p q => p.2.depth ≥ q.2.depth) ∧
        ∃ head walk, getAt st.gRvDrawSubsecSprFrags drawSubsecIdx = some head ∧
          leafList st.gRvSpriteFrags fuel head = some walk ∧
          ∀ d : ℚ, drawn.filter (fun p => decide (p.2.depth = d)) =
            walk.filter (fun p => decide (p.2.depth = d))) ∧
    (LinksDescend st → st.gRvSortedFrags = [] →
      (0 ≤ drawSubsecIdx ∧ drawSubsecIdx.toNat < e.gRvDrawSubsecs.length) →
      st.gRvDrawSubsecSprFrags.length = e.gRvDrawSubsecs.length →
      ∃ drawn st', RV_DrawSubsecSpriteFrags e st.gRvSpriteFrags.length drawSubsecIdx st =
        some (drawn, st')) := by
  refine ⟨?_, draw_total e drawSubsecIdx st⟩
  intro fuel drawn st' h
  obtain ⟨_, head, walk, hhead, hwalk, hdrawn, _⟩ := draw_eq e fuel drawSubsecIdx st drawn st' h
  subst hdrawn
  exact ⟨sorted_stable_sort walk, head, walk, hhead, hwalk, fun d => filter_stable_sort d walk⟩

/-- C2, instance: a list `2 → 1 → 0` of depths 5, 7, 5 is drawn in the order 1, 2, 0. -/
theorem drawn_sorted_and_stable_witness :
    RV_DrawSubsecSpriteFrags exEnv 3 0 exStoreState =
      some ([(1, { exFrag with nextSubsecFragIdx := 0, depth := 7 }),
             (2, { exFrag with nextSubsecFragIdx := 1, depth := 5, ul := 4 }),
             (0, { exFrag with nextSubsecFragIdx := -1, depth := 5 })],
        exStoreState) ∧
    List.Pairwise (fun p q : Nat × SpriteFrag => p.2.depth ≥ q.2.depth)
      [(1, { exFrag with nextSubsecFragIdx := 0, depth := 7 }),
       (2, { exFrag with nextSubsecFragIdx := 1, depth := 5, ul := 4 }),
       (0, { exFrag with nextSubsecFragIdx := -1, depth := 5 })] :=
  ⟨exStore_draw, ((drawn_sorted_and_stable exEnv 0 exStoreState).1 3 _ _ exStore_draw).1⟩

/-- C3: on a well formed BSP tree all of whose leaves are drawable,
`RV_SpriteFrag_VisitBspNode` returns, and the fragments it files (the entries it
appends to the store, in order) tile `F` exactly: there are cut parameters
`0 ≤ m₁ ≤ ... ≤ 1` such that each piece is `F` between two consecutive cuts, the first
piece starts at endpoint 1 of `F` and the last ends at endpoint 2, so the pieces cover
the whole segment and meet only in shared boundary points. -/
theorem pieces_tile_fragment (e : Env) (h : Nat) (nodeIdx : Int) (F : SpriteFrag)
    (st : RvState)
    (hw : wellFormedDrawableBsp e st.gRvDrawSubsecSprFrags.length h nodeIdx = true) :
    ∃ (st' : RvState) (pieces : List SpriteFrag),
      RV_SpriteFrag_VisitBspNode e h nodeIdx F st = some st' ∧
      st'.gRvSpriteFrags = st.gRvSpriteFrags ++ pieces ∧
      Tiles F 0 1 pieces := by
  obtain ⟨st', pieces, h1, h2, _, h4⟩ :=
    visit_tiles e F h nodeIdx F st 0 1 hw zero_le_one (isPiece_self F)
  exact ⟨st', pieces, h1, h2, h4⟩

/-- C3, instance: the fragment `exFrag` in the example level. -/
theorem pieces_tile_fragment_witness :
    ∃ (st' : RvState) (pieces : List SpriteFrag),
      RV_SpriteFrag_VisitBspNode exEnv 2 0 exFrag exState = some st' ∧
      st'.gRvSpriteFrags = exState.gRvSpriteFrags ++ pieces ∧
      Tiles exFrag 0 1 pieces :=
  pieces_tile_fragment exEnv 2 0 exFrag exState (by decide)

/-- C4: if the split test visits a leaf one of whose segs has no back sector and a
linedef that intersects the test line, the split test does not permit the split,
whatever the height of the test line and the flags and sector heights of the seg: any
result it returns is `false`, and on a well formed BSP tree it does return `false`. -/
theorem one_sided_wall_vetoes (e : Env) (fuel : Nat) (nodeIdx : Int) (line : SplitTestLine)
    (subsec : subsector_t) (i : Int) (seg : rvseg_t)
    (hvis : subsec ∈ RV_SpriteSplitTest_visited e fuel nodeIdx line)
    (hseg : segOf e subsec i = some seg)
    (hone : seg.backsector = none)
    (hint : segIntersects e seg line = true) :
    (∀ b, RV_SpriteSplitTest_VisitBspNode e fuel nodeIdx line = some b → b = false) ∧
    (wellFormedBsp e fuel nodeIdx = true →
      RV_SpriteSplitTest_VisitBspNode e fuel nodeIdx line = some false) := by
  have hveto := visitSeg_one_sided e seg line hint hone
  refine ⟨fun b hb => splitTest_false_of_veto e line fuel nodeIdx b hb subsec i seg hvis hseg
    hveto, fun hw => ?_⟩
  obtain ⟨b, hb⟩ := splitTest_total e line fuel nodeIdx hw
  have hf := splitTest_false_of_veto e line fuel nodeIdx b hb subsec i seg hvis hseg hveto
  rw [hb, hf]

/-- C4, instance: the wall of the example level vetoes the test line of `exFrag`. -/
theorem one_sided_wall_vetoes_witness :
    exLeaf0Wall ∈ RV_SpriteSplitTest_visited exEnvWall 2 0 exTestLine ∧
    segOf exEnvWall exLeaf0Wall 0 = some exWall ∧ exWall.backsector = none ∧
    segIntersects exEnvWall exWall exTestLine = true ∧
    RV_SpriteSplitTest_VisitBspNode exEnvWall 2 0 exTestLine = some false :=
  have hvis : exLeaf0Wall ∈ RV_SpriteSplitTest_visited exEnvWall 2 0 exTestLine := by
    rw [exTestLine_visited]; simp
  ⟨hvis, exWall_seg, rfl, exWall_intersects,
    (one_sided_wall_vetoes exEnvWall 2 0 exTestLine exLeaf0Wall 0 exWall hvis
      exWall_seg rfl exWall_intersects).2 (by decide)⟩

/-- C5: on a well formed BSP tree, if no seg of any leaf that the split test visits
has a linedef that intersects the test line, the split test returns `true`, whatever
the sidedness, flags and sector heights of the segs and the height of the line. -/
theorem no_crossing_permits (e : Env) (fuel : Nat) (nodeIdx : Int) (line : SplitTestLine)
    (hw : wellFormedBsp e fuel nodeIdx = true)
    (hno : ∀ (subsec : subsector_t) (i : Int) (seg : rvseg_t),
      subsec ∈ RV_SpriteSplitTest_visited e fuel nodeIdx line →
      segOf e subsec i = some seg → segIntersects e seg line = false) :
    RV_SpriteSplitTest_VisitBspNode e fuel nodeIdx line = some true :=
  splitTest_true_of_all e line fuel nodeIdx hw
    (fun subsec i seg hvis hseg =>
      visitSeg_of_not_intersects e seg line (hno subsec i seg hvis hseg))

/-- C5, instance: a test line on side 0 of the example level, away from the wall. -/
theorem no_crossing_permits_witness :
    RV_SpriteSplitTest_VisitBspNode exEnvWall 2 0 exTestLineSide0 = some true :=
  no_crossing_permits exEnvWall 2 0 exTestLineSide0 (by decide) (by
    intro subsec i seg hvis hseg
    rw [exTestLineSide0_visited, List.mem_singleton] at hvis
    subst hvis
    have hi : i = 0 := by
      unfold segOf at hseg
      split_ifs at hseg with hc
      have : exLeaf0Wall.numsegs = 1 := rfl
      omega
    subst hi
    rw [exWall_seg] at hseg
    cases hseg
    exact exWall_misses)

/-- C6: at an internal node where the endpoints of the fragment are on different sides
and the split test denies the split, `RV_SpriteFrag_VisitBspNode` is one recursive
call with the whole fragment, into `children[0]` when
`nodeDx * (anchorZ - nodePy) < nodeDy * (anchorX - nodePx)` and into `children[1]`
otherwise, where the anchor is `gSpriteFragThingPos`; the child is a function of the
anchor and the partition line only. -/
theorem denied_split_follows_anchor (e : Env) (fuel : Nat) (nodeIdx : Int) (node : node_t)
    (F : SpriteFrag) (st : RvState)
    (hnode : isSubsector e nodeIdx = false)
    (hget : getAt e.gpBspNodes nodeIdx = some node)
    (hsides : bSideOf e node F.x1 F.z1 ≠ bSideOf e node F.x2 F.z2)
    (hdeny : RV_SpriteSplitTest_VisitBspNode e (fuel + 1) nodeIdx
      (splitLineOf F (splitTOf e node F)) = some false) :
    RV_SpriteFrag_VisitBspNode e (fuel + 1) nodeIdx F st =
      RV_SpriteFrag_VisitBspNode e fuel
        (if e.RV_FixedToFloat node.line.dx
              * (st.gSpriteFragThingPos.2.2 - e.RV_FixedToFloat node.line.y)
            < e.RV_FixedToFloat node.line.dy
              * (st.gSpriteFragThingPos.1 - e.RV_FixedToFloat node.line.x)
          then node.children0 else node.children1) F st := by
  rw [visit_denied e fuel nodeIdx node F st hnode hget hsides hdeny]
  simp [bCenterSideOf, bSideOf]

/-- C6, instance: in the example level with the wall, the centre `(-1, 1)` of `exFrag`
is on side 1 and the anchor `(1/2, 1)` on side 0; the fragment goes to `children[0]`. -/
theorem denied_split_follows_anchor_witness :
    bSideOf exEnvWall exNode ((exFrag.x1 + exFrag.x2) / 2) ((exFrag.z1 + exFrag.z2) / 2) = false ∧
    RV_SpriteFrag_VisitBspNode exEnvWall 2 0 exFrag exStateSide0 =
      RV_SpriteFrag_VisitBspNode exEnvWall 1 exNode.children0 exFrag exStateSide0 := by
  refine ⟨?_, ?_⟩
  · rw [ex_bSideOf exEnvWall rfl]; norm_num [exFrag]
  · have h := denied_split_follows_anchor exEnvWall 1 0 exNode exFrag exStateSide0
      exEnvWall_node.1 exEnvWall_node.2 (exFrag_sides exEnvWall rfl) exEnvWall_denied
    rw [h]
    norm_num [exEnvWall, exEnv, exNode, exStateSide0, exState]

/-- C7: when at every node on the way from `nodeIdx` both endpoints of `F` are on the
same side, and the leaf reached is drawable, `RV_SpriteFrag_VisitBspNode` (with any
fuel of at least the length of the path) files exactly one fragment: the store grows
by one entry, which is `F` with its link set to the previous head of the leaf, the
head of the leaf becomes the index of that entry, and nothing else changes. The depth
of the entry is the depth of `F`; for a fragment made by `RV_InitSpriteFrag` that is
the depth component of the view projection transform of the anchor. -/
theorem unsplit_sprite_filed_once (e : Env) (h : Nat) (nodeIdx : Int) (F : SpriteFrag)
    (st : RvState) (subsec : subsector_t) (head : Int)
    (hpath : sameSideLeaf e F h nodeIdx = some subsec)
    (hdraw : 0 ≤ subsec.vkDrawSubsecIdx)
    (hhead : st.gRvDrawSubsecSprFrags[subsec.vkDrawSubsecIdx.toNat]? = some head) :
    (∀ fuel, h ≤ fuel →
      RV_SpriteFrag_VisitBspNode e fuel nodeIdx F st = some { st with
        gRvSpriteFrags := st.gRvSpriteFrags ++ [{ F with nextSubsecFragIdx := head }]
        gRvDrawSubsecSprFrags := st.gRvDrawSubsecSprFrags.set
          subsec.vkDrawSubsecIdx.toNat st.gRvSpriteFrags.length }) ∧
    ({ F with nextSubsecFragIdx := head } : SpriteFrag).depth = F.depth ∧
    (∀ (te : ThingEnv) (thing : mobj_t) (thingX thingY thingZ : Int) (secR secG secB : Nat),
      RV_InitSpriteFrag te thing thingX thingY thingZ secR secG secB = some F →
      F.depth = (te.gViewProjMatrix_transform3d (te.RV_FixedToFloat thingX,
        te.RV_FixedToFloat thingZ, te.RV_FixedToFloat thingY)).2.2) := by
  refine ⟨?_, rfl, ?_⟩
  · intro fuel hfuel
    rw [visit_sameSideLeaf e F st subsec h nodeIdx hpath fuel hfuel,
      visitSubsector_drawable subsec F st head hdraw hhead]
  · intro te thing thingX thingY thingZ secR secG secB hF
    exact initSpriteFrag_depth te thing thingX thingY thingZ secR secG secB F hF

/-- C7, instance: `exFragSide0` lies on side 0 of the example level and is filed once,
in leaf 0. -/
theorem unsplit_sprite_filed_once_witness :
    RV_SpriteFrag_VisitBspNode exEnv 2 0 exFragSide0 exState = some { exState with
      gRvSpriteFrags := [exFragSide0]
      gRvDrawSubsecSprFrags := [0, -1] } :=
  (unsplit_sprite_filed_once exEnv 2 0 exFragSide0 exState exLeaf0 (-1) exFragSide0_path
    (by decide) (by decide)).1 2 (le_refl 2)

/-- C8: at an internal node whose children on the sides of the two endpoints are
drawable leaves, when the endpoints of `F` are on different sides and the split test
permits the split, `RV_SpriteFrag_VisitBspNode` files exactly two fragments: the store
grows by `frag1` (which keeps endpoint 1 of `F`), made the head of the list of the
leaf on the side of endpoint 1, and then by `frag2` (which keeps endpoint 2), made the
head of the list of the leaf on the side of endpoint 2. Their U spans add up to the U
span of `F`. -/
theorem permitted_split_files_two (e : Env) (fuel : Nat) (nodeIdx : Int) (node : node_t)
    (F : SpriteFrag) (st : RvState) (leafA leafB : subsector_t)
    (hnode : isSubsector e nodeIdx = false)
    (hget : getAt e.gpBspNodes nodeIdx = some node)
    (hsides : bSideOf e node F.x1 F.z1 ≠ bSideOf e node F.x2 F.z2)
    (hA : isSubsector e (node.children (sideOf e node F.x1 F.z1)) = true)
    (hleafA : subsectorOf e (node.children (sideOf e node F.x1 F.z1)) = some leafA)
    (hB : isSubsector e (node.children (sideOf e node F.x2 F.z2)) = true)
    (hleafB : subsectorOf e (node.children (sideOf e node F.x2 F.z2)) = some leafB)
    (hdrawA : drawableIn st.gRvDrawSubsecSprFrags.length leafA = true)
    (hdrawB : drawableIn st.gRvDrawSubsecSprFrags.length leafB = true)
    (hperm : RV_SpriteSplitTest_VisitBspNode e (fuel + 2) nodeIdx
      (splitLineOf F (splitTOf e node F)) = some true) :
    ∃ (frag1 frag2 : SpriteFrag) (headA headB : Int),
      st.gRvDrawSubsecSprFrags[leafA.vkDrawSubsecIdx.toNat]? = some headA ∧
      (st.gRvDrawSubsecSprFrags.set leafA.vkDrawSubsecIdx.toNat
        st.gRvSpriteFrags.length)[leafB.vkDrawSubsecIdx.toNat]? = some headB ∧
      RV_SpriteFrag_VisitBspNode e (fuel + 2) nodeIdx F st = some { st with
        gRvSpriteFrags := st.gRvSpriteFrags ++
          [{ frag1 with nextSubsecFragIdx := headA }, { frag2 with nextSubsecFragIdx := headB }]
        gRvDrawSubsecSprFrags :=
          (st.gRvDrawSubsecSprFrags.set leafA.vkDrawSubsecIdx.toNat
            st.gRvSpriteFrags.length).set leafB.vkDrawSubsecIdx.toNat
            (st.gRvSpriteFrags.length + 1 : Nat) } ∧
      frag1.x1 = F.x1 ∧ frag1.z1 = F.z1 ∧ frag1.ul = F.ul ∧
      frag2.x2 = F.x2 ∧ frag2.z2 = F.z2 ∧ frag2.ur = F.ur ∧
      frag1.x2 = frag2.x1 ∧ frag1.z2 = frag2.z1 ∧
      (frag1.ur - frag1.ul) + (frag2.ur - frag2.ul) = F.ur - F.ul := by
  obtain ⟨hdA, headA, hheadA⟩ := drawableIn_head _ leafA st.gRvDrawSubsecSprFrags rfl hdrawA
  obtain ⟨hdB, headB, hheadB⟩ := drawableIn_head _ leafB
    (st.gRvDrawSubsecSprFrags.set leafA.vkDrawSubsecIdx.toNat st.gRvSpriteFrags.length)
    (by simp) hdrawB
  refine ⟨splitFrag1 F (splitFrag2 F (splitTOf e node F)), splitFrag2 F (splitTOf e node F),
    headA, headB, hheadA, hheadB, ?_, rfl, rfl, rfl, rfl, rfl, rfl, rfl, rfl, ?_⟩
  · rw [visit_split e (fuel + 1) nodeIdx node F st hnode hget hsides hperm,
      visit_leaf e fuel _ leafA _ st hA hleafA,
      visitSubsector_drawable leafA _ st headA hdA hheadA, Option.some_bind,
      visit_leaf e fuel _ leafB _ _ hB hleafB,
      visitSubsector_drawable leafB _ _ headB hdB hheadB]
    simp
  · simp only [splitFrag1, splitFrag2]
    ring

/-- C8, instance: `exFrag` is split at the node of the example level; the piece from
`x = -3` to `x = 0` is filed in leaf 1 and the piece from `x = 0` to `x = 1` in leaf 0. -/
theorem permitted_split_files_two_witness :
    ∃ (frag1 frag2 : SpriteFrag) (headA headB : Int),
      exState.gRvDrawSubsecSprFrags[exLeaf1.vkDrawSubsecIdx.toNat]? = some headA ∧
      (exState.gRvDrawSubsecSprFrags.set exLeaf1.vkDrawSubsecIdx.toNat
        exState.gRvSpriteFrags.length)[exLeaf0.vkDrawSubsecIdx.toNat]? = some headB ∧
      RV_SpriteFrag_VisitBspNode exEnv 2 0 exFrag exState = some { exState with
        gRvSpriteFrags := exState.gRvSpriteFrags ++
          [{ frag1 with nextSubsecFragIdx := headA }, { frag2 with nextSubsecFragIdx := headB }]
        gRvDrawSubsecSprFrags :=
          (exState.gRvDrawSubsecSprFrags.set exLeaf1.vkDrawSubsecIdx.toNat
            exState.gRvSpriteFrags.length).set exLeaf0.vkDrawSubsecIdx.toNat
            (exState.gRvSpriteFrags.length + 1 : Nat) } ∧
      frag1.x1 = exFrag.x1 ∧ frag1.z1 = exFrag.z1 ∧ frag1.ul = exFrag.ul ∧
      frag2.x2 = exFrag.x2 ∧ frag2.z2 = exFrag.z2 ∧ frag2.ur = exFrag.ur ∧
      frag1.x2 = frag2.x1 ∧ frag1.z2 = frag2.z1 ∧
      (frag1.ur - frag1.ul) + (frag2.ur - frag2.ul) = exFrag.ur - exFrag.ul :=
  have hs : sideOf exEnv exNode exFrag.x1 exFrag.z1 = 1 ∧
      sideOf exEnv exNode exFrag.x2 exFrag.z2 = 0 := by
    unfold sideOf
    rw [ex_bSideOf exEnv rfl, ex_bSideOf exEnv rfl]
    norm_num [exFrag]
  permitted_split_files_two exEnv 0 0 exNode exFrag exState exLeaf1 exLeaf0
    exEnv_node.1 exEnv_node.2 (exFrag_sides exEnv rfl)
    (by rw [hs.1]; decide) (by rw [hs.1]; decide) (by rw [hs.2]; decide) (by rw [hs.2]; decide)
    (by decide) (by decide) (exEnv_splitTest _)

/-- C9: at an internal node whose two children are drawable leaves, when the endpoints
of `F` are on different sides and a leaf visited by the split test for the test line of
`F` has a seg without back sector whose linedef intersects that line,
`RV_SpriteFrag_VisitBspNode` files exactly one fragment: the store grows by `F` itself
(only its link is set), and it is made the head of the list of the child leaf on the
side of the anchor `gSpriteFragThingPos`. -/
theorem blocked_split_files_one (e : Env) (fuel : Nat) (nodeIdx : Int) (node : node_t)
    (F : SpriteFrag) (st : RvState) (leaf0 leaf1 wallLeaf : subsector_t) (i : Int)
    (seg : rvseg_t)
    (hnode : isSubsector e nodeIdx = false)
    (hget : getAt e.gpBspNodes nodeIdx = some node)
    (hc0 : isSubsector e node.children0 = true)
    (hl0 : subsectorOf e node.children0 = some leaf0)
    (hc1 : isSubsector e node.children1 = true)
    (hl1 : subsectorOf e node.children1 = some leaf1)
    (hr0 : segsInRange e leaf0 = true) (hr1 : segsInRange e leaf1 = true)
    (hd0 : drawableIn st.gRvDrawSubsecSprFrags.length leaf0 = true)
    (hd1 : drawableIn st.gRvDrawSubsecSprFrags.length leaf1 = true)
    (hsides : bSideOf e node F.x1 F.z1 ≠ bSideOf e node F.x2 F.z2)
    (hvis : wallLeaf ∈ RV_SpriteSplitTest_visited e (fuel + 2) nodeIdx
      (splitLineOf F (splitTOf e node F)))
    (hseg : segOf e wallLeaf i = some seg)
    (hone : seg.backsector = none)
    (hint : segIntersects e seg (splitLineOf F (splitTOf e node F)) = true) :
    ∃ (leaf : subsector_t) (head : Int),
      leaf = (if e.RV_FixedToFloat node.line.dx
              * (st.gSpriteFragThingPos.2.2 - e.RV_FixedToFloat node.line.y)
            < e.RV_FixedToFloat node.line.dy
              * (st.gSpriteFragThingPos.1 - e.RV_FixedToFloat node.line.x)
          then leaf0 else leaf1) ∧
      st.gRvDrawSubsecSprFrags[leaf.vkDrawSubsecIdx.toNat]? = some head ∧
      RV_SpriteFrag_VisitBspNode e (fuel + 2) nodeIdx F st = some { st with
        gRvSpriteFrags := st.gRvSpriteFrags ++ [{ F with nextSubsecFragIdx := head }]
        gRvDrawSubsecSprFrags := st.gRvDrawSubsecSprFrags.set
          leaf.vkDrawSubsecIdx.toNat st.gRvSpriteFrags.length } := by
  have hw := wellFormedBsp_two_leaves e fuel nodeIdx node leaf0 leaf1 hnode hget hc0 hl0 hc1 hl1
    hr0 hr1
  obtain ⟨b, hb⟩ := splitTest_total e (splitLineOf F (splitTOf e node F)) (fuel + 2) nodeIdx hw
  have hf := splitTest_false_of_veto e _ (fuel + 2) nodeIdx b hb wallLeaf i seg hvis hseg
    (visitSeg_one_sided e seg _ hint hone)
  subst hf
  rw [visit_denied e (fuel + 1) nodeIdx node F st hnode hget hsides hb]
  have hcond : (e.RV_FixedToFloat node.line.dx
        * (st.gSpriteFragThingPos.2.2 - e.RV_FixedToFloat node.line.y)
      < e.RV_FixedToFloat node.line.dy
        * (st.gSpriteFragThingPos.1 - e.RV_FixedToFloat node.line.x))
      ↔ bCenterSideOf e node st = true := by
    simp [bCenterSideOf, bSideOf]
  by_cases hc : bCenterSideOf e node st = true
  · obtain ⟨hd, head, hhead⟩ := drawableIn_head _ leaf0 st.gRvDrawSubsecSprFrags rfl hd0
    refine ⟨leaf0, head, by rw [if_pos (hcond.mpr hc)], hhead, ?_⟩
    rw [if_pos hc, visit_leaf e fuel _ leaf0 F st hc0 hl0,
      visitSubsector_drawable leaf0 F st head hd hhead]
  · obtain ⟨hd, head, hhead⟩ := drawableIn_head _ leaf1 st.gRvDrawSubsecSprFrags rfl hd1
    refine ⟨leaf1, head, by rw [if_neg (fun h => hc (hcond.mp h))], hhead, ?_⟩
    rw [if_neg hc, visit_leaf e fuel _ leaf1 F st hc1 hl1,
      visitSubsector_drawable leaf1 F st head hd hhead]

/-- C9, instance: in the example level with the wall, `exFrag` with the anchor at
`(-2, 1)` is filed whole in leaf 1. -/
theorem blocked_split_files_one_witness :
    ∃ (leaf : subsector_t) (head : Int),
      leaf = (if exEnvWall.RV_FixedToFloat exNode.line.dx
              * (exState.gSpriteFragThingPos.2.2 - exEnvWall.RV_FixedToFloat exNode.line.y)
            < exEnvWall.RV_FixedToFloat exNode.line.dy
              * (exState.gSpriteFragThingPos.1 - exEnvWall.RV_FixedToFloat exNode.line.x)
          then exLeaf0Wall else exLeaf1) ∧
      exState.gRvDrawSubsecSprFrags[leaf.vkDrawSubsecIdx.toNat]? = some head ∧
      RV_SpriteFrag_VisitBspNode exEnvWall 2 0 exFrag exState = some { exState with
        gRvSpriteFrags := exState.gRvSpriteFrags ++ [{ exFrag with nextSubsecFragIdx := head }]
        gRvDrawSubsecSprFrags := exState.gRvDrawSubsecSprFrags.set
          leaf.vkDrawSubsecIdx.toNat exState.gRvSpriteFrags.length } :=
  blocked_split_files_one exEnvWall 0 0 exNode exFrag exState exLeaf0Wall exLeaf1 exLeaf0Wall 0
    exWall exEnvWall_node.1 exEnvWall_node.2 (by decide) (by decide) (by decide) (by decide)
    (by decide) (by decide) (by decide) (by decide) (exFrag_sides exEnvWall rfl)
    (by rw [ex_splitTOf exEnvWall rfl, ex_splitLineOf]
        exact exTestLine_visited ▸ List.mem_cons_of_mem _ (List.mem_singleton.mpr rfl))
    exWall_seg rfl
    (by rw [ex_splitTOf exEnvWall rfl, ex_splitLineOf]; exact exWall_intersects)

/-- C10: when the sprite frame of the thing can be looked up, `RV_InitSpriteFrag`
returns a fragment whose colour is `LIGHT_INTENSTIY_MAX` on all three channels when
the frame of the thing has the `FF_FULLBRIGHT` bit set, whatever the ambient colour
passed in, and is the ambient colour `(secR, secG, secB)` when the bit is not set. The
constant is assumed to fit the 8 bit channel. -/
theorem fullbright_colour (te : ThingEnv) (thing : mobj_t) (thingX thingY thingZ : Int)
    (secR secG secB : Nat) (spriteDef : spritedef_t) (frame : spriteframe_t)
    (tex : texture_t) (bFlipSprite : Bool)
    (hdef : te.gSprites[thing.sprite]? = some spriteDef)
    (hframe : spriteDef.spriteframes[thing.frame &&& te.FF_FRAMEMASK]? = some frame)
    (hcache : RV_CacheThingSpriteFrame te thingX thingY thing.angle frame
      = some (tex, bFlipSprite))
    (hmax : te.LIGHT_INTENSTIY_MAX < 256) :
    ∃ F, RV_InitSpriteFrag te thing thingX thingY thingZ secR secG secB = some F ∧
      (thing.frame &&& te.FF_FULLBRIGHT ≠ 0 →
        F.colR = te.LIGHT_INTENSTIY_MAX ∧ F.colG = te.LIGHT_INTENSTIY_MAX ∧
        F.colB = te.LIGHT_INTENSTIY_MAX) ∧
      (thing.frame &&& te.FF_FULLBRIGHT = 0 →
        F.colR = secR ∧ F.colG = secG ∧ F.colB = secB) := by
  obtain ⟨F, hF, hcol⟩ := initSpriteFrag_colour te thing thingX thingY thingZ secR secG secB
    spriteDef frame tex bFlipSprite hdef hframe hcache
  refine ⟨F, hF, ?_, ?_⟩
  · intro hbit
    rw [if_pos hbit, Nat.mod_eq_of_lt hmax] at hcol
    simp only [Prod.mk.injEq] at hcol
    exact hcol
  · intro hbit
    rw [if_neg (not_not.mpr hbit)] at hcol
    simp only [Prod.mk.injEq] at hcol
    exact hcol

/-- C10, instance: a full bright thing in ambient colour `(10, 20, 30)` gets the colour
`(160, 160, 160)`, and a thing without the bit would get the ambient colour. -/
theorem fullbright_colour_witness :
    ∃ F, RV_InitSpriteFrag exThingEnv exThingBright 65536 65536 0 10 20 30 = some F ∧
      (exThingBright.frame &&& exThingEnv.FF_FULLBRIGHT ≠ 0 →
        F.colR = exThingEnv.LIGHT_INTENSTIY_MAX ∧ F.colG = exThingEnv.LIGHT_INTENSTIY_MAX ∧
        F.colB = exThingEnv.LIGHT_INTENSTIY_MAX) ∧
      (exThingBright.frame &&& exThingEnv.FF_FULLBRIGHT = 0 →
        F.colR = 10 ∧ F.colG = 20 ∧ F.colB = 30) :=
  fullbright_colour exThingEnv exThingBright 65536 65536 0 10 20 30
    { spriteframes := [exFrame] } exFrame (exTex 7) false (by decide) (by decide)
    (by decide) (by decide)

/-- C11: when the sprite frame of the thing can be looked up, `RV_InitSpriteFrag`
chooses the pipeline and the semi-transparency multiplier (R, G, B, A) from the flags
of the thing by the first match in this order: `MF_BLEND_MODE_BIT1` and
`MF_BLEND_MODE_BIT2` set give additive with (32, 32, 32, 128); `BIT1` set and `BIT2`
clear give additive with (128, 128, 128, 128); else `BIT2` set gives subtractive with
(128, 128, 128, 128); else `MF_BLEND_ON` set gives alpha with (128, 128, 128, 64);
else masked with (128, 128, 128, 128). When `BIT1` or `BIT2` is set, another value of
the flags with the same `BIT1` and `BIT2` tests gives the same result, whatever its
`MF_BLEND_ON`. -/
theorem blend_mode_priority (te : ThingEnv) (thing : mobj_t) (thingX thingY thingZ : Int)
    (secR secG secB : Nat) (spriteDef : spritedef_t) (frame : spriteframe_t)
    (tex : texture_t) (bFlipSprite : Bool)
    (hdef : te.gSprites[thing.sprite]? = some spriteDef)
    (hframe : spriteDef.spriteframes[thing.frame &&& te.FF_FRAMEMASK]? = some frame)
    (hcache : RV_CacheThingSpriteFrame te thingX thingY thing.angle frame
      = some (tex, bFlipSprite)) :
    ∃ F, RV_InitSpriteFrag te thing thingX thingY thingZ secR secG secB = some F ∧
      (thing.flags &&& te.MF_BLEND_MODE_BIT1 ≠ 0 → thing.flags &&& te.MF_BLEND_MODE_BIT2 ≠ 0 →
        (F.drawPipeline, F.stMulR, F.stMulG, F.stMulB, F.stMulA) =
          (VPipelineType.World_SpriteAdditive, 32, 32, 32, 128)) ∧
      (thing.flags &&& te.MF_BLEND_MODE_BIT1 ≠ 0 → thing.flags &&& te.MF_BLEND_MODE_BIT2 = 0 →
        (F.drawPipeline, F.stMulR, F.stMulG, F.stMulB, F.stMulA) =
          (VPipelineType.World_SpriteAdditive, 128, 128, 128, 128)) ∧
      (thing.flags &&& te.MF_BLEND_MODE_BIT1 = 0 → thing.flags &&& te.MF_BLEND_MODE_BIT2 ≠ 0 →
        (F.drawPipeline, F.stMulR, F.stMulG, F.stMulB, F.stMulA) =
          (VPipelineType.World_SpriteSubtractive, 128, 128, 128, 128)) ∧
      (thing.flags &&& te.MF_BLEND_MODE_BIT1 = 0 → thing.flags &&& te.MF_BLEND_MODE_BIT2 = 0 →
        thing.flags &&& te.MF_BLEND_ON ≠ 0 →
        (F.drawPipeline, F.stMulR, F.stMulG, F.stMulB, F.stMulA) =
          (VPipelineType.World_SpriteAlpha, 128, 128, 128, 64)) ∧
      (thing.flags &&& te.MF_BLEND_MODE_BIT1 = 0 → thing.flags &&& te.MF_BLEND_MODE_BIT2 = 0 →
        thing.flags &&& te.MF_BLEND_ON = 0 →
        (F.drawPipeline, F.stMulR, F.stMulG, F.stMulB, F.stMulA) =
          (VPipelineType.World_SpriteMasked, 128, 128, 128, 128)) ∧
      (∀ flags' : Nat,
        (flags' &&& te.MF_BLEND_MODE_BIT1 ≠ 0 ↔ thing.flags &&& te.MF_BLEND_MODE_BIT1 ≠ 0) →
        (flags' &&& te.MF_BLEND_MODE_BIT2 ≠ 0 ↔ thing.flags &&& te.MF_BLEND_MODE_BIT2 ≠ 0) →
        (thing.flags &&& te.MF_BLEND_MODE_BIT1 ≠ 0
          ∨ thing.flags &&& te.MF_BLEND_MODE_BIT2 ≠ 0) →
        ∃ F', RV_InitSpriteFrag te { thing with flags := flags' } thingX thingY thingZ
            secR secG secB = some F' ∧
          (F'.drawPipeline, F'.stMulR, F'.stMulG, F'.stMulB, F'.stMulA) =
            (F.drawPipeline, F.stMulR, F.stMulG, F.stMulB, F.stMulA)) := by
  obtain ⟨F, hF, hb⟩ := initSpriteFrag_blend te thing thingX thingY thingZ secR secG secB
    spriteDef frame tex bFlipSprite hdef hframe hcache
  refine ⟨F, hF, ?_, ?_, ?_, ?_, ?_, ?_⟩
  · intro h1 h2; rw [hb, if_pos h1, if_pos h2]
  · intro h1 h2; rw [hb, if_pos h1, if_neg (not_not.mpr h2)]
  · intro h1 h2; rw [hb, if_neg (not_not.mpr h1), if_pos h2]
  · intro h1 h2 h3; rw [hb, if_neg (not_not.mpr h1), if_neg (not_not.mpr h2), if_pos h3]
  · intro h1 h2 h3
    rw [hb, if_neg (not_not.mpr h1), if_neg (not_not.mpr h2), if_neg (not_not.mpr h3)]
  · intro flags' e1 e2 hset
    obtain ⟨F', hF', hb'⟩ := initSpriteFrag_blend te { thing with flags := flags' }
      thingX thingY thingZ secR secG secB spriteDef frame tex bFlipSprite hdef hframe hcache
    refine ⟨F', hF', ?_⟩
    rw [hb', hb]
    simp only [e1, e2]
    by_cases h1 : thing.flags &&& te.MF_BLEND_MODE_BIT1 ≠ 0
    · simp only [if_pos h1]
    · by_cases h2 : thing.flags &&& te.MF_BLEND_MODE_BIT2 ≠ 0
      · simp only [if_neg h1, if_pos h2]
      · exact absurd hset (not_or.mpr ⟨h1, h2⟩)

/-- C11, instance: a thing with both blend mode bits and `MF_BLEND_ON` set is drawn
additive with the multiplier (32, 32, 32, 128). -/
theorem blend_mode_priority_witness :
    ∃ F, RV_InitSpriteFrag exThingEnv exThingBlend 65536 65536 0 10 20 30 = some F ∧
      (F.drawPipeline, F.stMulR, F.stMulG, F.stMulB, F.stMulA) =
        (VPipelineType.World_SpriteAdditive, 32, 32, 32, 128) := by
  obtain ⟨F, hF, h1, _⟩ := blend_mode_priority exThingEnv exThingBlend 65536 65536 0 10 20 30
    { spriteframes := [exFrame] } exFrame (exTex 7) false (by decide) (by decide) (by decide)
  exact ⟨F, hF, h1 (by decide) (by decide)⟩

/-- C12: every fragment that `RV_SpriteFrag_VisitBspNode` files (appends to the store)
has the depth, `yt`, `yb`, `vt`, `vb`, pipeline, colour, semi-transparency multiplier
and texture window of the fragment `F` it was started with, however many splits
produced it; and on a well formed BSP tree the traversal returns. -/
theorem pieces_keep_attributes (e : Env) (fuel : Nat) (nodeIdx : Int) (F : SpriteFrag)
    (st : RvState) :
    (∀ st', RV_SpriteFrag_VisitBspNode e fuel nodeIdx F st = some st' →
      ∃ pieces : List SpriteFrag,
        st'.gRvSpriteFrags = st.gRvSpriteFrags ++ pieces ∧ ∀ P ∈ pieces, SameAttrs F P) ∧
    (wellFormedFileBsp e st.gRvDrawSubsecSprFrags.length fuel nodeIdx = true →
      ∃ st', RV_SpriteFrag_VisitBspNode e fuel nodeIdx F st = some st') := by
  refine ⟨?_, visit_total e fuel nodeIdx F st⟩
  intro st' h
  obtain ⟨pieces, h1, h2, _⟩ := visit_pieces e (SameAttrs F) (fun _ _ hP => hP)
    (fun _ _ _ _ hP => ⟨hP, hP⟩) fuel nodeIdx F st st' (sameAttrs_refl F) h
  exact ⟨pieces, h1, h2⟩

/-- C12, instance: the pieces of `exFrag` filed in the example level. -/
theorem pieces_keep_attributes_witness :
    ∃ (st' : RvState) (pieces : List SpriteFrag),
      RV_SpriteFrag_VisitBspNode exEnv 2 0 exFrag exState = some st' ∧
      st'.gRvSpriteFrags = exState.gRvSpriteFrags ++ pieces ∧
      ∀ P ∈ pieces, SameAttrs exFrag P := by
  obtain ⟨h1, h2⟩ := pieces_keep_attributes exEnv 2 0 exFrag exState
  obtain ⟨st', hst'⟩ := h2 (by decide)
  obtain ⟨pieces, hp⟩ := h1 st' hst'
  exact ⟨st', pieces, hst', hp⟩

/-- C13: every fragment `P` that `RV_SpriteFrag_VisitBspNode` files is `F` restricted by
one interpolation in world space and in texture space: there are parameters
`0 ≤ a ≤ b ≤ 1` such that `(P.x1, P.z1, P.ul)` is `(F.x1, F.z1, F.ul)` and
`(F.x2, F.z2, F.ur)` interpolated at `a`, and `(P.x2, P.z2, P.ur)` is the same
interpolation at `b`; and on a well formed BSP tree the traversal returns. -/
theorem pieces_interpolate_uniformly (e : Env) (fuel : Nat) (nodeIdx : Int)
    (F : SpriteFrag) (st : RvState) :
    (∀ st', RV_SpriteFrag_VisitBspNode e fuel nodeIdx F st = some st' →
      ∃ pieces : List SpriteFrag,
        st'.gRvSpriteFrags = st.gRvSpriteFrags ++ pieces ∧
        ∀ P ∈ pieces, ∃ a b : ℚ, 0 ≤ a ∧ a ≤ b ∧ b ≤ 1 ∧
          P.x1 = (1 - a) * F.x1 + a * F.x2 ∧ P.z1 = (1 - a) * F.z1 + a * F.z2 ∧
          P.ul = (1 - a) * F.ul + a * F.ur ∧
          P.x2 = (1 - b) * F.x1 + b * F.x2 ∧ P.z2 = (1 - b) * F.z1 + b * F.z2 ∧
          P.ur = (1 - b) * F.ul + b * F.ur) ∧
    (wellFormedFileBsp e st.gRvDrawSubsecSprFrags.length fuel nodeIdx = true →
      ∃ st', RV_SpriteFrag_VisitBspNode e fuel nodeIdx F st = some st') := by
  refine ⟨?_, visit_total e fuel nodeIdx F st⟩
  intro st' h
  obtain ⟨pieces, h1, h2, _⟩ := visit_pieces e
    (fun P => ∃ a b : ℚ, 0 ≤ a ∧ a ≤ b ∧ b ≤ 1 ∧ IsPiece F P a b)
    (fun _ _ hP => hP)
    (fun P t ht0 ht1 hP => by
      obtain ⟨a, b, ha, hab, hb, hP⟩ := hP
      obtain ⟨hm1, hm2⟩ := cut_between a b t hab ht0 ht1
      exact ⟨⟨a, _, ha, hm1, le_trans hm2 hb, isPiece_frag1 F P a b t hP⟩,
        ⟨_, b, le_trans ha hm1, hm2, hb, isPiece_frag2 F P a b t hP⟩⟩)
    fuel nodeIdx F st st' ⟨0, 1, le_refl 0, zero_le_one, le_refl 1, isPiece_self F⟩ h
  refine ⟨pieces, h1, ?_⟩
  intro P hP
  obtain ⟨a, b, ha, hab, hb, p1, p2, p3, p4, p5, p6⟩ := h2 P hP
  refine ⟨a, b, ha, hab, hb, ?_, ?_, ?_, ?_, ?_, ?_⟩
  · rw [p1]; ring
  · rw [p2]; ring
  · rw [p3]; ring
  · rw [p4]; ring
  · rw [p5]; ring
  · rw [p6]; ring

/-- C13, instance: the pieces of `exFrag` filed in the example level. -/
theorem pieces_interpolate_uniformly_witness :
    ∃ (st' : RvState) (pieces : List SpriteFrag),
      RV_SpriteFrag_VisitBspNode exEnv 2 0 exFrag exState = some st' ∧
      st'.gRvSpriteFrags = exState.gRvSpriteFrags ++ pieces ∧
      ∀ P ∈ pieces, ∃ a b : ℚ, 0 ≤ a ∧ a ≤ b ∧ b ≤ 1 ∧
        P.x1 = (1 - a) * exFrag.x1 + a * exFrag.x2 ∧
        P.z1 = (1 - a) * exFrag.z1 + a * exFrag.z2 ∧
        P.ul = (1 - a) * exFrag.ul + a * exFrag.ur ∧
        P.x2 = (1 - b) * exFrag.x1 + b * exFrag.x2 ∧
        P.z2 = (1 - b) * exFrag.z1 + b * exFrag.z2 ∧
        P.ur = (1 - b) * exFrag.ul + b * exFrag.ur := by
  obtain ⟨h1, h2⟩ := pieces_interpolate_uniformly exEnv 2 0 exFrag exState
  obtain ⟨st', hst'⟩ := h2 (by decide)
  obtain ⟨pieces, hp⟩ := h1 st' hst'
  exact ⟨st', pieces, hst', hp⟩

/-- C14: `RV_SpriteFrag_VisitSubsector` files a fragment exactly when the leaf is
drawable. When `vkDrawSubsecIdx` is negative the state is returned unchanged. Otherwise
(the index being inside the list of heads) exactly one entry is appended to the store,
the given fragment with its link set to the previous head of the leaf; the head of the
leaf becomes the index of the new entry and every other head stays; and the list of the
leaf walked from its new head is the new fragment followed by the list as it was. -/
theorem visitSubsector_files_iff_drawable (subsec : subsector_t) (F : SpriteFrag)
    (st : RvState) :
    (subsec.vkDrawSubsecIdx < 0 → RV_SpriteFrag_VisitSubsector subsec F st = some st) ∧
    (∀ head : Int, 0 ≤ subsec.vkDrawSubsecIdx →
      st.gRvDrawSubsecSprFrags[subsec.vkDrawSubsecIdx.toNat]? = some head →
      ∃ st', RV_SpriteFrag_VisitSubsector subsec F st = some st' ∧
        st'.gRvSpriteFrags = st.gRvSpriteFrags ++ [{ F with nextSubsecFragIdx := head }] ∧
        st'.gRvDrawSubsecSprFrags[subsec.vkDrawSubsecIdx.toNat]? =
          some (st.gRvSpriteFrags.length : Int) ∧
        st'.gRvDrawSubsecSprFrags.length = st.gRvDrawSubsecSprFrags.length ∧
        (∀ d : Nat, d ≠ subsec.vkDrawSubsecIdx.toNat →
          st'.gRvDrawSubsecSprFrags[d]? = st.gRvDrawSubsecSprFrags[d]?) ∧
        st'.gRvSortedFrags = st.gRvSortedFrags ∧
        st'.gSpriteFragThingPos = st.gSpriteFragThingPos ∧
        (∀ (fuel : Nat) (walk : List (Nat × SpriteFrag)),
          leafList st.gRvSpriteFrags fuel head = some walk →
          leafList st'.gRvSpriteFrags (fuel + 1) (st.gRvSpriteFrags.length : Int) =
            some ((st.gRvSpriteFrags.length, { F with nextSubsecFragIdx := head }) :: walk))) := by
  refine ⟨visitSubsector_not_drawn subsec F st, ?_⟩
  intro head hd hhead
  have hlt : subsec.vkDrawSubsecIdx.toNat < st.gRvDrawSubsecSprFrags.length := by
    by_contra hc
    rw [List.getElem?_eq_none (not_lt.mp hc)] at hhead
    exact absurd hhead (by simp)
  refine ⟨_, visitSubsector_drawable subsec F st head hd hhead, rfl, ?_, by simp, ?_, rfl, rfl,
    ?_⟩
  · simp [List.getElem?_set, hlt]
  · intro d hne
    simp [List.getElem?_set, Ne.symm hne]
  · intro fuel walk hwalk
    exact leafList_filed st.gRvSpriteFrags F head fuel walk hwalk

/-- C14, instance: a leaf that is not drawn drops `exFrag`, and leaf 0 of the example
level files it as entry 0 at the head of its empty list. -/
theorem visitSubsector_files_iff_drawable_witness :
    RV_SpriteFrag_VisitSubsector exLeafHidden exFrag exState = some exState ∧
    ∃ st', RV_SpriteFrag_VisitSubsector exLeaf0 exFrag exState = some st' ∧
      st'.gRvSpriteFrags = [exFrag] ∧ st'.gRvDrawSubsecSprFrags = [0, -1] ∧
      leafList st'.gRvSpriteFrags 1 0 = some [(0, exFrag)] := by
  refine ⟨(visitSubsector_files_iff_drawable exLeafHidden exFrag exState).1 (by decide), ?_⟩
  obtain ⟨st', h1, h2, _, _, _, _, _, h8⟩ :=
    (visitSubsector_files_iff_drawable exLeaf0 exFrag exState).2 (-1) (by decide) (by decide)
  refine ⟨st', h1, h2, ?_, h8 0 [] (by decide)⟩
  rw [visitSubsector_drawable exLeaf0 exFrag exState (-1) (by decide) (by decide)] at h1
  cases h1
  rfl

/-- C15: in every state reached from the reset of `RV_BuildSpriteFragLists` by any
sequence of traversals of `RV_SpriteFrag_VisitBspNode`, every fragment of the store is
filed under exactly one draw subsector: the lists of all draw subsectors can be walked,
the indices on them are together the indices of the store, each once; so each store
index is on the list of one draw subsector, once, and on no other list. -/
theorem every_fragment_filed_once (e : Env) (st : RvState) (h : Reachable e st) :
    (∀ head ∈ st.gRvDrawSubsecSprFrags,
      ∃ walk, leafList st.gRvSpriteFrags st.gRvSpriteFrags.length head = some walk) ∧
    (((listsOf st).flatten).map Prod.fst).Perm (List.range st.gRvSpriteFrags.length) ∧
    ∀ j : Nat, j < st.gRvSpriteFrags.length →
      ∃ (d : Nat) (head : Int) (walk : List (Nat × SpriteFrag)),
        st.gRvDrawSubsecSprFrags[d]? = some head ∧
        leafList st.gRvSpriteFrags st.gRvSpriteFrags.length head = some walk ∧
        (walk.map Prod.fst).count j = 1 ∧
        ∀ (d' : Nat) (head' : Int) (walk' : List (Nat × SpriteFrag)), d' ≠ d →
          st.gRvDrawSubsecSprFrags[d']? = some head' →
          leafList st.gRvSpriteFrags st.gRvSpriteFrags.length head' = some walk' →
          j ∉ walk'.map Prod.fst := by
  have hI := filedOnce_reachable e st h
  exact ⟨hI.1, hI.2, fun j hj => filedOnce_unique st hI j hj⟩

/-- C15, instance: the state after the reset and one traversal with `exFrag` in the
example level. -/
theorem every_fragment_filed_once_witness :
    ∃ st', RV_SpriteFrag_VisitBspNode exEnv 2 0 exFrag
        (RV_BuildSpriteFragLists_reset exEnv exState) = some st' ∧
      ∀ j : Nat, j < st'.gRvSpriteFrags.length →
        ∃ (d : Nat) (head : Int) (walk : List (Nat × SpriteFrag)),
          st'.gRvDrawSubsecSprFrags[d]? = some head ∧
          leafList st'.gRvSpriteFrags st'.gRvSpriteFrags.length head = some walk ∧
          (walk.map Prod.fst).count j = 1 ∧
          ∀ (d' : Nat) (head' : Int) (walk' : List (Nat × SpriteFrag)), d' ≠ d →
            st'.gRvDrawSubsecSprFrags[d']? = some head' →
            leafList st'.gRvSpriteFrags st'.gRvSpriteFrags.length head' = some walk' →
            j ∉ walk'.map Prod.fst := by
  obtain ⟨st', hst'⟩ := visit_total exEnv 2 0 exFrag
    (RV_BuildSpriteFragLists_reset exEnv exState) (by decide)
  exact ⟨st', hst', (every_fragment_filed_once exEnv st'
    (Reachable.visit _ st' 2 0 exFrag (Reachable.reset exState) hst')).2.2⟩

/-- C16: for a store whose links descend, entered with the scratch list empty and a
valid draw subsector index, `RV_DrawSubsecSpriteFrags` (with the size of the store as
fuel) returns; the sequence it draws is a permutation of the list of the leaf walked
from its head, whose elements are distinct fragments of the store, so each fragment of
the list is drawn exactly once and nothing else is drawn; and the state on return is
the state on entry: the scratch list is empty again, the store and the list heads are
unchanged. -/
theorem draw_is_permutation (e : Env) (drawSubsecIdx : Int) (st : RvState)
    (hlinks : LinksDescend st) (hempty : st.gRvSortedFrags = [])
    (hidx : 0 ≤ drawSubsecIdx ∧ drawSubsecIdx.toNat < e.gRvDrawSubsecs.length)
    (hheads : st.gRvDrawSubsecSprFrags.length = e.gRvDrawSubsecs.length) :
    ∃ (head : Int) (walk drawn : List (Nat × SpriteFrag)),
      getAt st.gRvDrawSubsecSprFrags drawSubsecIdx = some head ∧
      leafList st.gRvSpriteFrags st.gRvSpriteFrags.length head = some walk ∧
      RV_DrawSubsecSpriteFrags e st.gRvSpriteFrags.length drawSubsecIdx st =
        some (drawn, st) ∧
      drawn.Perm walk ∧
      (walk.map Prod.fst).Nodup ∧
      (∀ p ∈ walk, st.gRvSpriteFrags[p.1]? = some p.2) ∧
      st.gRvSortedFrags = [] := by
  obtain ⟨drawn, st', hdraw⟩ := draw_total e drawSubsecIdx st hlinks hempty hidx hheads
  obtain ⟨_, head, walk, hhead, hwalk, hdrawn, hst'⟩ :=
    draw_eq e _ drawSubsecIdx st drawn st' hdraw
  have hst : st' = st := by
    rw [hst', ← hempty]
  obtain ⟨hel, hnd⟩ := leafList_elems st.gRvSpriteFrags _ head walk hwalk
  refine ⟨head, walk, drawn, hhead, hwalk, ?_, ?_, (hnd hlinks.1).2, hel, hempty⟩
  · rw [hdraw, hst]
  · rw [hdrawn]
    exact stable_sort_perm depthComp walk

/-- C16, instance: the list `2 → 1 → 0` of the example store is drawn as 1, 2, 0 and
the state is returned as it was. -/
theorem draw_is_permutation_witness :
    ∃ (head : Int) (walk drawn : List (Nat × SpriteFrag)),
      getAt exStoreState.gRvDrawSubsecSprFrags 0 = some head ∧
      leafList exStoreState.gRvSpriteFrags exStoreState.gRvSpriteFrags.length head
        = some walk ∧
      RV_DrawSubsecSpriteFrags exEnv exStoreState.gRvSpriteFrags.length 0 exStoreState =
        some (drawn, exStoreState) ∧
      drawn.Perm walk ∧
      (walk.map Prod.fst).Nodup ∧
      (∀ p ∈ walk, exStoreState.gRvSpriteFrags[p.1]? = some p.2) ∧
      exStoreState.gRvSortedFrags = [] :=
  draw_is_permutation exEnv 0 exStoreState
    ⟨by
      intro j frag hj
      have hlt : j < 3 := by
        by_contra hc
        rw [List.getElem?_eq_none (by simpa [exStoreState] using hc)] at hj
        exact absurd hj (by simp)
      interval_cases j <;> simp [exStoreState] at hj <;> subst hj <;> decide,
     by decide⟩
    rfl (by decide) (by decide)

/-- C17: when `NF_SUBSECTOR` is a non zero 32 bit mask, the node index `-1` is treated
as leaf 0 by both walkers: `RV_SpriteSplitTest_VisitBspNode` at `-1` is the test of
`gpSubsectors[0]`, and `RV_SpriteFrag_VisitBspNode` at `-1` is the filing of the
fragment in `gpSubsectors[0]`. Every other index with the `NF_SUBSECTOR` bit set is
treated as the leaf `gpSubsectors[nodeIdx & ~NF_SUBSECTOR]`, an index that has none of
the bits of `NF_SUBSECTOR` and otherwise the bits of `nodeIdx`. -/
theorem minus_one_is_leaf_zero (e : Env) (fuel : Nat) (line : SplitTestLine)
    (F : SpriteFrag) (st : RvState) (hNF : e.NF_SUBSECTOR % 4294967296 ≠ 0) :
    RV_SpriteSplitTest_VisitBspNode e (fuel + 1) (-1) line =
      (e.gpSubsectors[0]?).bind
        (fun subsec => RV_SpriteSplitTest_VisitSubsector e subsec line) ∧
    RV_SpriteFrag_VisitBspNode e (fuel + 1) (-1) F st =
      (e.gpSubsectors[0]?).bind (fun subsec => RV_SpriteFrag_VisitSubsector subsec F st) ∧
    (∀ nodeIdx : Int, nodeIdx ≠ -1 → isSubsector e nodeIdx = true →
      RV_SpriteSplitTest_VisitBspNode e (fuel + 1) nodeIdx line =
        (e.gpSubsectors[subsecIdx e nodeIdx]?).bind
          (fun subsec => RV_SpriteSplitTest_VisitSubsector e subsec line) ∧
      RV_SpriteFrag_VisitBspNode e (fuel + 1) nodeIdx F st =
        (e.gpSubsectors[subsecIdx e nodeIdx]?).bind
          (fun subsec => RV_SpriteFrag_VisitSubsector subsec F st) ∧
      subsecIdx e nodeIdx &&& e.NF_SUBSECTOR = 0 ∧
      subsecIdx e nodeIdx ||| (toU32 nodeIdx &&& e.NF_SUBSECTOR) = toU32 nodeIdx) := by
  have hm := isSubsector_neg_one e hNF
  refine ⟨?_, ?_, ?_⟩
  · rw [RV_SpriteSplitTest_VisitBspNode]
    simp only [hm, if_true, subsectorOf]
    cases e.gpSubsectors[0]? <;> rfl
  · rw [RV_SpriteFrag_VisitBspNode]
    simp only [hm, if_true, subsectorOf]
    cases e.gpSubsectors[0]? <;> rfl
  · intro nodeIdx hne hs
    refine ⟨?_, ?_, subsecIdx_land e nodeIdx, subsecIdx_lor e nodeIdx⟩
    · rw [RV_SpriteSplitTest_VisitBspNode]
      simp only [hs, if_true, subsectorOf, if_neg hne]
      cases e.gpSubsectors[subsecIdx e nodeIdx]? <;> rfl
    · rw [RV_SpriteFrag_VisitBspNode]
      simp only [hs, if_true, subsectorOf, if_neg hne]
      cases e.gpSubsectors[subsecIdx e nodeIdx]? <;> rfl

/-- C17, instance: in the example level a fragment sent to node index `-1` is filed in
leaf 0, like one sent to the leaf marker `32768`. -/
theorem minus_one_is_leaf_zero_witness :
    RV_SpriteFrag_VisitBspNode exEnv 1 (-1) exFrag exState =
      RV_SpriteFrag_VisitSubsector exLeaf0 exFrag exState ∧
    RV_SpriteSplitTest_VisitBspNode exEnv 1 (-1) exTestLine =
      RV_SpriteSplitTest_VisitSubsector exEnv exLeaf0 exTestLine ∧
    subsecIdx exEnv 32768 = 0 :=
  have h := minus_one_is_leaf_zero exEnv 0 exTestLine exFrag exState (by decide)
  ⟨h.2.1, h.1, by decide⟩

/-- C18: for a seg with a back sector whose linedef intersects the test line, whose
line has neither `ML_MIDMASKED` nor `ML_MIDTRANSLUCENT` set and which has
`SGF_VISIBLE_COLS` set, `RV_SpriteSplitTest_VisitSeg` returns `true` exactly when the
height `y` of the test line lies between the higher of the two floors and the lower
of the two ceilings (as converted by `RV_FixedToFloat`), both bounds included. -/
theorem solid_two_sided_seg_height_test (e : Env) (seg : rvseg_t) (line : SplitTestLine)
    (back : sector_t)
    (hback : seg.backsector = some back)
    (hint : segIntersects e seg line = true)
    (hmasked : seg.linedef.flags &&& e.ML_MIDMASKED = 0)
    (htrans : seg.linedef.flags &&& e.ML_MIDTRANSLUCENT = 0)
    (hvis : seg.flags &&& e.SGF_VISIBLE_COLS ≠ 0) :
    RV_SpriteSplitTest_VisitSeg e seg line = true ↔
      e.RV_FixedToFloat (max seg.frontsector.floorDrawH back.floorDrawH) ≤ line.y ∧
      line.y ≤ e.RV_FixedToFloat (min seg.frontsector.ceilingDrawH back.ceilingDrawH) := by
  rw [visitSeg_two_sided e seg line back hint hback,
    if_neg (not_not.mpr ((land_lor_eq_zero_iff _ _ _).mpr ⟨hmasked, htrans⟩)), if_neg hvis]
  simp

/-- C18, instance: the step `exStep` has its opening from 16 to 96; the test line at
height 5 is not permitted, and it would be exactly for heights from 16 to 96. -/
theorem solid_two_sided_seg_height_test_witness :
    (RV_SpriteSplitTest_VisitSeg exEnv exStep exTestLine = true ↔
      exEnv.RV_FixedToFloat (max exStep.frontsector.floorDrawH 1048576) ≤ exTestLine.y ∧
      exTestLine.y ≤ exEnv.RV_FixedToFloat (min exStep.frontsector.ceilingDrawH 6291456)) ∧
    exEnv.RV_FixedToFloat (max exStep.frontsector.floorDrawH 1048576) = 16 ∧
    exEnv.RV_FixedToFloat (min exStep.frontsector.ceilingDrawH 6291456) = 96 :=
  ⟨solid_two_sided_seg_height_test exEnv exStep exTestLine
      { floorDrawH := 1048576, ceilingDrawH := 6291456 } rfl
      (ex_intersects exStep ⟨rfl, rfl⟩) (by decide) (by decide) (by decide),
    by norm_num [exEnv, exStep, exWall], by norm_num [exEnv, exStep, exWall]⟩

/-- C19: for a seg with a back sector whose linedef intersects the test line and whose
line has `ML_MIDMASKED` or `ML_MIDTRANSLUCENT` set, `RV_SpriteSplitTest_VisitSeg`
returns `false`, for every height of the test line, all sector heights, and whether or
not `SGF_VISIBLE_COLS` is set. -/
theorem masked_two_sided_seg_vetoes (e : Env) (seg : rvseg_t) (line : SplitTestLine)
    (back : sector_t)
    (hback : seg.backsector = some back)
    (hint : segIntersects e seg line = true)
    (hflag : seg.linedef.flags &&& e.ML_MIDMASKED ≠ 0 ∨
      seg.linedef.flags &&& e.ML_MIDTRANSLUCENT ≠ 0) :
    RV_SpriteSplitTest_VisitSeg e seg line = false := by
  rw [visitSeg_two_sided e seg line back hint hback, if_pos]
  intro h
  rw [land_lor_eq_zero_iff] at h
  rcases hflag with hf | hf
  · exact hf h.1
  · exact hf h.2

/-- C19, instance: the masked seg `exMasked`, whose `SGF_VISIBLE_COLS` is unset. -/
theorem masked_two_sided_seg_vetoes_witness :
    exMasked.flags &&& exEnv.SGF_VISIBLE_COLS = 0 ∧
    RV_SpriteSplitTest_VisitSeg exEnv exMasked exTestLine = false :=
  ⟨by decide, masked_two_sided_seg_vetoes exEnv exMasked exTestLine
    { floorDrawH := 0, ceilingDrawH := 8388608 } rfl (ex_intersects exMasked ⟨rfl, rfl⟩)
    (Or.inl (by decide))⟩

/-- C20, as stated, fails: the seg `exMasked` has a back sector and its
`SGF_VISIBLE_COLS` flag is unset, its line has `ML_MIDMASKED` set and intersects the
test line, and `RV_SpriteSplitTest_VisitSeg` returns `false`. -/
theorem hidden_seg_not_always_permitted :
    exMasked.backsector ≠ none ∧ exMasked.flags &&& exEnv.SGF_VISIBLE_COLS = 0 ∧
    RV_SpriteSplitTest_VisitSeg exEnv exMasked exTestLine = false :=
  ⟨by decide, by decide, by
    rw [visitSeg_two_sided exEnv exMasked exTestLine _ (ex_intersects exMasked ⟨rfl, rfl⟩) rfl]
    decide⟩

/-- C20, amended: a seg with a back sector whose `SGF_VISIBLE_COLS` flag is unset is
permitted by `RV_SpriteSplitTest_VisitSeg`, for every test line and all sector
heights, except when its linedef intersects the test line and its line has
`ML_MIDMASKED` or `ML_MIDTRANSLUCENT` set; in that case the result is `false`. -/
theorem hidden_two_sided_seg_permits (e : Env) (seg : rvseg_t) (line : SplitTestLine)
    (back : sector_t)
    (hback : seg.backsector = some back)
    (hvis : seg.flags &&& e.SGF_VISIBLE_COLS = 0) :
    RV_SpriteSplitTest_VisitSeg e seg line =
      !(segIntersects e seg line &&
        decide (seg.linedef.flags &&& e.ML_MIDMASKED ≠ 0 ∨
          seg.linedef.flags &&& e.ML_MIDTRANSLUCENT ≠ 0)) := by
  cases hint : segIntersects e seg line with
  | false => simp [visitSeg_of_not_intersects e seg line hint]
  | true =>
    rw [visitSeg_two_sided e seg line back hint hback]
    by_cases hm : seg.linedef.flags &&& (e.ML_MIDMASKED ||| e.ML_MIDTRANSLUCENT) = 0
    · rw [if_neg (not_not.mpr hm), if_pos hvis]
      rw [land_lor_eq_zero_iff] at hm
      simp [hm.1, hm.2]
    · rw [if_pos hm]
      rw [land_lor_eq_zero_iff, not_and_or] at hm
      simp [hm]

/-- C20, amended, instance: the seg `exHidden` has no line flags and is permitted for
the test line that crosses it, although its sectors leave no opening. -/
theorem hidden_two_sided_seg_permits_witness :
    segIntersects exEnv exHidden exTestLine = true ∧
    RV_SpriteSplitTest_VisitSeg exEnv exHidden exTestLine = true := by
  have h := hidden_two_sided_seg_permits exEnv exHidden exTestLine
    { floorDrawH := 8388608, ceilingDrawH := 0 } rfl (by decide)
  refine ⟨ex_intersects exHidden ⟨rfl, rfl⟩, ?_⟩
  rw [h, ex_intersects exHidden ⟨rfl, rfl⟩]
  decide

/-- C21: at a leaf whose segs lie inside `gpRvSegs` the split test is the conjunction
over the segs of the leaf: `RV_SpriteSplitTest_VisitSubsector` returns a result, and it
is `true` exactly when `RV_SpriteSplitTest_VisitSeg` is `true` for every one of the
`numsegs` segs from `firstseg` on. In particular a leaf without segs is permitted, and
one seg that vetoes makes the result `false`. -/
theorem leaf_test_is_conjunction (e : Env) (subsec : subsector_t) (line : SplitTestLine)
    (hr : segsInRange e subsec = true) :
    (∃ b, RV_SpriteSplitTest_VisitSubsector e subsec line = some b) ∧
    (RV_SpriteSplitTest_VisitSubsector e subsec line = some true ↔
      ∀ (i : Int) (seg : rvseg_t), segOf e subsec i = some seg →
        RV_SpriteSplitTest_VisitSeg e seg line = true) ∧
    (subsec.numsegs ≤ 0 → RV_SpriteSplitTest_VisitSubsector e subsec line = some true) ∧
    (∀ (i : Int) (seg : rvseg_t), segOf e subsec i = some seg →
      RV_SpriteSplitTest_VisitSeg e seg line = false →
      RV_SpriteSplitTest_VisitSubsector e subsec line = some false) := by
  have htot := visitSubsector_total e subsec line hr
  refine ⟨htot, ⟨fun h i seg hseg => visitSubsector_true e subsec line h i seg hseg,
    fun h => visitSubsector_of_all e subsec line hr h⟩, ?_, ?_⟩
  · intro hn
    refine visitSubsector_of_all e subsec line hr ?_
    intro i seg hseg
    unfold segOf at hseg
    split_ifs at hseg with hc
    omega
  · intro i seg hseg hveto
    obtain ⟨b, hb⟩ := htot
    cases b with
    | false => exact hb
    | true =>
      have := visitSubsector_true e subsec line hb i seg hseg
      rw [hveto] at this
      exact absurd this (by simp)

/-- C21, instance: the leaf of the example level whose only seg is the wall is not
permitted for the test line that crosses the wall, and is for the one that does not. -/
theorem leaf_test_is_conjunction_witness :
    RV_SpriteSplitTest_VisitSubsector exEnvWall exLeaf0Wall exTestLine = some false ∧
    RV_SpriteSplitTest_VisitSubsector exEnvWall exLeaf0Wall exTestLineSide0 = some true := by
  refine ⟨?_, ?_⟩
  · exact (leaf_test_is_conjunction exEnvWall exLeaf0Wall exTestLine (by decide)).2.2.2 0
      exWall exWall_seg (visitSeg_one_sided exEnvWall exWall exTestLine exWall_intersects rfl)
  · refine (leaf_test_is_conjunction exEnvWall exLeaf0Wall exTestLineSide0
      (by decide)).2.1.mpr ?_
    intro i seg hseg
    rw [exLeaf0Wall_segOf i seg hseg]
    exact visitSeg_of_not_intersects exEnvWall exWall exTestLineSide0 exWall_misses

/-- C22: at an internal node `RV_SpriteSplitTest_VisitBspNode` puts each endpoint
`(x, z)` of the test line on side 0 when `dx * (z - py) < dy * (x - px)` and on side 1
otherwise. Its result is the result for `children[side1]`, and, when that is `true` and
the sides differ, the result for `children[side2]`: the conjunction of the two, the
second being consulted only when the sides differ. The leaves it visits are those
visited below `children[side1]` and, in that case only, below `children[side2]`.
`RV_SpriteFrag_VisitBspNode` selects the child by the same side: a fragment whose
endpoints are on one side goes into the child of that side, and the pieces of a permitted
split go into the children of the sides of endpoint 1 and of endpoint 2. -/
theorem node_test_consults_endpoint_sides (e : Env) (fuel : Nat) (nodeIdx : Int)
    (node : node_t) (line : SplitTestLine)
    (hnode : isSubsector e nodeIdx = false)
    (hget : getAt e.gpBspNodes nodeIdx = some node) :
    (∀ x z : ℚ, sideOf e node x z =
      if e.RV_FixedToFloat node.line.dx * (z - e.RV_FixedToFloat node.line.y)
          < e.RV_FixedToFloat node.line.dy * (x - e.RV_FixedToFloat node.line.x)
      then 0 else 1) ∧
    RV_SpriteSplitTest_VisitBspNode e (fuel + 1) nodeIdx line =
      (RV_SpriteSplitTest_VisitBspNode e fuel
        (node.children (sideOf e node line.x1 line.z1)) line).bind
        (fun b1 =>
          if b1 = false then some false
          else if sideOf e node line.x1 line.z1 ≠ sideOf e node line.x2 line.z2 then
            RV_SpriteSplitTest_VisitBspNode e fuel
              (node.children (sideOf e node line.x2 line.z2)) line
          else some true) ∧
    (∀ b1 b2 : Bool,
      RV_SpriteSplitTest_VisitBspNode e fuel
        (node.children (sideOf e node line.x1 line.z1)) line = some b1 →
      RV_SpriteSplitTest_VisitBspNode e fuel
        (node.children (sideOf e node line.x2 line.z2)) line = some b2 →
      RV_SpriteSplitTest_VisitBspNode e (fuel + 1) nodeIdx line =
        some (b1 && (decide (sideOf e node line.x1 line.z1 = sideOf e node line.x2 line.z2)
          || b2))) ∧
    RV_SpriteSplitTest_visited e (fuel + 1) nodeIdx line =
      RV_SpriteSplitTest_visited e fuel (node.children (sideOf e node line.x1 line.z1)) line ++
        (if RV_SpriteSplitTest_VisitBspNode e fuel
              (node.children (sideOf e node line.x1 line.z1)) line = some true
            ∧ sideOf e node line.x1 line.z1 ≠ sideOf e node line.x2 line.z2 then
          RV_SpriteSplitTest_visited e fuel (node.children (sideOf e node line.x2 line.z2)) line
        else []) ∧
    (∀ (F : SpriteFrag) (st : RvState),
      sideOf e node F.x1 F.z1 = sideOf e node F.x2 F.z2 →
      RV_SpriteFrag_VisitBspNode e (fuel + 1) nodeIdx F st =
        RV_SpriteFrag_VisitBspNode e fuel (node.children (sideOf e node F.x1 F.z1)) F st) ∧
    (∀ (F : SpriteFrag) (st : RvState),
      sideOf e node F.x1 F.z1 ≠ sideOf e node F.x2 F.z2 →
      RV_SpriteSplitTest_VisitBspNode e (fuel + 1) nodeIdx
        (splitLineOf F (splitTOf e node F)) = some true →
      RV_SpriteFrag_VisitBspNode e (fuel + 1) nodeIdx F st =
        (RV_SpriteFrag_VisitBspNode e fuel (node.children (sideOf e node F.x1 F.z1))
          (splitFrag1 F (splitFrag2 F (splitTOf e node F))) st).bind
          (fun st1 =>
            RV_SpriteFrag_VisitBspNode e fuel (node.children (sideOf e node F.x2 F.z2))
              (splitFrag2 F (splitTOf e node F)) st1)) := by
  refine ⟨?_, splitTest_node e fuel nodeIdx line node hnode hget, ?_,
    visited_node e fuel nodeIdx line node hnode hget, ?_, ?_⟩
  · intro x z
    simp [sideOf, bSideOf]
  · intro b1 b2 h1 h2
    rw [splitTest_node e fuel nodeIdx line node hnode hget, h1, Option.some_bind]
    cases b1
    · simp
    · by_cases hs : sideOf e node line.x1 line.z1 = sideOf e node line.x2 line.z2
      · simp [hs]
      · simp [hs, h2]
  · intro F st hs
    refine visit_same e fuel nodeIdx node F st hnode hget ?_
    unfold sideOf at hs
    cases h1 : bSideOf e node F.x1 F.z1 <;> cases h2 : bSideOf e node F.x2 F.z2 <;>
      simp [h1, h2] at hs ⊢
  · intro F st hs hperm
    refine visit_split e fuel nodeIdx node F st hnode hget ?_ hperm
    intro hb
    exact hs (by unfold sideOf; rw [hb])

/-- C22, instance: the test line of `exFrag` has its endpoints on sides 1 and 0 of the
node of the example level; leaf 1 is visited first, then leaf 0. -/
theorem node_test_consults_endpoint_sides_witness :
    RV_SpriteSplitTest_visited exEnvWall 2 0 exTestLine =
      RV_SpriteSplitTest_visited exEnvWall 1
          (exNode.children (sideOf exEnvWall exNode exTestLine.x1 exTestLine.z1)) exTestLine ++
        (if RV_SpriteSplitTest_VisitBspNode exEnvWall 1
              (exNode.children (sideOf exEnvWall exNode exTestLine.x1 exTestLine.z1))
              exTestLine = some true
            ∧ sideOf exEnvWall exNode exTestLine.x1 exTestLine.z1
              ≠ sideOf exEnvWall exNode exTestLine.x2 exTestLine.z2 then
          RV_SpriteSplitTest_visited exEnvWall 1
            (exNode.children (sideOf exEnvWall exNode exTestLine.x2 exTestLine.z2)) exTestLine
        else []) ∧
    RV_SpriteSplitTest_visited exEnvWall 2 0 exTestLine = [exLeaf1, exLeaf0Wall] :=
  ⟨(node_test_consults_endpoint_sides exEnvWall 1 0 exNode exTestLine exEnvWall_node.1
    exEnvWall_node.2).2.2.2.1, exTestLine_visited⟩

/-- C23: whenever `RV_SpriteFrag_VisitBspNode` reaches the split branch (the endpoints
are on different sides) the sum `dist1 + dist2` is strictly positive, for every
partition line and every fragment, so `dist1 / (dist1 + dist2)` is not a division by
zero; the quotient lies in `[0, 1]`, the clamp leaves it as it is, and the split
parameter lies in `[0, 1]`. -/
theorem split_distance_sum_positive (e : Env) (node : node_t) (F : SpriteFrag)
    (hsides : bSideOf e node F.x1 F.z1 ≠ bSideOf e node F.x2 F.z2) :
    0 < dist1Of e node F + dist2Of e node F ∧
    0 ≤ dist1Of e node F / (dist1Of e node F + dist2Of e node F) ∧
    dist1Of e node F / (dist1Of e node F + dist2Of e node F) ≤ 1 ∧
    splitTOf e node F = dist1Of e node F / (dist1Of e node F + dist2Of e node F) ∧
    0 ≤ splitTOf e node F ∧ splitTOf e node F ≤ 1 :=
  ⟨dist_sum_pos e node F hsides, (quotient_mem e node F hsides).1,
    (quotient_mem e node F hsides).2, splitTOf_of_sides e node F hsides,
    splitTOf_nonneg e node F, splitTOf_le_one e node F⟩

/-- C23, instance: `exFrag` at the node of the example level has the distances 3 and 1. -/
theorem split_distance_sum_positive_witness :
    dist1Of exEnv exNode exFrag = 3 ∧ dist2Of exEnv exNode exFrag = 1 ∧
    0 < dist1Of exEnv exNode exFrag + dist2Of exEnv exNode exFrag ∧
    splitTOf exEnv exNode exFrag
      = dist1Of exEnv exNode exFrag
        / (dist1Of exEnv exNode exFrag + dist2Of exEnv exNode exFrag) := by
  have h := split_distance_sum_positive exEnv exNode exFrag (exFrag_sides exEnv rfl)
  refine ⟨?_, ?_, h.1, h.2.2.2.1⟩
  · norm_num [dist1Of, exEnv, exNode, exFrag]
  · norm_num [dist2Of, exEnv, exNode, exFrag]

/-- C24: whenever the endpoints of a fragment are on different sides of the partition
line of a node, the point of the fragment at the split parameter `t`, which is
endpoint 2 of `frag1` and endpoint 1 of `frag2`, lies on the partition line:
`dx * (z - py) - dy * (x - px) = 0` for it. -/
theorem split_point_on_partition (e : Env) (node : node_t) (F : SpriteFrag)
    (hsides : bSideOf e node F.x1 F.z1 ≠ bSideOf e node F.x2 F.z2) :
    (splitFrag2 F (splitTOf e node F)).x1
      = (1 - splitTOf e node F) * F.x1 + splitTOf e node F * F.x2 ∧
    (splitFrag2 F (splitTOf e node F)).z1
      = (1 - splitTOf e node F) * F.z1 + splitTOf e node F * F.z2 ∧
    (splitFrag1 F (splitFrag2 F (splitTOf e node F))).x2
      = (splitFrag2 F (splitTOf e node F)).x1 ∧
    (splitFrag1 F (splitFrag2 F (splitTOf e node F))).z2
      = (splitFrag2 F (splitTOf e node F)).z1 ∧
    e.RV_FixedToFloat node.line.dx
        * ((splitFrag2 F (splitTOf e node F)).z1 - e.RV_FixedToFloat node.line.y)
      - e.RV_FixedToFloat node.line.dy
        * ((splitFrag2 F (splitTOf e node F)).x1 - e.RV_FixedToFloat node.line.x) = 0 := by
  refine ⟨?_, ?_, rfl, rfl, ?_⟩
  · simp only [splitFrag2]; ring
  · simp only [splitFrag2]; ring
  · have h := lineEq_lerp e node F (splitTOf e node F)
    rw [lineEq_split e node F hsides] at h
    simpa [lineEq, splitFrag2] using h

/-- C24, instance: `exFrag` is cut at `x = 0`, on the partition line of `exNode`. -/
theorem split_point_on_partition_witness :
    (splitFrag2 exFrag (splitTOf exEnv exNode exFrag)).x1 = 0 ∧
    exEnv.RV_FixedToFloat exNode.line.dx
        * ((splitFrag2 exFrag (splitTOf exEnv exNode exFrag)).z1
          - exEnv.RV_FixedToFloat exNode.line.y)
      - exEnv.RV_FixedToFloat exNode.line.dy
        * ((splitFrag2 exFrag (splitTOf exEnv exNode exFrag)).x1
          - exEnv.RV_FixedToFloat exNode.line.x) = 0 := by
  refine ⟨?_, (split_point_on_partition exEnv exNode exFrag (exFrag_sides exEnv rfl)).2.2.2.2⟩
  rw [ex_splitTOf exEnv rfl]
  norm_num [splitFrag2, exFrag]

/-- C25, at an input where the claim fails: the endpoints of `exFragOnLine` are on
different sides of the partition line of `exNode`, endpoint 1 being on the line itself.
The split parameter is 0, both parameters of the test line are 0, and the test line that
`RV_SpriteFrag_VisitBspNode` builds is the single point `(0, 1)`: its two endpoints are
equal and on the same side. -/
theorem test_line_degenerate_on_partition :
    bSideOf exEnv exNode exFragOnLine.x1 exFragOnLine.z1
      ≠ bSideOf exEnv exNode exFragOnLine.x2 exFragOnLine.z2 ∧
    splitTOf exEnv exNode exFragOnLine = 0 ∧
    splitLineOf exFragOnLine (splitTOf exEnv exNode exFragOnLine)
      = { x1 := 0, z1 := 1, x2 := 0, z2 := 1, y := 5 } ∧
    bSideOf exEnv exNode (splitLineOf exFragOnLine (splitTOf exEnv exNode exFragOnLine)).x1
        (splitLineOf exFragOnLine (splitTOf exEnv exNode exFragOnLine)).z1
      = bSideOf exEnv exNode (splitLineOf exFragOnLine (splitTOf exEnv exNode exFragOnLine)).x2
        (splitLineOf exFragOnLine (splitTOf exEnv exNode exFragOnLine)).z2 := by
  have ht : splitTOf exEnv exNode exFragOnLine = 0 :=
    splitTOf_zero_of_dist1 exEnv exNode exFragOnLine (by
      norm_num [dist1Of, exEnv, exNode, exFragOnLine, exFrag])
  have hl : splitLineOf exFragOnLine 0 = { x1 := 0, z1 := 1, x2 := 0, z2 := 1, y := 5 } := by
    norm_num [splitLineOf, clamp, exFragOnLine, exFrag]
  refine ⟨?_, ht, ?_, ?_⟩
  · rw [ex_bSideOf exEnv rfl, ex_bSideOf exEnv rfl]
    norm_num [exFragOnLine, exFrag]
  · rw [ht, hl]
  · rw [ht, hl]

/-- C26, as stated, fails: endpoint 2 of `exFragEndOnLine` lies on the partition line of
`exNode` (its distance is 0) and endpoint 1 on side 0. `RV_SpriteFrag_VisitBspNode`
splits the fragment with the split parameter 1 and files two pieces: the whole fragment
in leaf 0 and a piece from `(0, 1)` to `(0, 1)`, of width zero, in leaf 1. -/
theorem on_line_endpoint_still_split :
    dist2Of exEnv exNode exFragEndOnLine = 0 ∧
    splitTOf exEnv exNode exFragEndOnLine = 1 ∧
    RV_SpriteFrag_VisitBspNode exEnv 2 0 exFragEndOnLine exState = some { exState with
      gRvSpriteFrags :=
        [{ exFragEndOnLine with nextSubsecFragIdx := -1 },
         { exFragEndOnLine with x1 := 0, z1 := 1, ul := 8, nextSubsecFragIdx := -1 }]
      gRvDrawSubsecSprFrags := [0, 1] } := by
  have hd : dist2Of exEnv exNode exFragEndOnLine = 0 := by
    norm_num [dist2Of, exEnv, exNode, exFragEndOnLine, exFrag]
  have hb : bSideOf exEnv exNode exFragEndOnLine.x1 exFragEndOnLine.z1 = true ∧
      bSideOf exEnv exNode exFragEndOnLine.x2 exFragEndOnLine.z2 = false := by
    rw [ex_bSideOf exEnv rfl, ex_bSideOf exEnv rfl]
    norm_num [exFragEndOnLine, exFrag]
  have hsides : bSideOf exEnv exNode exFragEndOnLine.x1 exFragEndOnLine.z1
      ≠ bSideOf exEnv exNode exFragEndOnLine.x2 exFragEndOnLine.z2 := by
    rw [hb.1, hb.2]; decide
  have ht : splitTOf exEnv exNode exFragEndOnLine = 1 := by
    rw [splitTOf_of_sides exEnv exNode exFragEndOnLine hsides, hd]
    norm_num [dist1Of, exEnv, exNode, exFragEndOnLine, exFrag]
  refine ⟨hd, ht, ?_⟩
  rw [visit_split exEnv 1 0 exNode exFragEndOnLine exState exEnv_node.1 exEnv_node.2 hsides
    (exEnv_splitTest _), ht]
  have h0 : exNode.children (sideOf exEnv exNode exFragEndOnLine.x1 exFragEndOnLine.z1)
      = 32768 := by
    unfold sideOf; rw [hb.1]; rfl
  have h1 : exNode.children (sideOf exEnv exNode exFragEndOnLine.x2 exFragEndOnLine.z2)
      = 32769 := by
    unfold sideOf; rw [hb.2]; rfl
  rw [h0, h1, (exEnv_file _ _).1]
  have hf1 : splitFrag1 exFragEndOnLine (splitFrag2 exFragEndOnLine 1) = exFragEndOnLine := by
    norm_num [splitFrag1, splitFrag2, exFragEndOnLine, exFrag]
  have hf2 : splitFrag2 exFragEndOnLine 1
      = { exFragEndOnLine with x1 := 0, z1 := 1, ul := 8 } := by
    norm_num [splitFrag2, exFragEndOnLine, exFrag]
  rw [hf1, hf2]
  have hA : RV_SpriteFrag_VisitSubsector exLeaf0 exFragEndOnLine exState = some { exState with
      gRvSpriteFrags := [{ exFragEndOnLine with nextSubsecFragIdx := -1 }]
      gRvDrawSubsecSprFrags := [0, -1] } := by
    simp [RV_SpriteFrag_VisitSubsector, exLeaf0, exState]
  rw [hA, Option.some_bind, (exEnv_file _ _).2]
  simp [RV_SpriteFrag_VisitSubsector, exLeaf1, exState]

/-- C26, amended: when one endpoint of a fragment lies exactly on the partition line of
a node (its distance `dist1` or `dist2` is 0), that endpoint is on side 1 and
`RV_SpriteFrag_VisitBspNode` passes the whole fragment into a single child unless the
other endpoint is on side 0 and the split test permits the split. With the other
endpoint on side 1 the whole fragment goes into `children[1]`. With the other endpoint on
side 0 and the split denied the whole fragment goes into the child on the side of the
anchor. Only with the other endpoint on side 0 and the split permitted is the fragment
split: the split parameter is 0 when endpoint 1 is the one on the line and 1 when it is
endpoint 2, so that one piece is the whole fragment and the other has zero width. On a
well formed tree the split test returns one of the two answers. -/
theorem on_line_fragment_whole_unless_permitted (e : Env) (fuel : Nat) (nodeIdx : Int)
    (node : node_t) (F : SpriteFrag) (st : RvState)
    (hnode : isSubsector e nodeIdx = false)
    (hget : getAt e.gpBspNodes nodeIdx = some node)
    (hline : dist1Of e node F = 0 ∨ dist2Of e node F = 0) :
    (dist1Of e node F = 0 → sideOf e node F.x1 F.z1 = 1) ∧
    (dist2Of e node F = 0 → sideOf e node F.x2 F.z2 = 1) ∧
    ((dist1Of e node F = 0 ∧ sideOf e node F.x2 F.z2 = 1) ∨
        (dist2Of e node F = 0 ∧ sideOf e node F.x1 F.z1 = 1) →
      RV_SpriteFrag_VisitBspNode e (fuel + 1) nodeIdx F st
        = RV_SpriteFrag_VisitBspNode e fuel node.children1 F st) ∧
    ((dist1Of e node F = 0 ∧ sideOf e node F.x2 F.z2 = 0) ∨
        (dist2Of e node F = 0 ∧ sideOf e node F.x1 F.z1 = 0) →
      RV_SpriteSplitTest_VisitBspNode e (fuel + 1) nodeIdx
        (splitLineOf F (splitTOf e node F)) = some false →
      RV_SpriteFrag_VisitBspNode e (fuel + 1) nodeIdx F st
        = RV_SpriteFrag_VisitBspNode e fuel
          (if bCenterSideOf e node st then node.children0 else node.children1) F st) ∧
    (dist1Of e node F = 0 → sideOf e node F.x2 F.z2 = 0 →
      RV_SpriteSplitTest_VisitBspNode e (fuel + 1) nodeIdx
        (splitLineOf F (splitTOf e node F)) = some true →
      splitTOf e node F = 0 ∧
      RV_SpriteFrag_VisitBspNode e (fuel + 1) nodeIdx F st =
        (RV_SpriteFrag_VisitBspNode e fuel node.children1
          { F with x2 := F.x1, z2 := F.z1, ur := F.ul } st).bind
          (fun st1 => RV_SpriteFrag_VisitBspNode e fuel node.children0 F st1)) ∧
    (dist2Of e node F = 0 → sideOf e node F.x1 F.z1 = 0 →
      RV_SpriteSplitTest_VisitBspNode e (fuel + 1) nodeIdx
        (splitLineOf F (splitTOf e node F)) = some true →
      splitTOf e node F = 1 ∧
      RV_SpriteFrag_VisitBspNode e (fuel + 1) nodeIdx F st =
        (RV_SpriteFrag_VisitBspNode e fuel node.children0 F st).bind
          (fun st1 => RV_SpriteFrag_VisitBspNode e fuel node.children1
            { F with x1 := F.x2, z1 := F.z2, ul := F.ur } st1)) ∧
    (wellFormedBsp e (fuel + 1) nodeIdx = true →
      ∃ b, RV_SpriteSplitTest_VisitBspNode e (fuel + 1) nodeIdx
        (splitLineOf F (splitTOf e node F)) = some b) := by
  have hon1 : dist1Of e node F = 0 → sideOf e node F.x1 F.z1 = 1 := fun hd =>
    (sideOf_one_iff e node _ _).mpr (bSideOf_of_dist1 e node F hd)
  have hon2 : dist2Of e node F = 0 → sideOf e node F.x2 F.z2 = 1 := fun hd =>
    (sideOf_one_iff e node _ _).mpr (bSideOf_of_dist2 e node F hd)
  have hdiff : sideOf e node F.x1 F.z1 = 0 ∨ sideOf e node F.x2 F.z2 = 0 →
      bSideOf e node F.x1 F.z1 ≠ bSideOf e node F.x2 F.z2 := by
    intro hzero hb
    have hs : sideOf e node F.x1 F.z1 = sideOf e node F.x2 F.z2 := by
      unfold sideOf; rw [hb]
    rcases hline with hd | hd
    · have h1 := hon1 hd
      rcases hzero with h0 | h0
      · omega
      · omega
    · have h2 := hon2 hd
      rcases hzero with h0 | h0
      · omega
      · omega
  refine ⟨hon1, hon2, ?_, ?_, ?_, ?_, ?_⟩
  · intro hone
    have h12 : sideOf e node F.x1 F.z1 = 1 ∧ sideOf e node F.x2 F.z2 = 1 := by
      rcases hone with ⟨hd, hs⟩ | ⟨hd, hs⟩
      · exact ⟨hon1 hd, hs⟩
      · exact ⟨hs, hon2 hd⟩
    have hb1 := (sideOf_one_iff e node _ _).mp h12.1
    have hb2 := (sideOf_one_iff e node _ _).mp h12.2
    rw [visit_same e fuel nodeIdx node F st hnode hget (by rw [hb1, hb2]), h12.1]
    rfl
  · intro hzero hdeny
    have hz : sideOf e node F.x1 F.z1 = 0 ∨ sideOf e node F.x2 F.z2 = 0 := by
      rcases hzero with ⟨_, hs⟩ | ⟨_, hs⟩
      · exact Or.inr hs
      · exact Or.inl hs
    exact visit_denied e fuel nodeIdx node F st hnode hget (hdiff hz) hdeny
  · intro hd h0 hperm
    have hsides := hdiff (Or.inr h0)
    have ht := splitTOf_zero_of_dist1 e node F hd
    refine ⟨ht, ?_⟩
    rw [visit_split e fuel nodeIdx node F st hnode hget hsides hperm, ht, hon1 hd, h0,
      splitFrag1_zero, splitFrag2_zero]
    rfl
  · intro hd h0 hperm
    have hsides := hdiff (Or.inl h0)
    have ht := splitTOf_one_of_dist2 e node F hsides hd
    refine ⟨ht, ?_⟩
    rw [visit_split e fuel nodeIdx node F st hnode hget hsides hperm, ht, hon2 hd, h0,
      splitFrag1_one, splitFrag2_one]
    rfl
  · intro hw
    exact splitTest_total e _ (fuel + 1) nodeIdx hw

/-- C26, amended, two instances at `exNode`. Endpoint 1 of `exFragOnLineSide1` lies on
the partition line and endpoint 2 on side 1: the fragment is filed whole in leaf 1.
Endpoint 2 of `exFragEndOnLine` lies on the line and endpoint 1 on side 0; in the level
with the wall next to the line the split is denied and the fragment is filed whole in
leaf 1, the side of the anchor. -/
theorem on_line_fragment_whole_unless_permitted_witness :
    (dist1Of exEnv exNode exFragOnLineSide1 = 0 ∧
      RV_SpriteFrag_VisitBspNode exEnv 2 0 exFragOnLineSide1 exState = some { exState with
        gRvSpriteFrags := [{ exFragOnLineSide1 with nextSubsecFragIdx := -1 }]
        gRvDrawSubsecSprFrags := [-1, 0] }) ∧
    (dist2Of exEnvWallNear exNode exFragEndOnLine = 0 ∧
      sideOf exEnvWallNear exNode exFragEndOnLine.x1 exFragEndOnLine.z1 = 0 ∧
      RV_SpriteSplitTest_VisitBspNode exEnvWallNear 2 0
        (splitLineOf exFragEndOnLine (splitTOf exEnvWallNear exNode exFragEndOnLine))
          = some false ∧
      RV_SpriteFrag_VisitBspNode exEnvWallNear 2 0 exFragEndOnLine exState
        = some { exState with
          gRvSpriteFrags := [{ exFragEndOnLine with nextSubsecFragIdx := -1 }]
          gRvDrawSubsecSprFrags := [-1, 0] }) := by
  refine ⟨?_, ?_⟩
  · have hd : dist1Of exEnv exNode exFragOnLineSide1 = 0 := by
      norm_num [dist1Of, exEnv, exNode, exFragOnLineSide1, exFrag]
    have hs : sideOf exEnv exNode exFragOnLineSide1.x2 exFragOnLineSide1.z2 = 1 := by
      unfold sideOf
      rw [ex_bSideOf exEnv rfl]
      norm_num [exFragOnLineSide1, exFrag]
    have h := on_line_fragment_whole_unless_permitted exEnv 1 0 exNode exFragOnLineSide1
      exState exEnv_node.1 exEnv_node.2 (Or.inl hd)
    refine ⟨hd, ?_⟩
    rw [h.2.2.1 (Or.inl ⟨hd, hs⟩)]
    have hc : exNode.children1 = 32769 := rfl
    rw [hc, (exEnv_file _ _).2]
    simp [RV_SpriteFrag_VisitSubsector, exLeaf1, exState]
  · obtain ⟨hd, hb1, _, _⟩ := exFragEndOnLine_facts
    have hs : sideOf exEnvWallNear exNode exFragEndOnLine.x1 exFragEndOnLine.z1 = 0 :=
      (sideOf_zero_iff _ _ _ _).mpr hb1
    have h := on_line_fragment_whole_unless_permitted exEnvWallNear 1 0 exNode
      exFragEndOnLine exState exEnvWallNear_node.1 exEnvWallNear_node.2 (Or.inr hd)
    refine ⟨hd, hs, exEnvWallNear_denied, ?_⟩
    rw [h.2.2.2.1 (Or.inr ⟨hd, hs⟩) exEnvWallNear_denied]
    have hc : bCenterSideOf exEnvWallNear exNode exState = false := by
      unfold bCenterSideOf
      rw [ex_bSideOf exEnvWallNear rfl]
      norm_num [exState]
    have hc1 : exNode.children1 = 32769 := rfl
    rw [hc]
    simp only [Bool.false_eq_true, if_false]
    rw [hc1, exEnvWallNear_file]
    simp [RV_SpriteFrag_VisitSubsector, exLeaf1, exState]

/-- C27: with `ANG45 = 2^29` the rotation index that `RV_CacheThingSpriteFrame` computes
for a rotating frame, `((angToThing - thingAngle + 9 * (ANG45 / 2)) mod 2^32) >> 29`, is
below 8 for all angles, so that the lookups in the 8 entries of `lump` and `flip`
succeed. With `r = (angToThing - thingAngle) mod 2^32` the index is
`((r + 2^28) / 2^29 + 4) mod 8`: the octant of `r` after a shift by half an octant,
counted from 4, and 4 when the two angles are equal. A frame that does not rotate uses
entry 0. -/
theorem rotation_index_in_range (te : ThingEnv) (hang : te.ANG45 = 536870912)
    (angToThing thingAngle : Nat) :
    dirIdxOf te angToThing thingAngle < 8 ∧
    dirIdxOf te angToThing thingAngle =
      (((angToThing % 4294967296 + (4294967296 - thingAngle % 4294967296)) % 4294967296
        + 268435456) / 536870912 + 4) % 8 ∧
    (angToThing % 4294967296 = thingAngle % 4294967296 →
      dirIdxOf te angToThing thingAngle = 4) ∧
    (∀ (thingX thingY : Int) (frame : spriteframe_t),
      frame.rotate = true → frame.lump.length = 8 → frame.flip.length = 8 →
      te.R_PointToAngle2 te.gViewX te.gViewY thingX thingY = angToThing →
      ∃ (lumpIdx : Int) (bFlip : Bool),
        frame.lump[dirIdxOf te angToThing thingAngle]? = some lumpIdx ∧
        frame.flip[dirIdxOf te angToThing thingAngle]? = some bFlip ∧
        RV_CacheThingSpriteFrame te thingX thingY thingAngle frame
          = some (te.texFor lumpIdx, bFlip)) ∧
    (∀ (thingX thingY : Int) (frame : spriteframe_t) (lumpIdx : Int) (bFlip : Bool),
      frame.rotate = false → frame.lump[0]? = some lumpIdx → frame.flip[0]? = some bFlip →
      RV_CacheThingSpriteFrame te thingX thingY thingAngle frame
        = some (te.texFor lumpIdx, bFlip)) := by
  have hlt := dirIdxOf_lt te angToThing thingAngle
  have hoct := dirIdxOf_octant te hang angToThing thingAngle
  refine ⟨hlt, hoct, ?_, ?_, ?_⟩
  · intro heq
    rw [hoct, heq]
    omega
  · intro thingX thingY frame hrot hl hf hang2
    have h1 : dirIdxOf te angToThing thingAngle < frame.lump.length := by rw [hl]; exact hlt
    have h2 : dirIdxOf te angToThing thingAngle < frame.flip.length := by rw [hf]; exact hlt
    refine ⟨frame.lump[dirIdxOf te angToThing thingAngle],
      frame.flip[dirIdxOf te angToThing thingAngle],
      List.getElem?_eq_getElem h1, List.getElem?_eq_getElem h2, ?_⟩
    unfold RV_CacheThingSpriteFrame
    simp only [hrot, if_true, hang2]
    rw [List.getElem?_eq_getElem h1, List.getElem?_eq_getElem h2]
  · intro thingX thingY frame lumpIdx bFlip hrot hl hf
    unfold RV_CacheThingSpriteFrame
    simp [hrot, hl, hf]

/-- C27, instance: seen from straight ahead (both angles 0) the rotating frame of the
example shows entry 4, and with the thing turned by `3 * 2^29` entry 1. -/
theorem rotation_index_in_range_witness :
    exThingEnv.ANG45 = 536870912 ∧
    dirIdxOf exThingEnv 0 0 = 4 ∧ dirIdxOf exThingEnv 0 1610612736 = 1 ∧
    RV_CacheThingSpriteFrame exThingEnv 0 0 0 exFrameRot = some (exTex 14, false) := by
  have h := rotation_index_in_range exThingEnv rfl 0 0
  refine ⟨rfl, h.2.2.1 rfl, by decide, ?_⟩
  obtain ⟨lumpIdx, bFlip, h1, h2, h3⟩ := h.2.2.2.1 0 0 exFrameRot rfl rfl rfl rfl
  rw [h.2.2.1 rfl] at h1 h2
  have e1 : lumpIdx = 14 := by
    have : exFrameRot.lump[4]? = some 14 := by decide
    rw [this] at h1
    exact (Option.some.inj h1).symm
  have e2 : bFlip = false := by
    have : exFrameRot.flip[4]? = some false := by decide
    rw [this] at h2
    exact (Option.some.inj h2).symm
  rw [h3, e1, e2]
  rfl

/-- C28: when the child references below `nodeIdx` form a finite tree of height less
than `h` ending in leaf markers, both walks end within recursion depth `h`:
`RV_SpriteSplitTest_VisitBspNode` and `RV_SpriteFrag_VisitBspNode` give with every
depth budget from `h` on what they give with the budget `h`, and that is a result when
the segs of the leaves are inside `gpRvSegs` (and the draw indices inside the list of
heads). Every recursive call is on a child: at an internal node the split test is
composed of the tests of `children[side1]` and `children[side2]` with the budget one
less, the traversal with a fragment of the traversals of `children[0]` and
`children[1]`, and each child is the root of a tree of height less than `h - 1`. -/
theorem walks_end_within_height (e : Env) (h : Nat) (nodeIdx : Int)
    (hw : finiteBsp e h nodeIdx = true) (F : SpriteFrag) (line : SplitTestLine)
    (st : RvState) :
    (∀ fuel : Nat, h ≤ fuel →
      RV_SpriteSplitTest_VisitBspNode e fuel nodeIdx line
        = RV_SpriteSplitTest_VisitBspNode e h nodeIdx line) ∧
    (∀ fuel : Nat, h ≤ fuel →
      RV_SpriteFrag_VisitBspNode e fuel nodeIdx F st
        = RV_SpriteFrag_VisitBspNode e h nodeIdx F st) ∧
    (wellFormedBsp e h nodeIdx = true →
      ∃ b, ∀ fuel : Nat, h ≤ fuel →
        RV_SpriteSplitTest_VisitBspNode e fuel nodeIdx line = some b) ∧
    (wellFormedFileBsp e st.gRvDrawSubsecSprFrags.length h nodeIdx = true →
      ∃ st', ∀ fuel : Nat, h ≤ fuel →
        RV_SpriteFrag_VisitBspNode e fuel nodeIdx F st = some st') ∧
    (∀ node : node_t, isSubsector e nodeIdx = false →
      getAt e.gpBspNodes nodeIdx = some node →
      finiteBsp e (h - 1) node.children0 = true ∧
      finiteBsp e (h - 1) node.children1 = true ∧
      (∀ fuel : Nat, RV_SpriteSplitTest_VisitBspNode e (fuel + 1) nodeIdx line =
        (RV_SpriteSplitTest_VisitBspNode e fuel
          (node.children (sideOf e node line.x1 line.z1)) line).bind
          (fun b1 =>
            if b1 = false then some false
            else if sideOf e node line.x1 line.z1 ≠ sideOf e node line.x2 line.z2 then
              RV_SpriteSplitTest_VisitBspNode e fuel
                (node.children (sideOf e node line.x2 line.z2)) line
            else some true)) ∧
      (∀ fuel : Nat,
        RV_SpriteFrag_VisitBspNode e (fuel + 1) nodeIdx F st = none ∨
        RV_SpriteFrag_VisitBspNode e (fuel + 1) nodeIdx F st
          = RV_SpriteFrag_VisitBspNode e fuel node.children0 F st ∨
        RV_SpriteFrag_VisitBspNode e (fuel + 1) nodeIdx F st
          = RV_SpriteFrag_VisitBspNode e fuel node.children1 F st ∨
        RV_SpriteFrag_VisitBspNode e (fuel + 1) nodeIdx F st =
          (RV_SpriteFrag_VisitBspNode e fuel (node.children (sideOf e node F.x1 F.z1))
            (splitFrag1 F (splitFrag2 F (splitTOf e node F))) st).bind
            (fun st1 =>
              RV_SpriteFrag_VisitBspNode e fuel (node.children (sideOf e node F.x2 F.z2))
                (splitFrag2 F (splitTOf e node F)) st1))) := by
  have hs1 := splitTest_stable e line h nodeIdx hw
  have hs2 := fun fuel => visit_stable e h nodeIdx hw fuel F st
  refine ⟨hs1, hs2, ?_, ?_, ?_⟩
  · intro hwf
    obtain ⟨b, hb⟩ := splitTest_total e line h nodeIdx hwf
    exact ⟨b, fun fuel hle => by rw [hs1 fuel hle, hb]⟩
  · intro hwf
    obtain ⟨st', hst⟩ := visit_total e h nodeIdx F st hwf
    exact ⟨st', fun fuel hle => by rw [hs2 fuel hle, hst]⟩
  · intro node hnode hget
    obtain ⟨k, rfl⟩ : ∃ k, h = k + 1 := by
      cases h with
      | zero => simp [finiteBsp, treeAll] at hw
      | succ k => exact ⟨k, rfl⟩
    have hc := fun side => treeAll_child e _ k nodeIdx node hnode hget hw side
    have hc0 := hc 0
    have hc1 := hc 1
    rw [children_zero] at hc0
    rw [children_one] at hc1
    exact ⟨hc0, hc1, fun fuel => splitTest_node e fuel nodeIdx line node hnode hget,
      fun fuel => visit_node_cases e fuel nodeIdx node F st hnode hget⟩

/-- C28, instance: the tree of the example level has a node above two leaves; both
walks from the root give with the depth budget 7 what they give with the budget 2,
which is a result. -/
theorem walks_end_within_height_witness :
    finiteBsp exEnv 2 0 = true ∧
    RV_SpriteSplitTest_VisitBspNode exEnv 7 0 exTestLine = some true ∧
    (∃ st', RV_SpriteFrag_VisitBspNode exEnv 7 0 exFrag exState = some st' ∧
      RV_SpriteFrag_VisitBspNode exEnv 2 0 exFrag exState = some st') := by
  have h := walks_end_within_height exEnv 2 0 (by decide) exFrag exTestLine exState
  refine ⟨by decide, ?_, ?_⟩
  · rw [h.1 7 (by decide)]
    exact exEnv_splitTest exTestLine
  · obtain ⟨st', hst⟩ := h.2.2.2.1 (by decide)
    exact ⟨st', hst 7 (by decide), hst 2 (by decide)⟩

/-- C29: in every state that the reset of `RV_BuildSpriteFragLists` followed by any
number of filings of `RV_SpriteFrag_VisitSubsector` leads to, every list head is `-1` or
the index of a stored fragment and the link of every stored fragment is `-1` or a
smaller index than the fragment's own. Hence the walk from every head ends without
meeting an index twice, every index it meets is inside the store (the assertion of the
gathering loop holds), the gathering loop of `RV_DrawSubsecSpriteFrags` returns, and so
does `RV_DrawSubsecSpriteFrags` for every draw subsector. -/
theorem links_stay_well_formed (e : Env) (st : RvState) (hreach : FilingReachable e st) :
    ((∀ head ∈ st.gRvDrawSubsecSprFrags,
        head = -1 ∨ (0 ≤ head ∧ head < st.gRvSpriteFrags.length)) ∧
      (∀ (j : Nat) (frag : SpriteFrag), st.gRvSpriteFrags[j]? = some frag →
        frag.nextSubsecFragIdx = -1 ∨
          (0 ≤ frag.nextSubsecFragIdx ∧ frag.nextSubsecFragIdx < j))) ∧
    LinksOk st ∧
    (∀ head ∈ st.gRvDrawSubsecSprFrags, ∀ acc : List (Nat × SpriteFrag),
      ∃ walk, leafList st.gRvSpriteFrags st.gRvSpriteFrags.length head = some walk ∧
        (walk.map Prod.fst).Nodup ∧
        (∀ p ∈ walk, p.1 < st.gRvSpriteFrags.length ∧ st.gRvSpriteFrags[p.1]? = some p.2) ∧
        RV_DrawSubsecSpriteFrags_gather st.gRvSpriteFrags st.gRvSpriteFrags.length head acc
          = some (acc ++ walk)) ∧
    (∀ drawSubsecIdx : Int,
      0 ≤ drawSubsecIdx ∧ drawSubsecIdx.toNat < e.gRvDrawSubsecs.length →
      st.gRvSortedFrags = [] →
      ∃ drawn st', RV_DrawSubsecSpriteFrags e st.gRvSpriteFrags.length drawSubsecIdx st
        = some (drawn, st')) := by
  obtain ⟨hok, hlen⟩ := linksOk_filing e st hreach
  refine ⟨hok, hok, fun head hmem acc => linksOk_walk st hok head hmem acc, ?_⟩
  intro drawSubsecIdx hidx hempty
  exact draw_total e drawSubsecIdx st (linksDescend_of_linksOk st hok) hempty hidx hlen

/-- C29, instance: the store of three fragments filed one after the other in leaf 0 of
the example level; the gathering loop from the head 2 meets the indices 2, 1 and 0. -/
theorem links_stay_well_formed_witness :
    LinksOk exStoreState ∧
    ∃ walk, RV_DrawSubsecSpriteFrags_gather exStoreState.gRvSpriteFrags 3 2 [] = some walk ∧
      walk.map Prod.fst = [2, 1, 0] := by
  have h := links_stay_well_formed exEnv exStoreState exStore_filing
  refine ⟨h.2.1, ?_⟩
  obtain ⟨walk, hw, _, _, hg⟩ := h.2.2.1 2 (by decide) []
  refine ⟨walk, by simpa using hg, ?_⟩
  have hw2 : leafList exStoreState.gRvSpriteFrags 3 2
      = some [(2, { exFrag with nextSubsecFragIdx := 1, depth := 5, ul := 4 }),
          (1, { exFrag with nextSubsecFragIdx := 0, depth := 7 }),
          (0, { exFrag with nextSubsecFragIdx := -1, depth := 5 })] := by
    decide
  have hlen : exStoreState.gRvSpriteFrags.length = 3 := rfl
  rw [hlen, hw2] at hw
  rw [← Option.some.inj hw]
  rfl

/-- C30: on a well formed BSP tree `RV_SpriteFrag_VisitBspNode` returns, and the store
only grows at its end: the store before is a prefix of the store after, so every
fragment that was stored is unchanged at its index, its link included; there are as many
list heads as before; a head that changed is the index of a newly appended fragment; and
the list of every leaf whose head did not change is walked exactly as before. -/
theorem store_is_append_only (e : Env) (h : Nat) (nodeIdx : Int) (F : SpriteFrag)
    (st : RvState)
    (hw : wellFormedFileBsp e st.gRvDrawSubsecSprFrags.length h nodeIdx = true) :
    ∃ (st' : RvState) (pieces : List SpriteFrag),
      RV_SpriteFrag_VisitBspNode e h nodeIdx F st = some st' ∧
      st'.gRvSpriteFrags = st.gRvSpriteFrags ++ pieces ∧
      (∀ (j : Nat) (frag : SpriteFrag), st.gRvSpriteFrags[j]? = some frag →
        st'.gRvSpriteFrags[j]? = some frag) ∧
      st'.gRvDrawSubsecSprFrags.length = st.gRvDrawSubsecSprFrags.length ∧
      (∀ d : Nat, st'.gRvDrawSubsecSprFrags[d]? ≠ st.gRvDrawSubsecSprFrags[d]? →
        ∃ head : Int, st'.gRvDrawSubsecSprFrags[d]? = some head ∧
          (st.gRvSpriteFrags.length : Int) ≤ head ∧ head < st'.gRvSpriteFrags.length) ∧
      (∀ (d : Nat) (head : Int) (fuel : Nat) (walk : List (Nat × SpriteFrag)),
        st.gRvDrawSubsecSprFrags[d]? = some head →
        st'.gRvDrawSubsecSprFrags[d]? = some head →
        leafList st.gRvSpriteFrags fuel head = some walk →
        leafList st'.gRvSpriteFrags fuel head = some walk) := by
  obtain ⟨st', hv⟩ := visit_total e h nodeIdx F st hw
  obtain ⟨⟨pieces, hp⟩, hlen, hheads⟩ := visit_appendOnly e h nodeIdx F st st' hv
  refine ⟨st', pieces, hv, hp, ?_, hlen, ?_, ?_⟩
  · intro j frag hget
    have hj : j < st.gRvSpriteFrags.length := by
      by_contra hc
      rw [List.getElem?_eq_none (not_lt.mp hc)] at hget
      exact absurd hget (by simp)
    rw [hp, List.getElem?_append_left hj]
    exact hget
  · intro d hne
    rcases hheads d with h1 | h1
    · exact absurd h1 hne
    · exact h1
  · intro d head fuel walk _ _ hwalk
    rw [hp]
    exact leafList_append st.gRvSpriteFrags pieces fuel head walk hwalk

/-- C30, instance: a fragment on side 0 traverses the example level from the store of
three fragments; the store grows by one fragment, the head of leaf 1 stays `-1`. -/
theorem store_is_append_only_witness :
    RV_SpriteFrag_VisitBspNode exEnv 2 0 exFragSide0 exStoreState = some { exStoreState with
      gRvSpriteFrags := exStoreState.gRvSpriteFrags ++
        [{ exFragSide0 with nextSubsecFragIdx := 2 }]
      gRvDrawSubsecSprFrags := [3, -1] } ∧
    ∃ (st' : RvState) (pieces : List SpriteFrag),
      RV_SpriteFrag_VisitBspNode exEnv 2 0 exFragSide0 exStoreState = some st' ∧
      st'.gRvSpriteFrags = exStoreState.gRvSpriteFrags ++ pieces := by
  refine ⟨?_, ?_⟩
  · have hs : bSideOf exEnv exNode exFragSide0.x1 exFragSide0.z1 = true ∧
        bSideOf exEnv exNode exFragSide0.x2 exFragSide0.z2 = true := by
      rw [ex_bSideOf exEnv rfl, ex_bSideOf exEnv rfl]
      norm_num [exFragSide0]
    rw [visit_same exEnv 1 0 exNode exFragSide0 exStoreState exEnv_node.1 exEnv_node.2
      (by rw [hs.1, hs.2])]
    have hc : exNode.children (sideOf exEnv exNode exFragSide0.x1 exFragSide0.z1) = 32768 := by
      unfold sideOf; rw [hs.1]; rfl
    rw [hc, (exEnv_file _ _).1]
    rfl
  · obtain ⟨st', pieces, hv, hp, _⟩ :=
      store_is_append_only exEnv 2 0 exFragSide0 exStoreState (by decide)
    exact ⟨st', pieces, hv, hp⟩

/-- C31: on a well formed BSP tree in which every leaf is referenced once below the
starting node, one traversal of `RV_SpriteFrag_VisitBspNode` returns and calls
`RV_SpriteFrag_VisitSubsector` on each leaf at most once: the leaves it visits are
leaves below the node without repetition, it files at most one fragment for each visited
leaf, so at most as many fragments as there are leaves below the node. When moreover the
drawn leaves have draw subsector indices of their own, the link of every filed fragment
is a list head from before the traversal, and the list of every leaf afterwards is the
list as it was or one filed fragment followed by the list as it was: two fragments of one
traversal are never on the same list. -/
theorem leaf_visited_at_most_once (e : Env) (h : Nat) (nodeIdx : Int) (F : SpriteFrag)
    (st : RvState)
    (hw : wellFormedFileBsp e st.gRvDrawSubsecSprFrags.length h nodeIdx = true)
    (hleaves : (leavesBelow e h nodeIdx).Nodup) :
    (RV_SpriteFrag_visited e h nodeIdx F st).Nodup ∧
    (∀ leaf ∈ RV_SpriteFrag_visited e h nodeIdx F st, leaf ∈ leavesBelow e h nodeIdx) ∧
    (RV_SpriteFrag_visited e h nodeIdx F st).length ≤ (leavesBelow e h nodeIdx).length ∧
    ∃ (st' : RvState) (pieces : List SpriteFrag),
      RV_SpriteFrag_VisitBspNode e h nodeIdx F st = some st' ∧
      st'.gRvSpriteFrags = st.gRvSpriteFrags ++ pieces ∧
      pieces.length ≤ (RV_SpriteFrag_visited e h nodeIdx F st).length ∧
      pieces.length ≤ (leavesBelow e h nodeIdx).length ∧
      ((slotsBelow e h nodeIdx).Nodup →
        (∀ piece ∈ pieces, ∃ d : Nat,
          st.gRvDrawSubsecSprFrags[d]? = some piece.nextSubsecFragIdx) ∧
        (∀ (d : Nat) (head : Int) (fuel : Nat) (walk : List (Nat × SpriteFrag)),
          st.gRvDrawSubsecSprFrags[d]? = some head →
          leafList st.gRvSpriteFrags fuel head = some walk →
          (st'.gRvDrawSubsecSprFrags[d]? = some head ∧
            leafList st'.gRvSpriteFrags fuel head = some walk) ∨
          (∃ (k : Nat) (piece : SpriteFrag), pieces[k]? = some piece ∧
            st'.gRvDrawSubsecSprFrags[d]?
              = some ((st.gRvSpriteFrags.length + k : Nat) : Int) ∧
            leafList st'.gRvSpriteFrags (fuel + 1) ((st.gRvSpriteFrags.length + k : Nat) : Int)
              = some ((st.gRvSpriteFrags.length + k, piece) :: walk)))) := by
  obtain ⟨st', hv⟩ := visit_total e h nodeIdx F st hw
  have hsub := visited_subperm e h nodeIdx F st st' hv
  have hcount := visit_count e h nodeIdx F st st' hv
  obtain ⟨⟨pieces, hp⟩, _, _⟩ := visit_appendOnly e h nodeIdx F st st' hv
  have hlen : pieces.length ≤ (RV_SpriteFrag_visited e h nodeIdx F st).length := by
    rw [hp, List.length_append] at hcount
    omega
  refine ⟨nodup_of_subperm _ _ hsub hleaves, fun leaf hmem => hsub.subset hmem,
    hsub.length_le, st', pieces, hv, hp, hlen, le_trans hlen hsub.length_le, ?_⟩
  intro hslots
  obtain ⟨pieces', hp', _, hheads, hlinks⟩ := visit_filedApart e h nodeIdx F st st' hslots hv
  have heq : pieces' = pieces := by
    rw [hp] at hp'
    exact (List.append_cancel_left hp').symm
  subst heq
  refine ⟨fun piece hmem => ?_, ?_⟩
  · obtain ⟨d, _, hd⟩ := hlinks piece hmem
    exact ⟨d, hd⟩
  · intro d head fuel walk hhead hwalk
    rcases hheads d with h1 | ⟨_, k, piece, hk, hold, hnew⟩
    · left
      refine ⟨by rw [h1, hhead], ?_⟩
      rw [hp]
      exact leafList_append st.gRvSpriteFrags pieces' fuel head walk hwalk
    · right
      have hlink : piece.nextSubsecFragIdx = head := by
        rw [hhead] at hold
        exact (Option.some.inj hold).symm
      refine ⟨k, piece, hk, hnew, ?_⟩
      rw [hp]
      exact leafList_piece st.gRvSpriteFrags pieces' k piece fuel walk hk (by rw [hlink]; exact hwalk)

/-- C31, instance: in the example level the leaves 0 and 1 are below the root; the
traversal with `exFrag` visits leaf 1 and then leaf 0, each once, and files two
fragments. -/
theorem leaf_visited_at_most_once_witness :
    leavesBelow exEnv 2 0 = [0, 1] ∧ slotsBelow exEnv 2 0 = [0, 1] ∧
    RV_SpriteFrag_visited exEnv 2 0 exFrag exState = [1, 0] ∧
    (RV_SpriteFrag_visited exEnv 2 0 exFrag exState).Nodup ∧
    ∃ (st' : RvState) (pieces : List SpriteFrag),
      RV_SpriteFrag_VisitBspNode exEnv 2 0 exFrag exState = some st' ∧
      st'.gRvSpriteFrags = exState.gRvSpriteFrags ++ pieces ∧ pieces.length ≤ 2 ∧
      (∀ piece ∈ pieces, ∃ d : Nat,
        exState.gRvDrawSubsecSprFrags[d]? = some piece.nextSubsecFragIdx) := by
  have h := leaf_visited_at_most_once exEnv 2 0 exFrag exState (by decide) (by decide)
  obtain ⟨hnd, _, _, st', pieces, hv, hp, _, hlen, hrest⟩ := h
  exact ⟨by decide, by decide, exFrag_visited, hnd, st', pieces, hv, hp, hlen,
    (hrest (by decide)).1⟩

end RvSprites
